import Mathlib

/-!
# pflog: a leveled logger with a triggered backlog

A shallow embedding of the Go package `pflog` (`pflog.go`, `entry.go`, `tag.go`,
`textformatter.go`, `jsonformatter.go`, `yamlformatter.go`) and theorems about it.

Conventions of the embedding

* Go `int` and `LogLevel` are `Int`.  The only counter that grows without a bound
  given by the data is `duplicateCount`; its increment wraps at 64 bits.
  `nextEntry += 1` runs right after a successful index at `nextEntry`, and
  `firstEntry + 1` is taken of a cursor below `backlogDepth`, so neither can
  leave the 64 bit range.
* A method with a pointer receiver becomes a function from the state to the new
  state.  A method returning `error` returns the new state together with
  `Option String` (`none` is Go `nil`).
* A Go runtime panic (integer division by zero, index or slice bounds out of
  range, assignment to an entry of a nil map, nil dereference) is `Except.error`.
* `io.Writer.Write` is recorded in a trace of events; the mutex is not modelled
  (the embedding is sequential).
* `time.Time.Format`, `json.Marshal`, `json.MarshalIndent` and `yaml.Marshal` are
  library code outside the repository and are parameters (`Runtime`).
* `make([]*Entry, n)` panics where the Go runtime panics (`makeSlice`: a negative
  length, or more than `maxAlloc` bytes of pointers); an allocation the runtime
  accepts, and `append`, succeed: the memory of the machine is not modelled.
-/

namespace Pflog

/-! ## Levels -/

/-- Go: `type LogLevel int`. -/
abbrev LogLevel := Int

def Trace : LogLevel := 0
def Debug : LogLevel := 1
def Information : LogLevel := 2
def Warning : LogLevel := 3
def Error : LogLevel := 4
def Fatal : LogLevel := 5

def LogLevelTrace : String := "trace"
def LogLevelDebug : String := "debug"
def LogLevelInformation : String := "information"
def LogLevelWarning : String := "warning"
def LogLevelError : String := "error"
def LogLevelFatal : String := "fatal"

def DefaultBacklogDepth : Int := 500

/-- Go `time.ANSIC`. -/
def timeANSIC : String := "Mon Jan _2 15:04:05 2006"

/-- Go `strings.ToUpper` (the level names are ASCII). -/
def toUpper (s : String) : String := String.mk (s.data.map Char.toUpper)

/-- Go `unicode.ToLower` as far as a comparison with ASCII text can tell: exact
on the ASCII runes and on the two other runes whose lower case is an ASCII letter
(U+0130 goes to `i`, U+212A goes to `k`).  Every other rune has a lower case
outside ASCII and is kept as it is. -/
def lowerRune (c : Char) : Char :=
  if c = Char.ofNat 0x130 then 'i'
  else if c = Char.ofNat 0x212A then 'k'
  else c.toLower

/-- Go `strings.ToLower`, rune by rune with `lowerRune`: the result is Go's on
every string whose lower case is ASCII, and differs from an ASCII string exactly
when Go's does. -/
def toLower (s : String) : String := String.mk (s.data.map lowerRune)

/-- Go `fmt.Sprintf("%d", n)`. -/
def sprintD (n : Int) : String := toString n

/-- Two's complement wrap of a Go `int` (64 bit). -/
def wrapInt64 (x : Int) : Int := (x + 2 ^ 63) % 2 ^ 64 - 2 ^ 63

/-- Go `convertLevelToString`: `Except.error` is the returned `error`. -/
def convertLevelToString (level : LogLevel) (capitalize : Bool) : Except String String :=
  let named : Option String :=
    if level = Trace then some LogLevelTrace
    else if level = Debug then some LogLevelDebug
    else if level = Information then some LogLevelInformation
    else if level = Warning then some LogLevelWarning
    else if level = Error then some LogLevelError
    else if level = Fatal then some LogLevelFatal
    else none
  match named with
  | none => Except.error ("unable to convert level: " ++ sprintD level)
  | some stringLevel => Except.ok (if capitalize then toUpper stringLevel else stringLevel)

/-- Go `convertStringToLevel`. -/
def convertStringToLevel (level : String) : LogLevel :=
  let lowered := toLower level
  if lowered = LogLevelTrace then Trace
  else if lowered = LogLevelDebug then Debug
  else if lowered = LogLevelInformation then Information
  else if lowered = LogLevelWarning then Warning
  else if lowered = LogLevelError then Error
  else if lowered = LogLevelFatal then Fatal
  else Error

/-! ## Tags and entries -/

/-- The dynamic value of a tag (Go `interface{}`), as far as `%v` prints it. -/
inductive TagValue where
  | int (i : Int)
  | str (s : String)
  deriving DecidableEq

/-- Go `fmt.Sprintf("%v", v)`. -/
def sprintV : TagValue → String
  | TagValue.int i => toString i
  | TagValue.str s => s

structure Tag where
  name : String
  value : TagValue
  deriving DecidableEq

def CreateTag (name : String) (value : TagValue) : Tag := { name := name, value := value }

/-- An instant (`time.Time`), kept abstract. -/
abbrev Instant := Nat

/-- Go `Entry`.  The tag slice of an entry is a slice header taken when the entry
is made; `AddTag` only appends past its length, so the entry keeps the tags it
was made with. -/
structure Entry where
  level : LogLevel
  timestamp : Instant
  message : String
  tags : List Tag
  deriving DecidableEq

def NewEntry (level : LogLevel) (timestamp : Instant) (message : String) (tagset : List Tag) : Entry :=
  { level := level, timestamp := timestamp, message := message, tags := tagset }

/-! ## Formatters -/

/-- A Go `map[string]interface{}`: `none` is the nil map. -/
abbrev GoMap := Option (List (String × TagValue))

/-- Go `m[k] = v`: panics on the nil map. -/
def mapAssign (m : GoMap) (k : String) (v : TagValue) : Except String GoMap :=
  match m with
  | none => Except.error "assignment to entry in nil map"
  | some kvs => Except.ok (some ((kvs.filter (fun kv => kv.1 ≠ k)) ++ [(k, v)]))

/-- Go `JSONOutputFormat` and `YAMLOutputFormat` (same fields). -/
structure OutputFormat where
  TimeStamp : String
  Level : String
  Message : String
  Tags : GoMap
  deriving DecidableEq

/-- Library functions the formatters call. -/
structure Runtime where
  formatTime : String → Instant → String
  jsonMarshal : OutputFormat → Except String String
  jsonMarshalIndent : OutputFormat → Except String String
  yamlMarshal : OutputFormat → Except String String

structure TextFormatter where
  timeFormat : String
  deriving DecidableEq

structure JSONFormatter where
  timeFormat : String
  prettyPrint : Bool
  deriving DecidableEq

structure YAMLFormatter where
  timeFormat : String
  deriving DecidableEq

/-- Go `levelString, err := convertLevelToString(level, true); if err != nil
{ levelString = err.Error() }`. -/
def levelOrError (level : LogLevel) : String :=
  match convertLevelToString level true with
  | Except.ok s => s
  | Except.error e => e

/-- Go `TextFormatter.Format`. -/
def TextFormatter.Format (rt : Runtime) (tf : TextFormatter) (entry : Entry) : Except String String :=
  let dateString := rt.formatTime tf.timeFormat entry.timestamp
  let levelString := levelOrError entry.level
  let tagString := entry.tags.foldl (fun acc v => acc ++ (v.name ++ ": " ++ sprintV v.value ++ " ")) ""
  Except.ok (dateString ++ " [" ++ levelString ++ "] " ++ tagString ++ entry.message ++ "\n")

/-- The loop `for _, v := range entry.tags { out.Tags[v.name] = v.value }`. -/
def assignTags : GoMap → List Tag → Except String GoMap
  | m, [] => Except.ok m
  | m, v :: rest =>
    match mapAssign m v.name v.value with
    | Except.error e => Except.error e
    | Except.ok m1 => assignTags m1 rest

/-- Go `JSONFormatter.Format`.  `jsonOutput := JSONOutputFormat{}` leaves `Tags` nil. -/
def JSONFormatter.Format (rt : Runtime) (jf : JSONFormatter) (entry : Entry) : Except String String :=
  let timeStamp := rt.formatTime jf.timeFormat entry.timestamp
  let level := levelOrError entry.level
  match assignTags none entry.tags with
  | Except.error e => Except.error e
  | Except.ok tags =>
    let jsonOutput : OutputFormat :=
      { TimeStamp := timeStamp, Level := level, Message := entry.message, Tags := tags }
    let marshalled := if jf.prettyPrint then rt.jsonMarshalIndent jsonOutput else rt.jsonMarshal jsonOutput
    match marshalled with
    | Except.ok formattedMessage => Except.ok formattedMessage
    | Except.error marshallErr => Except.ok marshallErr

/-- Go `YAMLFormatter.Format`.  `yamlOutput := YAMLOutputFormat{}` leaves `Tags` nil. -/
def YAMLFormatter.Format (rt : Runtime) (yf : YAMLFormatter) (entry : Entry) : Except String String :=
  let timeStamp := rt.formatTime yf.timeFormat entry.timestamp
  let level := levelOrError entry.level
  match assignTags none entry.tags with
  | Except.error e => Except.error e
  | Except.ok tags =>
    let yamlOutput : OutputFormat :=
      { TimeStamp := timeStamp, Level := level, Message := entry.message, Tags := tags }
    match rt.yamlMarshal yamlOutput with
    | Except.ok formattedMessage => Except.ok formattedMessage
    | Except.error marshallErr => Except.ok marshallErr

/-- The implementations of the Go interface `LogFormatter` in the repository. -/
inductive LogFormatter where
  | text (tf : TextFormatter)
  | json (jf : JSONFormatter)
  | yaml (yf : YAMLFormatter)
  deriving DecidableEq

def LogFormatter.ID : LogFormatter → String
  | LogFormatter.text _ => "text"
  | LogFormatter.json _ => "json"
  | LogFormatter.yaml _ => "yaml"

def LogFormatter.SetTimestampFormat (f : LogFormatter) (format : String) : LogFormatter :=
  match f with
  | LogFormatter.text _ => LogFormatter.text { timeFormat := format }
  | LogFormatter.json jf => LogFormatter.json { jf with timeFormat := format }
  | LogFormatter.yaml _ => LogFormatter.yaml { timeFormat := format }

/-- Dynamic dispatch of `Format`; `Except.error` is a panic. -/
def LogFormatter.Format (rt : Runtime) (f : LogFormatter) (entry : Entry) : Except String String :=
  match f with
  | LogFormatter.text tf => tf.Format rt entry
  | LogFormatter.json jf => jf.Format rt entry
  | LogFormatter.yaml yf => yf.Format rt entry

/-! ## The engine -/

/-- An `io.Writer`, as far as the engine observes it: whether `Write` of the
given bytes reports an error. -/
structure Writer where
  failsOn : String → Bool

/-- What a call does to the outside: a `Write` on the sink at `index`, or a
diagnostic line printed on standard output. -/
inductive Event where
  | write (index : Nat) (bytes : String)
  | diag (text : String)
  deriving DecidableEq

/-- Go `Log` without the mutex.  `bufferedMessages` is a slice of `*Entry`
(`none` is nil). -/
structure Log where
  level : LogLevel
  triggerLevel : LogLevel
  backlogDepth : Int
  nextEntry : Int
  firstEntry : Int
  compactDuplicates : Bool
  lastLog : Option Entry
  duplicateCount : Int
  bufferedMessages : List (Option Entry)
  outputTargets : List Writer
  outputFormatters : List LogFormatter
  tags : List Tag

/-- The slice of `n` nil pointers. -/
def makeEntries (n : Int) : List (Option Entry) := List.replicate n.toNat none

/-- The most bytes one allocation of the Go runtime may ask for (`maxAlloc` of a
64 bit platform with 48 address bits: two to the power 48). -/
def maxAlloc : Int := 281474976710656

/-- Go `make([]*Entry, n)`: the runtime panics when `n` is negative or when `n`
pointers of 8 bytes are more than `maxAlloc`; otherwise the slice of `n` nil
pointers. -/
def makeSlice (n : Int) : Except String (List (Option Entry)) :=
  if n < 0 ∨ n * 8 > maxAlloc then Except.error "makeslice: len out of range"
  else Except.ok (makeEntries n)

/-- Go `New`. -/
def New : Log :=
  { level := Error
    triggerLevel := Fatal
    backlogDepth := DefaultBacklogDepth
    nextEntry := 0
    firstEntry := 0
    lastLog := none
    duplicateCount := 0
    compactDuplicates := true
    bufferedMessages := makeEntries DefaultBacklogDepth
    outputTargets := []
    outputFormatters := []
    tags := [] }

/-- Go `Log.Clone`. -/
def Log.Clone (l : Log) : Log :=
  let newLog := New
  let newLog := { newLog with level := l.level }
  let newLog := { newLog with triggerLevel := l.triggerLevel }
  let newLog := { newLog with backlogDepth := l.backlogDepth }
  let newLog := { newLog with compactDuplicates := l.compactDuplicates }
  let newLog := { newLog with outputTargets := newLog.outputTargets ++ l.outputTargets }
  let newLog := { newLog with outputFormatters := newLog.outputFormatters ++ l.outputFormatters }
  let newLog := { newLog with tags := newLog.tags ++ l.tags }
  newLog

/-- Go `Log.SetLevel`. -/
def Log.SetLevel (l : Log) (level : LogLevel) : Log × Option String :=
  if level > l.triggerLevel then
    (l, some "unable to set level to higher than trigger level")
  else if level > Fatal then
    (l, some ("log level is out of range: " ++ sprintD level))
  else
    ({ l with level := level }, none)

/-- Go `Log.SetTriggerLevel`. -/
def Log.SetTriggerLevel (l : Log) (triggerLevel : LogLevel) : Log × Option String :=
  if triggerLevel < l.level then
    (l, some "unable to set trigger level to less than log level")
  else if triggerLevel > Fatal then
    (l, some ("trigger level is out of range: " ++ sprintD triggerLevel))
  else
    ({ l with triggerLevel := triggerLevel }, none)

/-- Go `Log.SetBacklogDepth`: `Except.error` is the panic of `make` (it comes
after `backlogDepth` is assigned and before the buffer and the cursors are), the
`Option String` is the returned `error`. -/
def Log.SetBacklogDepth (l : Log) (depth : Int) : Except String (Log × Option String) :=
  if depth < 0 then
    Except.ok (l, some ("bad backlog depth selected: " ++ sprintD depth))
  else
    let l1 := { l with backlogDepth := depth }
    match makeSlice depth with
    | Except.error p => Except.error p
    | Except.ok slots =>
      Except.ok ({ l1 with bufferedMessages := slots, firstEntry := 0, nextEntry := 0 }, none)

/-- The log a call `SetBacklogDepth(depth)` that returns goes on with (the
receiver itself where the call panics). -/
def Log.withBacklogDepth (l : Log) (depth : Int) : Log :=
  match l.SetBacklogDepth depth with
  | Except.ok (l1, _) => l1
  | Except.error _ => l

/-- Go `Log.SetCompactDuplicates`. -/
def Log.SetCompactDuplicates (l : Log) (compact : Bool) : Log :=
  { l with compactDuplicates := compact }

/-- Go `Log.GetCompactDuplicates`. -/
def Log.GetCompactDuplicates (l : Log) : Bool := l.compactDuplicates

/-- Go `Log.AddOutputTargetAndFormatter`: the new state and the returned index. -/
def Log.AddOutputTargetAndFormatter (l : Log) (writer : Writer) (formatter : LogFormatter) : Log × Int :=
  let l1 := { l with outputTargets := l.outputTargets ++ [writer] }
  let l2 := { l1 with outputFormatters := l1.outputFormatters ++ [formatter] }
  (l2, (l2.outputTargets.length : Int) - 1)

/-- Go `Log.AddOutputTarget`. -/
def Log.AddOutputTarget (l : Log) (writer : Writer) : Log × Int :=
  let l1 := (l.AddOutputTargetAndFormatter writer (LogFormatter.text { timeFormat := timeANSIC })).1
  (l1, (l1.outputTargets.length : Int) - 1)

/-- Go `Log.AddTag`. -/
def Log.AddTag (l : Log) (name : String) (value : TagValue) : Log :=
  { l with tags := l.tags ++ [CreateTag name value] }

/-- Go slice expression `xs[lo:hi]` on a slice whose capacity is its length. -/
def goSlice (xs : List (Option Entry)) (lo hi : Int) : Except String (List (Option Entry)) :=
  if 0 ≤ lo ∧ lo ≤ hi ∧ hi ≤ (xs.length : Int) then
    Except.ok ((xs.take hi.toNat).drop lo.toNat)
  else
    Except.error "slice bounds out of range"

/-- The loop `for index, logger := range l.outputTargets` shared by `Log.Log`
and `dumpBufferRange`: format `entry` with the formatter at `index`, write it to
`logger`, print a diagnostic when the write fails, go on with the next sink.
`label` is the text of the diagnostic. -/
def writeLoop (rt : Runtime) (label : String) (formatters : List LogFormatter) (entry : Option Entry) :
    Nat → List Writer → Except String (List Event)
  | _, [] => Except.ok []
  | index, logger :: rest =>
    match formatters[index]? with
    | none => Except.error "index out of range"
    | some formatter =>
      match entry with
      | none => Except.error "invalid memory address or nil pointer dereference"
      | some e =>
        match formatter.Format rt e with
        | Except.error p => Except.error p
        | Except.ok logMessage =>
          let here :=
            if logger.failsOn logMessage then
              [Event.write index logMessage, Event.diag (label ++ sprintD index)]
            else [Event.write index logMessage]
          match writeLoop rt label formatters entry (index + 1) rest with
          | Except.error p => Except.error p
          | Except.ok more => Except.ok (here ++ more)

/-- Go `Log.dumpBufferRange`. -/
def Log.dumpBufferRange (rt : Runtime) (l : Log) : List (Option Entry) → Except String (List Event)
  | [] => Except.ok []
  | entry :: rest =>
    match writeLoop rt "failed to write to log index: " l.outputFormatters entry 0 l.outputTargets with
    | Except.error p => Except.error p
    | Except.ok here =>
      match Log.dumpBufferRange rt l rest with
      | Except.error p => Except.error p
      | Except.ok more => Except.ok (here ++ more)

/-- Go `Log.dumpBuffer`. -/
def Log.dumpBuffer (rt : Runtime) (l : Log) : Except String (Log × List Event) :=
  if l.firstEntry ≠ l.nextEntry then
    let dumped : Except String (List Event) :=
      if l.nextEntry > l.firstEntry then
        match goSlice l.bufferedMessages l.firstEntry l.nextEntry with
        | Except.error p => Except.error p
        | Except.ok entries => l.dumpBufferRange rt entries
      else
        match goSlice l.bufferedMessages l.firstEntry l.backlogDepth with
        | Except.error p => Except.error p
        | Except.ok upper =>
          match l.dumpBufferRange rt upper with
          | Except.error p => Except.error p
          | Except.ok first =>
            match goSlice l.bufferedMessages 0 l.nextEntry with
            | Except.error p => Except.error p
            | Except.ok lower =>
              match l.dumpBufferRange rt lower with
              | Except.error p => Except.error p
              | Except.ok second => Except.ok (first ++ second)
    match dumped with
    | Except.error p => Except.error p
    | Except.ok events =>
      match makeSlice l.backlogDepth with
      | Except.error p => Except.error p
      | Except.ok slots =>
        Except.ok ({ l with bufferedMessages := slots, firstEntry := 0, nextEntry := 0 }, events)
  else
    Except.ok (l, [])

/-- Go `Log.addBufferEntry`. -/
def Log.addBufferEntry (l : Log) (logEntry : Entry) : Except String Log :=
  let rolled : Except String Log :=
    if l.nextEntry ≥ l.backlogDepth then
      if l.backlogDepth = 0 then Except.error "integer divide by zero"
      else Except.ok { l with nextEntry := 0, firstEntry := Int.tmod (l.firstEntry + 1) l.backlogDepth }
    else Except.ok l
  match rolled with
  | Except.error p => Except.error p
  | Except.ok l1 =>
    if 0 ≤ l1.nextEntry ∧ l1.nextEntry < (l1.bufferedMessages.length : Int) then
      Except.ok { l1 with
        bufferedMessages := l1.bufferedMessages.set l1.nextEntry.toNat (some logEntry)
        nextEntry := l1.nextEntry + 1 }
    else Except.error "index out of range"

/-- Go `Log.buffer`. -/
def Log.buffer (l : Log) (logEntry : Entry) : Except String Log :=
  let step : Except String (Log × Bool) :=
    if l.compactDuplicates then
      let inner : Except String (Log × Bool) :=
        match l.lastLog with
        | some lastLog =>
          if logEntry.message = lastLog.message then
            Except.ok ({ l with duplicateCount := wrapInt64 (l.duplicateCount + 1) }, true)
          else
            let dumped : Except String Log :=
              if l.duplicateCount > 1 then
                l.addBufferEntry
                  (NewEntry lastLog.level lastLog.timestamp
                    (lastLog.message ++ " (" ++ sprintD l.duplicateCount ++ ")") l.tags)
              else Except.ok l
            match dumped with
            | Except.error p => Except.error p
            | Except.ok l1 => Except.ok ({ l1 with duplicateCount := 0 }, false)
        | none => Except.ok (l, false)
      match inner with
      | Except.error p => Except.error p
      | Except.ok (l1, isDuplicate) => Except.ok ({ l1 with lastLog := some logEntry }, isDuplicate)
    else Except.ok (l, false)
  match step with
  | Except.error p => Except.error p
  | Except.ok (l1, isDuplicate) =>
    if !isDuplicate then l1.addBufferEntry logEntry else Except.ok l1

/-- Go `Log.Log`; `now` is the value of `time.Now()`. -/
def Log.Log (rt : Runtime) (l : Log) (now : Instant) (level : LogLevel) (message : String) :
    Except String (Log × List Event) :=
  let logEntry := NewEntry level now message l.tags
  match l.buffer logEntry with
  | Except.error p => Except.error p
  | Except.ok l1 =>
    if level ≥ l1.level then
      if level ≥ l1.triggerLevel then
        l1.dumpBuffer rt
      else
        match writeLoop rt "failed to write to logger: " l1.outputFormatters (some logEntry) 0 l1.outputTargets with
        | Except.error p => Except.error p
        | Except.ok events => Except.ok (l1, events)
    else Except.ok (l1, [])

/-- Go `Log.SetOutputFormatter`: `Except.error` is a panic of the slot assignment,
the `Option String` is the returned `error`. -/
def Log.SetOutputFormatter (l : Pflog.Log) (index : Int) (formatter : LogFormatter) :
    Except String (Pflog.Log × Option String) :=
  if index < 0 ∨ index ≥ (l.outputTargets.length : Int) then
    Except.ok (l, some "bad output formatter index")
  else if index.toNat < l.outputFormatters.length then
    Except.ok ({ l with outputFormatters := l.outputFormatters.set index.toNat formatter }, none)
  else Except.error "index out of range"

/-- Go `Log.GetOutputFormatter`: the formatter in the slot, or the returned `error`. -/
def Log.GetOutputFormatter (l : Pflog.Log) (index : Int) : Except String (Except String LogFormatter) :=
  if index < 0 ∨ index ≥ (l.outputTargets.length : Int) then
    Except.ok (Except.error "bad output formatter index")
  else
    match l.outputFormatters[index.toNat]? with
    | some formatter => Except.ok (Except.ok formatter)
    | none => Except.error "index out of range"

/-! ## Sequences of calls -/

/-- A call of one of the two level setters. -/
inductive LevelCall where
  | setLevel (level : LogLevel)
  | setTriggerLevel (triggerLevel : LogLevel)

/-- Perform one setter call: the new state and the returned `error`. -/
def LevelCall.apply (l : Log) : LevelCall → Log × Option String
  | LevelCall.setLevel level => l.SetLevel level
  | LevelCall.setTriggerLevel triggerLevel => l.SetTriggerLevel triggerLevel

/-- Perform setter calls one after the other (a returned `error` is ignored by
the caller, the state goes on to the next call). -/
def runLevelCalls (l : Log) : List LevelCall → Log
  | [] => l
  | c :: cs => runLevelCalls (c.apply l).1 cs

/-- Perform `Log` calls one after the other, each with its clock reading, level
and message; the events of all calls in order.  A panic ends the run. -/
def runLogs (rt : Runtime) : Log → List (Instant × LogLevel × String) → Except String (Log × List Event)
  | l, [] => Except.ok (l, [])
  | l, (now, level, message) :: rest =>
    match l.Log rt now level message with
    | Except.error p => Except.error p
    | Except.ok (l1, events) =>
      match runLogs rt l1 rest with
      | Except.error p => Except.error p
      | Except.ok (l2, more) => Except.ok (l2, events ++ more)

/-- The same `Log` call performed `n` times in a row. -/
def logRepeat (rt : Runtime) (now : Instant) (level : LogLevel) (message : String) :
    Nat → Log → Except String Log
  | 0, l => Except.ok l
  | n + 1, l =>
    match l.Log rt now level message with
    | Except.error p => Except.error p
    | Except.ok (l1, _) => logRepeat rt now level message n l1

/-- The `Write` calls among the events: sink index and bytes. -/
def writesOf : List Event → List (Nat × String)
  | [] => []
  | Event.write index bytes :: rest => (index, bytes) :: writesOf rest
  | Event.diag _ :: rest => writesOf rest

/-- The message texts in the slots of the backlog (`none` for a nil slot). -/
def Log.slotMessages (l : Pflog.Log) : List (Option String) :=
  l.bufferedMessages.map (fun slot => slot.map (fun e => e.message))

/-- The entries `dumpBuffer` hands to `dumpBufferRange`, in that order: nothing
when the cursors are equal, the slice between the cursors when `nextEntry` is
ahead, otherwise the slice up to `backlogDepth` followed by the slice below
`nextEntry`. -/
def Log.drainOrder (l : Pflog.Log) : Except String (List (Option Entry)) :=
  if l.firstEntry ≠ l.nextEntry then
    if l.nextEntry > l.firstEntry then
      goSlice l.bufferedMessages l.firstEntry l.nextEntry
    else
      match goSlice l.bufferedMessages l.firstEntry l.backlogDepth with
      | Except.error p => Except.error p
      | Except.ok upper =>
        match goSlice l.bufferedMessages 0 l.nextEntry with
        | Except.error p => Except.error p
        | Except.ok lower => Except.ok (upper ++ lower)
  else Except.ok []

/-- A runtime to evaluate the model on examples: the time layout is ignored and
the instant is printed in decimal, the marshallers print level and message. -/
def sampleRuntime : Runtime :=
  { formatTime := fun _ t => toString t
    jsonMarshal := fun o => Except.ok ("\x7b" ++ o.Level ++ "," ++ o.Message ++ "\x7d")
    jsonMarshalIndent := fun o => Except.ok ("\x7b" ++ o.Level ++ "," ++ o.Message ++ "\x7d")
    yamlMarshal := fun o => Except.ok ("level: " ++ o.Level ++ " message: " ++ o.Message) }

/-- A sink whose writes all succeed. -/
def goodWriter : Writer := { failsOn := fun _ => false }

/-- A sink whose writes all fail. -/
def brokenWriter : Writer := { failsOn := fun _ => true }

/-- The fields a push never touches agree in the two states. -/
def sameSettings (a b : Log) : Prop :=
  a.level = b.level ∧ a.triggerLevel = b.triggerLevel ∧ a.backlogDepth = b.backlogDepth
  ∧ a.compactDuplicates = b.compactDuplicates ∧ a.outputTargets = b.outputTargets
  ∧ a.outputFormatters = b.outputFormatters ∧ a.tags = b.tags

/-- The compacted entry `buffer` builds for a pending run of duplicates. -/
def compactedEntry (l : Log) (lastLog : Entry) : Entry :=
  NewEntry lastLog.level lastLog.timestamp
    (lastLog.message ++ " (" ++ sprintD l.duplicateCount ++ ")") l.tags

/-- A log for examples: depth 4, a failing sink at index 0 and a working sink at
index 1, both with the default text formatter; level `Error`, trigger `Fatal`. -/
def twoSinkLog : Log :=
  (((New.withBacklogDepth 4).AddOutputTarget brokenWriter).1.AddOutputTarget goodWriter).1

/-- The message texts a run of `Log` calls leaves in the slots, `none` when the
run panics. -/
def slotsAfter (r : Except String (Log × List Event)) : Option (List (Option String)) :=
  match r with
  | Except.error _ => none
  | Except.ok (l, _) => some l.slotMessages

/-- Every formatter of the log renders every entry made with the tags of the
log (the text formatter always does, the JSON and YAML formatters do when the
log has no tags). -/
def rendersAll (rt : Runtime) (l : Log) : Prop :=
  ∀ f ∈ l.outputFormatters, ∀ (level : LogLevel) (now : Instant) (message : String),
    ∃ bytes, f.Format rt (NewEntry level now message l.tags) = Except.ok bytes

/-- A call of one of the public operations of a log. -/
inductive Call where
  | setLevel (level : LogLevel)
  | setTriggerLevel (triggerLevel : LogLevel)
  | setBacklogDepth (depth : Int)
  | setCompactDuplicates (compact : Bool)
  | addOutputTarget (writer : Writer)
  | addOutputTargetAndFormatter (writer : Writer) (formatter : LogFormatter)
  | setOutputFormatter (index : Int) (formatter : LogFormatter)
  | addTag (name : String) (value : TagValue)
  | clone
  | log (now : Instant) (level : LogLevel) (message : String)

/-- Perform one call: the state to go on with and the events of the call.  A
returned `error` or index is dropped by the caller; `clone` goes on with the
clone; a panic ends the run. -/
def Call.apply (rt : Runtime) (l : Log) : Call → Except String (Log × List Event)
  | Call.setLevel level => Except.ok ((l.SetLevel level).1, [])
  | Call.setTriggerLevel triggerLevel => Except.ok ((l.SetTriggerLevel triggerLevel).1, [])
  | Call.setBacklogDepth depth =>
    match l.SetBacklogDepth depth with
    | Except.error p => Except.error p
    | Except.ok (l1, _) => Except.ok (l1, [])
  | Call.setCompactDuplicates compact => Except.ok (l.SetCompactDuplicates compact, [])
  | Call.addOutputTarget writer => Except.ok ((l.AddOutputTarget writer).1, [])
  | Call.addOutputTargetAndFormatter writer formatter =>
    Except.ok ((l.AddOutputTargetAndFormatter writer formatter).1, [])
  | Call.setOutputFormatter index formatter =>
    match l.SetOutputFormatter index formatter with
    | Except.error p => Except.error p
    | Except.ok (l1, _) => Except.ok (l1, [])
  | Call.addTag name value => Except.ok (l.AddTag name value, [])
  | Call.clone => Except.ok (l.Clone, [])
  | Call.log now level message => l.Log rt now level message

/-- Perform calls one after the other; the events of all calls in order. -/
def runCalls (rt : Runtime) : Log → List Call → Except String (Log × List Event)
  | l, [] => Except.ok (l, [])
  | l, c :: cs =>
    match c.apply rt l with
    | Except.error p => Except.error p
    | Except.ok (l1, events) =>
      match runCalls rt l1 cs with
      | Except.error p => Except.error p
      | Except.ok (l2, more) => Except.ok (l2, events ++ more)

/-- The entries a run of calls leaves in the slots, `none` when the run panics. -/
def entriesAfter (r : Except String (Log × List Event)) : Option (List (Option Entry)) :=
  match r with
  | Except.error _ => none
  | Except.ok (l, _) => some l.bufferedMessages

/-- The cursors `(firstEntry, nextEntry)` a run leaves, `none` when the run panics. -/
def cursorsAfter (r : Except String (Log × List Event)) : Option (Int × Int) :=
  match r with
  | Except.error _ => none
  | Except.ok (l, _) => some (l.firstEntry, l.nextEntry)

/-- The upper-case name of a level of the enumeration, as the specification of
the text format words it (the empty string outside `Trace..Fatal`). -/
def upperLevelName (level : LogLevel) : String :=
  if level = 0 then "TRACE"
  else if level = 1 then "DEBUG"
  else if level = 2 then "INFORMATION"
  else if level = 3 then "WARNING"
  else if level = 4 then "ERROR"
  else if level = 5 then "FATAL"
  else ""

/-- The text of one tag in a rendered line: name, colon, value, blank. -/
def tagText (v : Tag) : String := v.name ++ ": " ++ sprintV v.value ++ " "

/-- The text of the tags in a rendered line: the tag texts in order. -/
def tagsText : List Tag → String
  | [] => ""
  | v :: rest => tagText v ++ tagsText rest

/-- One string occurs inside another. -/
def hasPart (s part : String) : Prop := ∃ before after, s = before ++ part ++ after

/-- The name of a level of the enumeration, as the specification words it (the
empty string outside `Trace..Fatal`). -/
def levelName (level : LogLevel) : String :=
  if level = 0 then "trace"
  else if level = 1 then "debug"
  else if level = 2 then "information"
  else if level = 3 then "warning"
  else if level = 4 then "error"
  else if level = 5 then "fatal"
  else ""

/-- The slots `[lo, hi)` of a buffer. -/
def slotRange (slots : List (Option Entry)) (lo hi : Int) : List (Option Entry) :=
  (slots.take hi.toNat).drop lo.toNat

/-- The slots a drain goes through, in the words of the specification: the slots
`[firstEntry, nextEntry)` when `nextEntry` is ahead of `firstEntry`, otherwise
the slots `[firstEntry, backlogDepth)` followed by `[0, nextEntry)`. -/
def drainSlots (l : Log) : List (Option Entry) :=
  if l.nextEntry > l.firstEntry then
    slotRange l.bufferedMessages l.firstEntry l.nextEntry
  else
    slotRange l.bufferedMessages l.firstEntry l.backlogDepth
      ++ slotRange l.bufferedMessages 0 l.nextEntry

/-- The writes of one entry to every sink in index order: index and rendering. -/
def fanoutOf (rt : Runtime) (formatters : List LogFormatter) (e : Entry) :
    List (Nat × Except String String) :=
  formatters.enum.map (fun p => (p.1, p.2.Format rt e))

/-- The cursors are in range: not negative, and on a buffer of depth at least 1
`firstEntry` below the depth and `nextEntry` at most the depth. -/
def cursorsInRange (l : Log) : Prop :=
  0 ≤ l.backlogDepth ∧ 0 ≤ l.firstEntry ∧ 0 ≤ l.nextEntry
  ∧ (1 ≤ l.backlogDepth → l.firstEntry < l.backlogDepth ∧ l.nextEntry ≤ l.backlogDepth)

/-- Whether a call may change `lastLog` or `duplicateCount` of the state the run
goes on with: a `Log` call made while compaction is on, and `Clone` (the run goes
on with the clone, another log). -/
def Call.mayChangeDedup (l : Log) : Call → Bool
  | Call.log _ _ _ => l.compactDuplicates
  | Call.clone => true
  | _ => false

/-- A log for examples: depth 4, compaction on, an empty buffer, and `"x"` (logged
at `Trace` at instant 1) retained in `lastLog`. -/
def retainedLog : Log :=
  { (New.withBacklogDepth 4) with lastLog := some (NewEntry Trace 1 "x" []) }

/-- A log for examples: depth 3 with a failing sink at index 0 and a working sink
at index 1, after the seven messages a to g at `Trace` (instants 1 to 7): the
slots hold g, e, f, with `firstEntry = 2` and `nextEntry = 1`. -/
def wrappedLog : Log :=
  { (((New.withBacklogDepth 3).AddOutputTarget brokenWriter).1.AddOutputTarget goodWriter).1 with
    lastLog := some (NewEntry Trace 7 "g" [])
    bufferedMessages := [some (NewEntry Trace 7 "g" []), some (NewEntry Trace 5 "e" []),
      some (NewEntry Trace 6 "f" [])]
    firstEntry := 2
    nextEntry := 1 }

/-- A log for examples: depth 6 with one working sink, after `"p"` logged three
times at `Trace` (instants 1 to 3): slot 0 holds the first `"p"`, the last repeat
is retained in `lastLog` and two repeats are counted. -/
def pendingRunLog : Log :=
  { ((New.withBacklogDepth 6).AddOutputTarget goodWriter).1 with
    lastLog := some (NewEntry Trace 3 "p" [])
    duplicateCount := 2
    bufferedMessages := [some (NewEntry Trace 1 "p" []), none, none, none, none, none]
    nextEntry := 1 }

/-! ## Level policy -/

theorem SetLevel_error_iff (l : Log) (x : LogLevel) :
    (l.SetLevel x).2 ≠ none ↔ (x > l.triggerLevel ∨ x > Fatal) := by
  unfold Log.SetLevel
  by_cases h1 : x > l.triggerLevel
  · simp [h1]
  · by_cases h2 : x > Fatal
    · simp [h1, h2]
    · simp [h1, h2]

theorem SetTriggerLevel_error_iff (l : Log) (x : LogLevel) :
    (l.SetTriggerLevel x).2 ≠ none ↔ (x < l.level ∨ x > Fatal) := by
  unfold Log.SetTriggerLevel
  by_cases h1 : x < l.level
  · simp [h1]
  · by_cases h2 : x > Fatal
    · simp [h1, h2]
    · simp [h1, h2]

theorem SetLevel_keeps_order (l : Log) (x : LogLevel) (h : l.level ≤ l.triggerLevel) :
    (l.SetLevel x).1.level ≤ (l.SetLevel x).1.triggerLevel := by
  unfold Log.SetLevel
  by_cases h1 : x > l.triggerLevel
  · simpa [h1] using h
  · by_cases h2 : x > Fatal
    · simpa [h1, h2] using h
    · simp only [h1, h2, if_false]
      exact not_lt.mp h1

theorem SetTriggerLevel_keeps_order (l : Log) (x : LogLevel) (h : l.level ≤ l.triggerLevel) :
    (l.SetTriggerLevel x).1.level ≤ (l.SetTriggerLevel x).1.triggerLevel := by
  unfold Log.SetTriggerLevel
  by_cases h1 : x < l.level
  · simpa [h1] using h
  · by_cases h2 : x > Fatal
    · simpa [h1, h2] using h
    · simp only [h1, h2, if_false]
      exact not_lt.mp h1

theorem SetLevel_error_keeps_state (l : Log) (x : LogLevel) (h : (l.SetLevel x).2 ≠ none) :
    (l.SetLevel x).1 = l := by
  unfold Log.SetLevel at h ⊢
  by_cases h1 : x > l.triggerLevel
  · simp [h1]
  · by_cases h2 : x > Fatal
    · simp [h1, h2]
    · simp [h1, h2] at h

theorem SetTriggerLevel_error_keeps_state (l : Log) (x : LogLevel) (h : (l.SetTriggerLevel x).2 ≠ none) :
    (l.SetTriggerLevel x).1 = l := by
  unfold Log.SetTriggerLevel at h ⊢
  by_cases h1 : x < l.level
  · simp [h1]
  · by_cases h2 : x > Fatal
    · simp [h1, h2]
    · simp [h1, h2] at h

theorem runLevelCalls_keeps_order (calls : List LevelCall) :
    ∀ l : Log, l.level ≤ l.triggerLevel →
      (runLevelCalls l calls).level ≤ (runLevelCalls l calls).triggerLevel := by
  induction calls with
  | nil => intro l h; exact h
  | cons c cs ih =>
    intro l h
    apply ih
    cases c with
    | setLevel x => exact SetLevel_keeps_order l x h
    | setTriggerLevel x => exact SetTriggerLevel_keeps_order l x h

/-- C1: after any sequence of `SetLevel` / `SetTriggerLevel` calls on a log made by
`New` the level is at most the trigger level, and a call that returns an error
(on any state) returns the state it was given, every field of it. -/
theorem levels_ordered_and_errors_keep_state (calls : List LevelCall) :
    (runLevelCalls New calls).level ≤ (runLevelCalls New calls).triggerLevel
    ∧ ∀ (l : Log) (c : LevelCall), (c.apply l).2 ≠ none → (c.apply l).1 = l := by
  refine ⟨runLevelCalls_keeps_order calls New (by decide), ?_⟩
  intro l c h
  cases c with
  | setLevel x => exact SetLevel_error_keeps_state l x h
  | setTriggerLevel x => exact SetTriggerLevel_error_keeps_state l x h

/-- Witness of C1: raising the level to `Fatal`, then a rejected attempt to lower
the trigger level to `Trace`; the order holds and the rejected call changes
nothing. -/
theorem levels_ordered_and_errors_keep_state_witness :
    (runLevelCalls New [LevelCall.setLevel Fatal, LevelCall.setTriggerLevel Trace]).level
        ≤ (runLevelCalls New [LevelCall.setLevel Fatal, LevelCall.setTriggerLevel Trace]).triggerLevel
    ∧ ((LevelCall.setTriggerLevel Trace).apply New).2 ≠ none
    ∧ ((LevelCall.setTriggerLevel Trace).apply New).1 = New :=
  ⟨(levels_ordered_and_errors_keep_state
      [LevelCall.setLevel Fatal, LevelCall.setTriggerLevel Trace]).1,
   by decide,
   (levels_ordered_and_errors_keep_state []).2 New (LevelCall.setTriggerLevel Trace) (by decide)⟩

/-- C10: `SetLevel(-1)` on a log made by `New` returns no error and stores the
level `-1`, a value below `Trace`; the trigger level is untouched. -/
theorem SetLevel_accepts_negative_level :
    (New.SetLevel (-1)).2 = none
    ∧ (New.SetLevel (-1)).1.level = -1
    ∧ (New.SetLevel (-1)).1.triggerLevel = Fatal
    ∧ convertLevelToString (-1) true = Except.error "unable to convert level: -1" := by
  refine ⟨by decide, by decide, by decide, by rfl⟩

/-! ## Allocation of the buffer -/

theorem makeSlice_ok (n : Int) (h0 : 0 ≤ n) (h1 : n * 8 ≤ maxAlloc) :
    makeSlice n = Except.ok (makeEntries n) := by
  unfold makeSlice
  rw [if_neg (by omega)]

theorem makeSlice_panics (n : Int) (h : n < 0 ∨ n * 8 > maxAlloc) :
    makeSlice n = Except.error "makeslice: len out of range" := by
  unfold makeSlice
  rw [if_pos h]

theorem makeSlice_inv (n : Int) (slots : List (Option Entry)) (h : makeSlice n = Except.ok slots) :
    0 ≤ n ∧ n * 8 ≤ maxAlloc ∧ slots = makeEntries n := by
  unfold makeSlice at h
  by_cases hc : n < 0 ∨ n * 8 > maxAlloc
  · rw [if_pos hc] at h
    cases h
  · rw [if_neg hc] at h
    injection h with h
    exact ⟨by omega, by omega, h.symm⟩

theorem SetBacklogDepth_negative (l : Log) (d : Int) (h : d < 0) :
    l.SetBacklogDepth d = Except.ok (l, some ("bad backlog depth selected: " ++ sprintD d)) := by
  unfold Log.SetBacklogDepth
  rw [if_pos h]

theorem SetBacklogDepth_returns (l : Log) (d : Int) (h0 : 0 ≤ d) (h1 : d * 8 ≤ maxAlloc) :
    l.SetBacklogDepth d = Except.ok
      ({ l with backlogDepth := d, bufferedMessages := makeEntries d, firstEntry := 0, nextEntry := 0 },
        none) := by
  unfold Log.SetBacklogDepth
  rw [if_neg (by omega)]
  simp only [makeSlice_ok d h0 h1]

theorem SetBacklogDepth_panics (l : Log) (d : Int) (h : d * 8 > maxAlloc) :
    l.SetBacklogDepth d = Except.error "makeslice: len out of range" := by
  have hd : ¬ d < 0 := by unfold maxAlloc at h; omega
  unfold Log.SetBacklogDepth
  rw [if_neg hd]
  simp only [makeSlice_panics d (Or.inr h)]

/-- A call of `SetBacklogDepth` with a depth that is not negative returns only
within the bound of `make`, without an `error`, and with the new depth, empty
slots and both cursors at 0. -/
theorem SetBacklogDepth_inv (l s : Log) (d : Int) (e : Option String) (h0 : 0 ≤ d)
    (h : l.SetBacklogDepth d = Except.ok (s, e)) :
    d * 8 ≤ maxAlloc ∧ e = none
      ∧ s = { l with backlogDepth := d, bufferedMessages := makeEntries d, firstEntry := 0, nextEntry := 0 } := by
  by_cases h1 : d * 8 ≤ maxAlloc
  · rw [SetBacklogDepth_returns l d h0 h1] at h
    injection h with h
    injection h with hs he
    exact ⟨h1, he.symm, hs.symm⟩
  · rw [SetBacklogDepth_panics l d (by omega)] at h
    cases h

/-- Where `SetBacklogDepth` returns, `withBacklogDepth` is the log it returns. -/
theorem withBacklogDepth_of_returns (l s : Log) (d : Int) (e : Option String)
    (h : l.SetBacklogDepth d = Except.ok (s, e)) : l.withBacklogDepth d = s := by
  unfold Log.withBacklogDepth
  rw [h]

/-- The state a run goes on with after a call of `SetBacklogDepth` that does not
panic: the state before it (negative depth) or the state with the new depth. -/
theorem Call_setBacklogDepth_inv (rt : Runtime) (l l1 : Log) (depth : Int) (events : List Event)
    (h : (Call.setBacklogDepth depth).apply rt l = Except.ok (l1, events)) :
    (depth < 0 ∧ l1 = l)
    ∨ (0 ≤ depth ∧ l1 = { l with backlogDepth := depth, bufferedMessages := makeEntries depth,
                                 firstEntry := 0, nextEntry := 0 }) := by
  simp only [Call.apply] at h
  by_cases hd : depth < 0
  · rw [SetBacklogDepth_negative l depth hd] at h
    injection h with h
    injection h with h _
    exact Or.inl ⟨hd, h.symm⟩
  · by_cases h1 : depth * 8 ≤ maxAlloc
    · rw [SetBacklogDepth_returns l depth (by omega) h1] at h
      injection h with h
      injection h with h _
      exact Or.inr ⟨by omega, h.symm⟩
    · rw [SetBacklogDepth_panics l depth (by omega)] at h
      cases h

/-! ## Triggered drains and the wrapped buffer -/

/-- C2: a triggering call is not always written.  With one sink on a log made by
`New` and set to depth 4: (1) `Log(Trace, "x")` then `Log(Fatal, "x")`: the second call is taken for
a duplicate, is not stored, and the drain writes the `Trace` entry only;
(2) `Log(Fatal, "x")` twice: the second call writes nothing at all;
(3) with `SetBacklogDepth(2)`, two buffered messages and then `Log(Fatal, "c")`:
the push wraps, leaves both cursors at 1, and the drain writes nothing. -/
theorem triggering_entry_not_written :
    New.SetBacklogDepth 4 = Except.ok (New.withBacklogDepth 4, none)
    ∧ New.SetBacklogDepth 2 = Except.ok (New.withBacklogDepth 2, none)
    ∧ (∃ l, runLogs sampleRuntime ((New.withBacklogDepth 4).AddOutputTarget goodWriter).1
        [(1, Trace, "x"), (2, Fatal, "x")] = Except.ok (l, [Event.write 0 "1 [TRACE] x\n"]))
    ∧ (∃ l1 l2, ((New.withBacklogDepth 4).AddOutputTarget goodWriter).1.Log sampleRuntime 1 Fatal "x"
          = Except.ok (l1, [Event.write 0 "1 [FATAL] x\n"])
        ∧ l1.Log sampleRuntime 2 Fatal "x" = Except.ok (l2, []))
    ∧ (∃ l, runLogs sampleRuntime ((New.withBacklogDepth 2).AddOutputTarget goodWriter).1
        [(1, Trace, "a"), (2, Trace, "b"), (3, Fatal, "c")] = Except.ok (l, [])) :=
  ⟨rfl, rfl, ⟨_, rfl⟩, ⟨_, _, rfl, rfl⟩, ⟨_, rfl⟩⟩

/-- C3: with `SetBacklogDepth(2)` on a log made by `New`, after two buffered
messages the triggering call `Log(Fatal, "c")` returns with `firstEntry = 1` and
`nextEntry = 1`, the two slots still filled and nothing written. -/
theorem trigger_on_full_buffer_leaves_cursors (rt : Runtime) (w : Writer) :
    New.SetBacklogDepth 2 = Except.ok (New.withBacklogDepth 2, none)
    ∧ ∃ l, runLogs rt ((New.withBacklogDepth 2).AddOutputTarget w).1
        [(1, Trace, "a"), (2, Trace, "b"), (3, Fatal, "c")] = Except.ok (l, [])
      ∧ l.firstEntry = 1 ∧ l.nextEntry = 1
      ∧ l.slotMessages = [some "c", some "b"] :=
  ⟨rfl, _, rfl, rfl, rfl, rfl⟩

/-- C4: with `SetBacklogDepth(2)` on a log made by `New`, after the four distinct
sub-threshold messages a, b, c, d (D = 2, k = 2) the slots hold c, d with
`firstEntry = 1` and `nextEntry = 2`: the drain order is d alone, and slot
`firstEntry` holds d, not c, the older of the last two.  After a, b, c (k = 1)
both cursors are 1 and the drain order is empty. -/
theorem wrapped_buffer_loses_entries (rt : Runtime) :
    New.SetBacklogDepth 2 = Except.ok (New.withBacklogDepth 2, none)
    ∧ (∃ l, runLogs rt (New.withBacklogDepth 2)
        [(1, Trace, "a"), (2, Trace, "b"), (3, Trace, "c"), (4, Trace, "d")] = Except.ok (l, [])
      ∧ l.firstEntry = 1 ∧ l.nextEntry = 2
      ∧ l.slotMessages = [some "c", some "d"]
      ∧ l.drainOrder = Except.ok [some (NewEntry Trace 4 "d" [])])
    ∧ (∃ l, runLogs rt (New.withBacklogDepth 2)
        [(1, Trace, "a"), (2, Trace, "b"), (3, Trace, "c")] = Except.ok (l, [])
      ∧ l.firstEntry = 1 ∧ l.nextEntry = 1
      ∧ l.slotMessages = [some "c", some "b"]
      ∧ l.drainOrder = Except.ok []) :=
  ⟨rfl, ⟨_, rfl, rfl, rfl, rfl, rfl⟩, ⟨_, rfl, rfl, rfl, rfl, rfl⟩⟩

/-! ## Depth zero -/

/-- C6: after `SetBacklogDepth(0)` on a log made by `New` (with one sink), every
`Log` call panics with an integer division by zero in `addBufferEntry`, whatever
its level and message; no entry reaches the sink. -/
theorem Log_panics_at_depth_zero (rt : Runtime) (w : Writer) (now : Instant) (level : LogLevel)
    (message : String) :
    (New.AddOutputTarget w).1.SetBacklogDepth 0
        = Except.ok ((New.AddOutputTarget w).1.withBacklogDepth 0, none)
    ∧ ((New.AddOutputTarget w).1.withBacklogDepth 0).Log rt now level message
        = Except.error "integer divide by zero" :=
  ⟨rfl, rfl⟩

/-! ## Formatters -/

/-- C8: on an entry with at least one tag `JSONFormatter.Format` and
`YAMLFormatter.Format` panic (assignment to an entry of the nil `Tags` map),
whatever the level, the message, the time format and the marshallers. -/
theorem structured_formatters_panic_on_tags (rt : Runtime) (jf : JSONFormatter) (yf : YAMLFormatter)
    (level : LogLevel) (timestamp : Instant) (message : String) (tag : Tag) (rest : List Tag) :
    jf.Format rt (NewEntry level timestamp message (tag :: rest))
        = Except.error "assignment to entry in nil map"
    ∧ yf.Format rt (NewEntry level timestamp message (tag :: rest))
        = Except.error "assignment to entry in nil map" :=
  ⟨rfl, rfl⟩

/-- The text formatter renders every entry, also one with tags or with a level
outside the enumeration. -/
theorem TextFormatter_Format_total (rt : Runtime) (tf : TextFormatter) (entry : Entry) :
    ∃ bytes, tf.Format rt entry = Except.ok bytes :=
  ⟨_, rfl⟩

/-- Without tags the JSON formatter renders every entry: a marshalling error
becomes the output. -/
theorem JSONFormatter_Format_no_tags (rt : Runtime) (jf : JSONFormatter)
    (level : LogLevel) (timestamp : Instant) (message : String) :
    ∃ bytes, jf.Format rt (NewEntry level timestamp message []) = Except.ok bytes := by
  simp only [JSONFormatter.Format, NewEntry, assignTags]
  split <;> exact ⟨_, rfl⟩

/-- Without tags the YAML formatter renders every entry. -/
theorem YAMLFormatter_Format_no_tags (rt : Runtime) (yf : YAMLFormatter)
    (level : LogLevel) (timestamp : Instant) (message : String) :
    ∃ bytes, yf.Format rt (NewEntry level timestamp message []) = Except.ok bytes := by
  simp only [YAMLFormatter.Format, NewEntry, assignTags]
  split <;> exact ⟨_, rfl⟩

/-! ## The push: frame and success -/

theorem sameSettings_refl (a : Log) : sameSettings a a :=
  ⟨rfl, rfl, rfl, rfl, rfl, rfl, rfl⟩

theorem sameSettings_trans (a b c : Log) (h1 : sameSettings a b) (h2 : sameSettings b c) :
    sameSettings a c := by
  obtain ⟨a1, a2, a3, a4, a5, a6, a7⟩ := h1
  obtain ⟨b1, b2, b3, b4, b5, b6, b7⟩ := h2
  exact ⟨a1.trans b1, a2.trans b2, a3.trans b3, a4.trans b4, a5.trans b5, a6.trans b6, a7.trans b7⟩

theorem addBufferEntry_room (l : Log) (e : Entry) (h0 : 0 ≤ l.nextEntry)
    (h1 : l.nextEntry < l.backlogDepth) (h2 : l.nextEntry < (l.bufferedMessages.length : Int)) :
    l.addBufferEntry e = Except.ok { l with
      bufferedMessages := l.bufferedMessages.set l.nextEntry.toNat (some e)
      nextEntry := l.nextEntry + 1 } := by
  have h : ¬ (l.nextEntry ≥ l.backlogDepth) := not_le.mpr h1
  simp [Log.addBufferEntry, h, h0, h2]

theorem addBufferEntry_overrun (l : Log) (e : Entry) (h1 : l.nextEntry < l.backlogDepth)
    (h2 : (l.bufferedMessages.length : Int) ≤ l.nextEntry) :
    l.addBufferEntry e = Except.error "index out of range" := by
  have h : ¬ (l.nextEntry ≥ l.backlogDepth) := not_le.mpr h1
  have h3 : ¬ (l.nextEntry < (l.bufferedMessages.length : Int)) := not_lt.mpr h2
  simp [Log.addBufferEntry, h, h3]

/-- The push that wraps: `nextEntry` has reached `backlogDepth`. -/
theorem addBufferEntry_wrap (l : Log) (e : Entry) (h : l.nextEntry ≥ l.backlogDepth)
    (hne : l.backlogDepth ≠ 0) (hlen : (0 : Int) < (l.bufferedMessages.length : Int)) :
    l.addBufferEntry e = Except.ok { l with
      firstEntry := Int.tmod (l.firstEntry + 1) l.backlogDepth
      bufferedMessages := l.bufferedMessages.set 0 (some e)
      nextEntry := 1 } := by
  simp only [Log.addBufferEntry, h, hne, if_true, if_false, le_refl, true_and]
  simp only [hlen, if_true]
  rfl

/-- A push on a buffer of depth at least 1 whose backing store has at least
`backlogDepth` slots does not panic, keeps the settings and the number of slots,
and leaves `nextEntry` between 1 and `backlogDepth`. -/
theorem addBufferEntry_ok (l : Log) (e : Entry) (hd : 1 ≤ l.backlogDepth)
    (hs : l.backlogDepth ≤ (l.bufferedMessages.length : Int)) (hn : 0 ≤ l.nextEntry) :
    ∃ l1, l.addBufferEntry e = Except.ok l1 ∧ sameSettings l1 l
      ∧ l1.bufferedMessages.length = l.bufferedMessages.length
      ∧ 1 ≤ l1.nextEntry ∧ l1.nextEntry ≤ l1.backlogDepth
      ∧ l1.lastLog = l.lastLog ∧ l1.duplicateCount = l.duplicateCount := by
  by_cases h : l.nextEntry ≥ l.backlogDepth
  · have hne : l.backlogDepth ≠ 0 := by omega
    have hlen : (0 : Int) < (l.bufferedMessages.length : Int) := by omega
    refine ⟨_, addBufferEntry_wrap l e h hne hlen, ⟨rfl, rfl, rfl, rfl, rfl, rfl, rfl⟩, ?_, ?_, ?_, rfl, rfl⟩
    · simp
    · show (1 : Int) ≤ 1
      omega
    · show (1 : Int) ≤ l.backlogDepth
      omega
  · have h1 : l.nextEntry < l.backlogDepth := not_le.mp h
    have h2 : l.nextEntry < (l.bufferedMessages.length : Int) := by omega
    refine ⟨_, addBufferEntry_room l e hn h1 h2, ⟨rfl, rfl, rfl, rfl, rfl, rfl, rfl⟩, ?_, ?_, ?_, rfl, rfl⟩
    · simp
    · show (1 : Int) ≤ l.nextEntry + 1
      omega
    · show l.nextEntry + 1 ≤ l.backlogDepth
      omega

theorem buffer_no_compact (l : Log) (e : Entry) (hc : l.compactDuplicates = false) :
    l.buffer e = l.addBufferEntry e := by
  simp [Log.buffer, hc]

theorem buffer_first (l : Log) (e : Entry) (hc : l.compactDuplicates = true)
    (hl : l.lastLog = none) :
    l.buffer e = ({ l with lastLog := some e } : Log).addBufferEntry e := by
  simp [Log.buffer, hc, hl]

theorem buffer_duplicate (l : Log) (e lastLog : Entry) (hc : l.compactDuplicates = true)
    (hl : l.lastLog = some lastLog) (hm : e.message = lastLog.message) :
    l.buffer e = Except.ok { l with
      duplicateCount := wrapInt64 (l.duplicateCount + 1), lastLog := some e } := by
  simp [Log.buffer, hc, hl, hm]

theorem buffer_fresh (l : Log) (e lastLog : Entry) (hc : l.compactDuplicates = true)
    (hl : l.lastLog = some lastLog) (hm : e.message ≠ lastLog.message)
    (hcount : l.duplicateCount ≤ 1) :
    l.buffer e = ({ l with duplicateCount := 0, lastLog := some e } : Log).addBufferEntry e := by
  have h : ¬ (l.duplicateCount > 1) := not_lt.mpr hcount
  simp [Log.buffer, hc, hl, hm, h]

theorem buffer_compacting (l : Log) (e lastLog : Entry) (hc : l.compactDuplicates = true)
    (hl : l.lastLog = some lastLog) (hm : e.message ≠ lastLog.message)
    (hcount : 1 < l.duplicateCount) :
    l.buffer e =
      match l.addBufferEntry (compactedEntry l lastLog) with
      | Except.error p => Except.error p
      | Except.ok l1 => ({ l1 with duplicateCount := 0, lastLog := some e } : Log).addBufferEntry e := by
  have h : l.duplicateCount > 1 := hcount
  simp only [Log.buffer, hc, hl, hm, h, if_true, if_false, compactedEntry]
  cases l.addBufferEntry (NewEntry lastLog.level lastLog.timestamp
      (lastLog.message ++ " (" ++ sprintD l.duplicateCount ++ ")") l.tags) <;> simp

/-- The push of `Log` does not panic on a buffer of depth at least 1 whose
backing store has at least `backlogDepth` slots; it keeps the settings. -/
theorem buffer_ok (l : Log) (e : Entry) (hd : 1 ≤ l.backlogDepth)
    (hs : l.backlogDepth ≤ (l.bufferedMessages.length : Int)) (hn : 0 ≤ l.nextEntry) :
    ∃ l1, l.buffer e = Except.ok l1 ∧ sameSettings l1 l
      ∧ l1.bufferedMessages.length = l.bufferedMessages.length ∧ 0 ≤ l1.nextEntry := by
  cases hc : l.compactDuplicates with
  | false =>
    obtain ⟨l1, h1, h2, h3, h4, _⟩ := addBufferEntry_ok l e hd hs hn
    exact ⟨l1, by rw [buffer_no_compact l e hc, h1], h2, h3, by omega⟩
  | true =>
    cases hl : l.lastLog with
    | none =>
      obtain ⟨l1, h1, h2, h3, h4, _⟩ :=
        addBufferEntry_ok ({ l with lastLog := some e } : Log) e hd hs hn
      exact ⟨l1, by rw [buffer_first l e hc hl, h1], h2, h3, by omega⟩
    | some lastLog =>
      by_cases hm : e.message = lastLog.message
      · exact ⟨_, buffer_duplicate l e lastLog hc hl hm, ⟨rfl, rfl, rfl, rfl, rfl, rfl, rfl⟩, rfl, hn⟩
      · by_cases hcount : l.duplicateCount ≤ 1
        · obtain ⟨l1, h1, h2, h3, h4, _⟩ :=
            addBufferEntry_ok ({ l with duplicateCount := 0, lastLog := some e } : Log) e hd hs hn
          exact ⟨l1, by rw [buffer_fresh l e lastLog hc hl hm hcount, h1], h2, h3, by omega⟩
        · obtain ⟨l1, h1, h2, h3, h4, _⟩ := addBufferEntry_ok l (compactedEntry l lastLog) hd hs hn
          have hd1 : 1 ≤ l1.backlogDepth := by rw [h2.2.2.1]; exact hd
          have hs1 : l1.backlogDepth ≤ (l1.bufferedMessages.length : Int) := by
            rw [h2.2.2.1, h3]; exact hs
          obtain ⟨l2, k1, k2, k3, k4, _⟩ :=
            addBufferEntry_ok ({ l1 with duplicateCount := 0, lastLog := some e } : Log) e hd1 hs1
              (by show (0 : Int) ≤ l1.nextEntry; omega)
          refine ⟨l2, ?_, sameSettings_trans _ _ _ k2 h2, k3.trans h3, by omega⟩
          rw [buffer_compacting l e lastLog hc hl hm (not_le.mp hcount), h1]
          exact k1

/-- A call below the engine level only pushes: nothing is written. -/
theorem Log_below_level (rt : Runtime) (l l1 : Log) (now : Instant) (level : LogLevel)
    (message : String) (hb : l.buffer (NewEntry level now message l.tags) = Except.ok l1)
    (hset : sameSettings l1 l) (hlv : level < l.level) :
    l.Log rt now level message = Except.ok (l1, []) := by
  have h : ¬ (level ≥ l1.level) := by rw [hset.1]; exact not_le.mpr hlv
  simp [Log.Log, hb, h]

/-- A call at or above the engine level and below the trigger level pushes and
then runs the loop over the sinks on the new entry. -/
theorem Log_direct (rt : Runtime) (l l1 : Log) (now : Instant) (level : LogLevel)
    (message : String) (hb : l.buffer (NewEntry level now message l.tags) = Except.ok l1)
    (hset : sameSettings l1 l) (hlv : l.level ≤ level) (hlt : level < l.triggerLevel) :
    l.Log rt now level message =
      match writeLoop rt "failed to write to logger: " l.outputFormatters
          (some (NewEntry level now message l.tags)) 0 l.outputTargets with
      | Except.error p => Except.error p
      | Except.ok events => Except.ok (l1, events) := by
  have h1 : level ≥ l1.level := by rw [hset.1]; exact hlv
  have h2 : ¬ (level ≥ l1.triggerLevel) := by rw [hset.2.1]; exact not_le.mpr hlt
  simp only [Log.Log, hb, h1, h2, if_true, if_false, hset.2.2.2.2.1, hset.2.2.2.2.2.1]

/-! ## The buffer of a clone -/

theorem Log_push_panics (rt : Runtime) (l : Log) (now : Instant) (level : LogLevel)
    (message : String) (p : String)
    (hb : l.buffer (NewEntry level now message l.tags) = Except.error p) :
    l.Log rt now level message = Except.error p := by
  simp [Log.Log, hb]

/-- With compaction off and more depth than slots, sub-threshold calls fill the
slots one by one and the call after the last slot panics. -/
theorem logRepeat_overruns (rt : Runtime) (now : Instant) (message : String) :
    ∀ (n : Nat) (l : Log), l.compactDuplicates = false → Trace < l.level → 0 ≤ l.nextEntry →
      l.nextEntry + (n : Int) = (l.bufferedMessages.length : Int) →
      (l.bufferedMessages.length : Int) < l.backlogDepth →
      logRepeat rt now Trace message (n + 1) l = Except.error "index out of range" := by
  intro n
  induction n with
  | zero =>
    intro l hc hlv h0 hn hd
    have hb : l.buffer (NewEntry Trace now message l.tags) = Except.error "index out of range" := by
      rw [buffer_no_compact l _ hc]
      exact addBufferEntry_overrun l _ (by omega) (by omega)
    simp [logRepeat, Log_push_panics rt l now Trace message _ hb]
  | succ n ih =>
    intro l hc hlv h0 hn hd
    have hroom := addBufferEntry_room l (NewEntry Trace now message l.tags) h0 (by omega) (by omega)
    have hb := (buffer_no_compact l (NewEntry Trace now message l.tags) hc).trans hroom
    have hlog := Log_below_level rt l _ now Trace message hb ⟨rfl, rfl, rfl, rfl, rfl, rfl, rfl⟩ hlv
    have hstep : logRepeat rt now Trace message (n + 1 + 1) l
        = logRepeat rt now Trace message (n + 1)
            { l with
              bufferedMessages := l.bufferedMessages.set l.nextEntry.toNat
                (some (NewEntry Trace now message l.tags))
              nextEntry := l.nextEntry + 1 } := by
      conv_lhs => unfold logRepeat
      rw [hlog]
    rw [hstep]
    apply ih
    · exact hc
    · exact hlv
    · show (0 : Int) ≤ l.nextEntry + 1
      omega
    · show l.nextEntry + 1 + (n : Int) = ((l.bufferedMessages.set l.nextEntry.toNat _).length : Int)
      rw [List.length_set]
      push_cast at hn
      omega
    · show (((l.bufferedMessages.set l.nextEntry.toNat _).length : Nat) : Int) < l.backlogDepth
      rw [List.length_set]
      exact hd

theorem makeEntries_length (n : Int) : (makeEntries n).length = n.toNat := by
  unfold makeEntries
  exact List.length_replicate _ _

theorem Clone_slots (l : Log) : l.Clone.bufferedMessages.length = 500 := by
  show (makeEntries DefaultBacklogDepth).length = 500
  rw [makeEntries_length]
  rfl

theorem Clone_backlogDepth (l : Log) : l.Clone.backlogDepth = l.backlogDepth := rfl

/-- C7: `Clone` keeps the 500 slots `New` allocates whatever depth it copies.  The
clone of a log of depth 1 has `backlogDepth = 1` and 500 slots; and for every
depth above 500 (here `501 + extra`) that `SetBacklogDepth` returns with (`s` is
the log it leaves), with compaction off, the 501st `Log` call on the clone writes
at slot 500 of 500 and panics. -/
theorem Clone_keeps_default_slots (rt : Runtime) (now : Instant) (message : String) (extra : Nat)
    (s : Log)
    (hdepth : (New.SetCompactDuplicates false).SetBacklogDepth (501 + (extra : Int))
      = Except.ok (s, none)) :
    New.SetBacklogDepth 1 = Except.ok (New.withBacklogDepth 1, none)
    ∧ (New.withBacklogDepth 1).Clone.backlogDepth = 1
    ∧ (New.withBacklogDepth 1).Clone.bufferedMessages.length = 500
    ∧ s.Clone.backlogDepth = 501 + (extra : Int)
    ∧ logRepeat rt now Trace message 501 s.Clone = Except.error "index out of range" := by
  have hset : s
      = { New.SetCompactDuplicates false with
          backlogDepth := 501 + (extra : Int)
          bufferedMessages := makeEntries (501 + (extra : Int))
          firstEntry := 0
          nextEntry := 0 } :=
    (SetBacklogDepth_inv _ s _ none (by omega) hdepth).2.2
  subst hset
  refine ⟨rfl, rfl, Clone_slots _, ?_, ?_⟩
  · rw [Clone_backlogDepth]
  · apply logRepeat_overruns rt now message 500
    · rfl
    · show (0 : Int) < 4
      omega
    · show (0 : Int) ≤ 0
      omega
    · rw [Clone_slots]
      show (0 : Int) + ((500 : Nat) : Int) = ((500 : Nat) : Int)
      omega
    · rw [Clone_slots, Clone_backlogDepth]
      show ((500 : Nat) : Int) < 501 + (extra : Int)
      omega

/-- Witness of C7 with depth 501: `SetBacklogDepth(501)` returns, the clone has
`backlogDepth = 501`, and the 501st `Log` call on the clone panics. -/
theorem Clone_keeps_default_slots_witness :
    (New.SetCompactDuplicates false).SetBacklogDepth 501
        = Except.ok ((New.SetCompactDuplicates false).withBacklogDepth 501, none)
    ∧ ((New.SetCompactDuplicates false).withBacklogDepth 501).Clone.backlogDepth = 501
    ∧ logRepeat sampleRuntime 1 Trace "m" 501
        ((New.SetCompactDuplicates false).withBacklogDepth 501).Clone
        = Except.error "index out of range" :=
  ⟨rfl,
   (Clone_keeps_default_slots sampleRuntime 1 "m" 0
      ((New.SetCompactDuplicates false).withBacklogDepth 501) rfl).2.2.2.1,
   (Clone_keeps_default_slots sampleRuntime 1 "m" 0
      ((New.SetCompactDuplicates false).withBacklogDepth 501) rfl).2.2.2.2⟩

/-! ## Direct fan-out -/

theorem writesOf_append (xs ys : List Event) : writesOf (xs ++ ys) = writesOf xs ++ writesOf ys := by
  induction xs with
  | nil => rfl
  | cons x xs ih =>
    cases x with
    | write index bytes => simp [writesOf, ih]
    | diag text => simp [writesOf, ih]

/-- The loop over the sinks, started at `index` with as many sinks left as there
are formatters from `index` on, all of which render the entry: it does not
panic, and its writes are, in order, one per formatter from `index` on, at that
formatter's index and with that formatter's rendering, whatever the sinks
answer. -/
theorem writeLoop_spec (rt : Runtime) (label : String) (fs : List LogFormatter) (e : Entry)
    (hfmt : ∀ f ∈ fs, ∃ bytes, f.Format rt e = Except.ok bytes) :
    ∀ (ws : List Writer) (index : Nat), fs.length = index + ws.length →
      ∃ events, writeLoop rt label fs (some e) index ws = Except.ok events
        ∧ (writesOf events).map (fun w => (w.1, (Except.ok w.2 : Except String String)))
          = ((fs.drop index).enumFrom index).map (fun p => (p.1, p.2.Format rt e)) := by
  intro ws
  induction ws with
  | nil =>
    intro index hlen
    refine ⟨[], rfl, ?_⟩
    have hdrop : fs.drop index = [] := List.drop_eq_nil_of_le (by simp at hlen; omega)
    simp [hdrop, writesOf]
  | cons w ws ih =>
    intro index hlen
    have hlt : index < fs.length := by simp at hlen; omega
    have hget : fs[index]? = some fs[index] := List.getElem?_eq_getElem hlt
    obtain ⟨bytes, hbytes⟩ := hfmt fs[index] (List.getElem_mem hlt)
    obtain ⟨more, hmore, hwrites⟩ := ih (index + 1) (by simp at hlen ⊢; omega)
    have hdrop : fs.drop index = fs[index] :: fs.drop (index + 1) := List.drop_eq_getElem_cons hlt
    refine ⟨(if w.failsOn bytes then
        [Event.write index bytes, Event.diag (label ++ sprintD index)]
      else [Event.write index bytes]) ++ more, ?_, ?_⟩
    · simp only [writeLoop, hget, hbytes, hmore]
    · rw [writesOf_append, hdrop, List.enumFrom_cons, List.map_cons, List.map_append, hwrites, hbytes]
      by_cases hw : w.failsOn bytes = true
      · simp [hw, writesOf]
      · simp [hw, writesOf]

/-- A `Log` call below the trigger level, on a log of depth at least 1 whose
backing store has at least `backlogDepth` slots (so that the push does not
panic).  The call returns the state the push produced.  If the level is below
the engine level nothing is written.  If it is at or above the engine level,
every sink has its formatter and every formatter renders the new entry, then the
writes are exactly one per sink, in index order, each the rendering of the new
entry by the formatter of that index; this holds whatever the sinks answer to
the writes, and no buffered entry is written. -/
theorem Log_below_trigger (rt : Runtime) (l : Log) (now : Instant) (level : LogLevel)
    (message : String) (hd : 1 ≤ l.backlogDepth)
    (hs : l.backlogDepth ≤ (l.bufferedMessages.length : Int)) (hn : 0 ≤ l.nextEntry)
    (hlt : level < l.triggerLevel) :
    ∃ l1, l.buffer (NewEntry level now message l.tags) = Except.ok l1
      ∧ (level < l.level → l.Log rt now level message = Except.ok (l1, []))
      ∧ (l.level ≤ level →
          l.outputFormatters.length = l.outputTargets.length →
          (∀ f ∈ l.outputFormatters,
            ∃ bytes, f.Format rt (NewEntry level now message l.tags) = Except.ok bytes) →
          ∃ events, l.Log rt now level message = Except.ok (l1, events)
            ∧ (writesOf events).map (fun w => (w.1, (Except.ok w.2 : Except String String)))
              = l.outputFormatters.enum.map
                  (fun p => (p.1, p.2.Format rt (NewEntry level now message l.tags)))) := by
  obtain ⟨l1, hb, hset, _, _⟩ := buffer_ok l (NewEntry level now message l.tags) hd hs hn
  refine ⟨l1, hb, ?_, ?_⟩
  · intro hlv
    exact Log_below_level rt l l1 now level message hb hset hlv
  · intro hlv hpair hfmt
    obtain ⟨events, hloop, hwrites⟩ :=
      writeLoop_spec rt "failed to write to logger: " l.outputFormatters
        (NewEntry level now message l.tags) hfmt l.outputTargets 0 (by omega)
    refine ⟨events, ?_, ?_⟩
    · rw [Log_direct rt l l1 now level message hb hset hlv hlt, hloop]
    · rw [hwrites, List.drop_zero, List.enum_eq_enumFrom]

/-- The direct fan-out on `twoSinkLog` (level `Error`, trigger `Fatal`, a failing
sink at index 0): `Log(Error, "m")` at instant 7 writes the one line to both
sinks, index 0 first, the failed write only adding a diagnostic; `Log(Trace,
"m")` writes nothing. -/
theorem Log_below_trigger_example :
    (1 ≤ twoSinkLog.backlogDepth
      ∧ twoSinkLog.backlogDepth ≤ (twoSinkLog.bufferedMessages.length : Int)
      ∧ 0 ≤ twoSinkLog.nextEntry ∧ Error < twoSinkLog.triggerLevel ∧ Trace < twoSinkLog.level
      ∧ twoSinkLog.level ≤ Error
      ∧ twoSinkLog.outputFormatters.length = twoSinkLog.outputTargets.length)
    ∧ (∃ l1, twoSinkLog.Log sampleRuntime 7 Trace "m" = Except.ok (l1, []))
    ∧ (∃ l1 events, twoSinkLog.Log sampleRuntime 7 Error "m" = Except.ok (l1, events)
        ∧ events = [Event.write 0 "7 [ERROR] m\n", Event.diag "failed to write to logger: 0",
            Event.write 1 "7 [ERROR] m\n"]
        ∧ (writesOf events).map (fun w => (w.1, (Except.ok w.2 : Except String String)))
            = [(0, Except.ok "7 [ERROR] m\n"), (1, Except.ok "7 [ERROR] m\n")]) := by
  refine ⟨by decide, ?_, ?_⟩
  · obtain ⟨l1, _, h, _⟩ := Log_below_trigger sampleRuntime twoSinkLog 7 Trace "m"
      (by decide) (by decide) (by decide) (by decide)
    exact ⟨l1, h (by decide)⟩
  · obtain ⟨l1, _, _, h⟩ := Log_below_trigger sampleRuntime twoSinkLog 7 Error "m"
      (by decide) (by decide) (by decide) (by decide)
    obtain ⟨events, hlog, hwrites⟩ := h (by decide) (by decide) (by
      intro f hf
      have hf2 : f = LogFormatter.text { timeFormat := timeANSIC } := by
        have hfs : f ∈ [LogFormatter.text { timeFormat := timeANSIC },
            LogFormatter.text { timeFormat := timeANSIC }] := hf
        simpa using hfs
      subst hf2
      exact ⟨_, rfl⟩)
    have hrun : twoSinkLog.Log sampleRuntime 7 Error "m"
        = Except.ok (_, [Event.write 0 "7 [ERROR] m\n", Event.diag "failed to write to logger: 0",
            Event.write 1 "7 [ERROR] m\n"]) := rfl
    rw [hrun] at hlog
    injection hlog with hlog
    injection hlog with h1 h2
    subst h2
    exact ⟨l1, _, by rw [hrun, h1], rfl, rfl⟩

/-! ## Compaction of duplicates -/

theorem wrapInt64_of_range (x : Int) (h0 : 0 ≤ x) (h1 : x < 2 ^ 63) : wrapInt64 x = x := by
  unfold wrapInt64
  omega

theorem runLogs_cons (rt : Runtime) (l : Log) (now : Instant) (level : LogLevel) (message : String)
    (rest : List (Instant × LogLevel × String)) :
    runLogs rt l ((now, level, message) :: rest) =
      match l.Log rt now level message with
      | Except.error p => Except.error p
      | Except.ok (l1, events) =>
        match runLogs rt l1 rest with
        | Except.error p => Except.error p
        | Except.ok (l2, more) => Except.ok (l2, events ++ more) := rfl

theorem runLogs_cons_ok (rt : Runtime) (l l1 l2 : Log) (now : Instant) (level : LogLevel)
    (message : String) (rest : List (Instant × LogLevel × String)) (ev1 ev2 : List Event)
    (h1 : l.Log rt now level message = Except.ok (l1, ev1))
    (h2 : runLogs rt l1 rest = Except.ok (l2, ev2)) :
    runLogs rt l ((now, level, message) :: rest) = Except.ok (l2, ev1 ++ ev2) := by
  rw [runLogs_cons, h1]
  show (match runLogs rt l1 rest with
    | Except.error p => Except.error p
    | Except.ok (l2, more) => Except.ok (l2, ev1 ++ more)) = _
  rw [h2]

theorem runLogs_append (rt : Runtime) (ys : List (Instant × LogLevel × String)) :
    ∀ (xs : List (Instant × LogLevel × String)) (l l1 l2 : Log) (ev1 ev2 : List Event),
      runLogs rt l xs = Except.ok (l1, ev1) → runLogs rt l1 ys = Except.ok (l2, ev2) →
      runLogs rt l (xs ++ ys) = Except.ok (l2, ev1 ++ ev2) := by
  intro xs
  induction xs with
  | nil =>
    intro l l1 l2 ev1 ev2 h1 h2
    simp only [runLogs] at h1
    injection h1 with h1
    injection h1 with ha hb
    subst ha hb
    simpa using h2
  | cons x xs ih =>
    intro l l1 l2 ev1 ev2 h1 h2
    obtain ⟨now, level, message⟩ := x
    rw [runLogs_cons] at h1
    cases hlog : l.Log rt now level message with
    | error p => simp [hlog] at h1
    | ok r =>
      obtain ⟨la, eva⟩ := r
      simp only [hlog] at h1
      cases hrest : runLogs rt la xs with
      | error p => simp [hrest] at h1
      | ok r2 =>
        obtain ⟨lb, evb⟩ := r2
        simp only [hrest] at h1
        injection h1 with h1
        injection h1 with ha hb
        subst ha hb
        rw [List.cons_append, runLogs_cons_ok rt l la l2 now level message (xs ++ ys) eva (evb ++ ev2)
          hlog (ih la lb l2 evb ev2 hrest h2), List.append_assoc]

/-- A call below the trigger level, on a log whose sinks all have a formatter
that renders: the call returns the state the push produced. -/
theorem Log_nontrigger (rt : Runtime) (l l1 : Log) (now : Instant) (level : LogLevel)
    (message : String) (hb : l.buffer (NewEntry level now message l.tags) = Except.ok l1)
    (hset : sameSettings l1 l) (hlt : level < l.triggerLevel)
    (hpair : l.outputFormatters.length = l.outputTargets.length) (hfmt : rendersAll rt l) :
    ∃ events, l.Log rt now level message = Except.ok (l1, events) := by
  by_cases hlv : level < l.level
  · exact ⟨[], Log_below_level rt l l1 now level message hb hset hlv⟩
  · obtain ⟨events, hloop, _⟩ :=
      writeLoop_spec rt "failed to write to logger: " l.outputFormatters
        (NewEntry level now message l.tags) (fun f hf => hfmt f hf level now message)
        l.outputTargets 0 (by omega)
    refine ⟨events, ?_⟩
    rw [Log_direct rt l l1 now level message hb hset (not_lt.mp hlv) hlt, hloop]

/-- A run of repeats of the last message below the trigger level only counts:
after `k + 1` repeats the count has grown by `k + 1` and `lastLog` is the last
repeat; the buffer is as before. -/
theorem runLogs_duplicates (rt : Runtime) (m : String) (lv : LogLevel) (ts : Nat → Instant) :
    ∀ (k a : Nat) (s : Log) (e : Entry), s.compactDuplicates = true → s.lastLog = some e →
      e.message = m → 0 ≤ s.duplicateCount → s.duplicateCount + ((k : Int) + 1) < 2 ^ 63 →
      lv < s.triggerLevel → s.outputFormatters.length = s.outputTargets.length →
      rendersAll rt s →
      ∃ events, runLogs rt s ((List.range' a (k + 1)).map (fun i => (ts i, lv, m)))
        = Except.ok ({ s with
            duplicateCount := s.duplicateCount + ((k : Int) + 1)
            lastLog := some (NewEntry lv (ts (a + k)) m s.tags) }, events) := by
  intro k
  induction k with
  | zero =>
    intro a s e hc hl hm h0 hbig hlt hpair hfmt
    have hb := buffer_duplicate s (NewEntry lv (ts a) m s.tags) e hc hl hm.symm
    rw [wrapInt64_of_range _ (by omega) (by omega)] at hb
    obtain ⟨ev, hlog⟩ := Log_nontrigger rt s _ (ts a) lv m hb ⟨rfl, rfl, rfl, rfl, rfl, rfl, rfl⟩
      hlt hpair hfmt
    exact ⟨ev ++ [], runLogs_cons_ok rt s _ _ (ts a) lv m [] ev [] hlog rfl⟩
  | succ k ih =>
    intro a s e hc hl hm h0 hbig hlt hpair hfmt
    have hb := buffer_duplicate s (NewEntry lv (ts a) m s.tags) e hc hl hm.symm
    rw [wrapInt64_of_range _ (by omega) (by push_cast at hbig; omega)] at hb
    obtain ⟨ev, hlog⟩ := Log_nontrigger rt s _ (ts a) lv m hb ⟨rfl, rfl, rfl, rfl, rfl, rfl, rfl⟩
      hlt hpair hfmt
    obtain ⟨more, hrest⟩ := ih (a + 1)
      ({ s with duplicateCount := s.duplicateCount + 1
                lastLog := some (NewEntry lv (ts a) m s.tags) } : Log)
      (NewEntry lv (ts a) m s.tags) hc rfl rfl
      (by show (0 : Int) ≤ s.duplicateCount + 1; omega)
      (by show s.duplicateCount + 1 + ((k : Int) + 1) < 2 ^ 63; push_cast at hbig; omega)
      hlt hpair hfmt
    have hsplit : List.range' a (k + 1 + 1) = a :: List.range' (a + 1) (k + 1) := rfl
    rw [hsplit, List.map_cons]
    have hrun := runLogs_cons_ok rt s _ _ (ts a) lv m _ ev more hlog hrest
    refine ⟨ev ++ more, ?_⟩
    rw [hrun]
    have h1 : a + 1 + k = a + (k + 1) := by omega
    have h2 : s.duplicateCount + 1 + ((k : Int) + 1) = s.duplicateCount + (((k + 1 : Nat) : Int) + 1) := by
      push_cast; omega
    show Except.ok (({ s with
        duplicateCount := s.duplicateCount + 1 + ((k : Int) + 1)
        lastLog := some (NewEntry lv (ts (a + 1 + k)) m s.tags) } : Log), ev ++ more) = _
    rw [h1, h2]

/-- The first message of a run, on a log with compaction on whose previous
message (if any) differs and has no pending run: it is stored as it is. -/
theorem buffer_run_start (l : Log) (e : Entry) (hc : l.compactDuplicates = true)
    (hprev : ∀ last, l.lastLog = some last → e.message ≠ last.message ∧ l.duplicateCount ≤ 1)
    (hnone : l.lastLog = none → l.duplicateCount = 0)
    (hn : 0 ≤ l.nextEntry) (h1 : l.nextEntry < l.backlogDepth)
    (h2 : l.nextEntry < (l.bufferedMessages.length : Int)) :
    l.buffer e = Except.ok { l with
      lastLog := some e
      duplicateCount := 0
      bufferedMessages := l.bufferedMessages.set l.nextEntry.toNat (some e)
      nextEntry := l.nextEntry + 1 } := by
  cases hl : l.lastLog with
  | none =>
    rw [buffer_first l e hc hl,
      addBufferEntry_room ({ l with lastLog := some e } : Log) e hn h1 h2]
    have h0 := hnone hl
    show Except.ok ({ l with
      lastLog := some e
      duplicateCount := l.duplicateCount
      bufferedMessages := l.bufferedMessages.set l.nextEntry.toNat (some e)
      nextEntry := l.nextEntry + 1 } : Log) = _
    rw [h0]
  | some last =>
    obtain ⟨hm, hcount⟩ := hprev last hl
    rw [buffer_fresh l e last hc hl hm hcount,
      addBufferEntry_room ({ l with duplicateCount := 0, lastLog := some e } : Log) e hn h1 h2]

/-- A run of one message that returns.  With compaction on, on a log whose
retained last entry (if any) has another message than `m` and no pending run,
with room for three entries before the wrap in a store of at least `backlogDepth`
slots, and whose sinks all have a formatter that renders: logging `m` `N ≥ 3`
times in a row below the trigger level and then a different message below the
trigger level leaves exactly three new entries, in this order: the first
occurrence of `m` as logged, one compacted entry whose text is `m` followed by
`" (N-1)"` (the number of repeats, in decimal) with the level and timestamp of
the last repeat, and the new message.  The count is back to 0. -/
theorem duplicate_run_returns (rt : Runtime) (l : Log) (m other : String) (lv lvOther : LogLevel)
    (ts : Nat → Instant) (tOther : Instant) (N : Nat)
    (hc : l.compactDuplicates = true)
    (hprev : ∀ last, l.lastLog = some last → m ≠ last.message ∧ l.duplicateCount ≤ 1)
    (hnone : l.lastLog = none → l.duplicateCount = 0)
    (hn : 0 ≤ l.nextEntry) (hroom : l.nextEntry + 3 ≤ l.backlogDepth)
    (hs : l.backlogDepth ≤ (l.bufferedMessages.length : Int))
    (hN : 3 ≤ N) (hbig : (N : Int) ≤ 2 ^ 63) (hne : other ≠ m)
    (hlt : lv < l.triggerLevel) (hltOther : lvOther < l.triggerLevel)
    (hpair : l.outputFormatters.length = l.outputTargets.length) (hfmt : rendersAll rt l) :
    ∃ l1 events,
      runLogs rt l ((List.range N).map (fun i => (ts i, lv, m)) ++ [(tOther, lvOther, other)])
        = Except.ok (l1, events)
      ∧ l1.firstEntry = l.firstEntry
      ∧ l1.nextEntry = l.nextEntry + 3
      ∧ l1.bufferedMessages =
          ((l.bufferedMessages.set l.nextEntry.toNat (some (NewEntry lv (ts 0) m l.tags))).set
              (l.nextEntry.toNat + 1)
              (some (NewEntry lv (ts (N - 1)) (m ++ " (" ++ sprintD ((N : Int) - 1) ++ ")") l.tags))).set
            (l.nextEntry.toNat + 2) (some (NewEntry lvOther tOther other l.tags))
      ∧ l1.duplicateCount = 0
      ∧ l1.lastLog = some (NewEntry lvOther tOther other l.tags) := by
  obtain ⟨n, rfl⟩ : ∃ n, N = n + 3 := ⟨N - 3, by omega⟩
  -- the first occurrence
  have hb1 := buffer_run_start l (NewEntry lv (ts 0) m l.tags) hc hprev hnone hn (by omega) (by omega)
  obtain ⟨ev1, hlog1⟩ := Log_nontrigger rt l _ (ts 0) lv m hb1 ⟨rfl, rfl, rfl, rfl, rfl, rfl, rfl⟩
    hlt hpair hfmt
  -- the repeats
  obtain ⟨ev2, hdups⟩ := runLogs_duplicates rt m lv ts (n + 1) 1
    ({ l with
      lastLog := some (NewEntry lv (ts 0) m l.tags)
      duplicateCount := 0
      bufferedMessages := l.bufferedMessages.set l.nextEntry.toNat (some (NewEntry lv (ts 0) m l.tags))
      nextEntry := l.nextEntry + 1 } : Log)
    (NewEntry lv (ts 0) m l.tags) hc rfl rfl (le_refl _)
    (by show (0 : Int) + (((n + 1 : Nat) : Int) + 1) < 2 ^ 63; push_cast at hbig ⊢; omega)
    hlt hpair hfmt
  have hsplit : List.range (n + 3) = 0 :: List.range' 1 (n + 1 + 1) := by
    rw [List.range_eq_range']
    rfl
  have hrun1 := runLogs_cons_ok rt l _ _ (ts 0) lv m _ ev1 ev2 hlog1 hdups
  -- the different message
  have hlen : ((l.bufferedMessages.set l.nextEntry.toNat (some (NewEntry lv (ts 0) m l.tags))).length : Int)
      = (l.bufferedMessages.length : Int) := by rw [List.length_set]
  have hcount : (1 : Int) < 0 + (((n + 1 : Nat) : Int) + 1) := by push_cast; omega
  have hb3 := buffer_compacting
    ({ l with
      lastLog := some (NewEntry lv (ts (1 + (n + 1))) m l.tags)
      duplicateCount := 0 + (((n + 1 : Nat) : Int) + 1)
      bufferedMessages := l.bufferedMessages.set l.nextEntry.toNat (some (NewEntry lv (ts 0) m l.tags))
      nextEntry := l.nextEntry + 1 } : Log)
    (NewEntry lvOther tOther other l.tags) (NewEntry lv (ts (1 + (n + 1))) m l.tags) hc rfl hne hcount
  rw [addBufferEntry_room _ _ (by show (0 : Int) ≤ l.nextEntry + 1; omega)
      (by show l.nextEntry + 1 < l.backlogDepth; omega)
      (by show l.nextEntry + 1 < _; rw [hlen]; omega)] at hb3
  have hlen2 : (((l.bufferedMessages.set l.nextEntry.toNat (some (NewEntry lv (ts 0) m l.tags))).set
      (l.nextEntry + 1).toNat (some (compactedEntry
        ({ l with
          lastLog := some (NewEntry lv (ts (1 + (n + 1))) m l.tags)
          duplicateCount := 0 + (((n + 1 : Nat) : Int) + 1)
          bufferedMessages := l.bufferedMessages.set l.nextEntry.toNat (some (NewEntry lv (ts 0) m l.tags))
          nextEntry := l.nextEntry + 1 } : Log)
        (NewEntry lv (ts (1 + (n + 1))) m l.tags)))).length : Int)
      = (l.bufferedMessages.length : Int) := by rw [List.length_set, List.length_set]
  simp only [] at hb3
  rw [addBufferEntry_room _ _ (by show (0 : Int) ≤ l.nextEntry + 1 + 1; omega)
      (by show l.nextEntry + 1 + 1 < l.backlogDepth; omega)
      (by show l.nextEntry + 1 + 1 < _; rw [hlen2]; omega)] at hb3
  obtain ⟨ev3, hlog3⟩ := Log_nontrigger rt _ _ tOther lvOther other hb3
    ⟨rfl, rfl, rfl, rfl, rfl, rfl, rfl⟩ hltOther hpair hfmt
  have hrun3 := runLogs_cons_ok rt _ _ _ tOther lvOther other [] ev3 [] hlog3 rfl
  have hall := runLogs_append rt _ _ _ _ _ _ _ hrun1 hrun3
  have hmap : (List.range (n + 3)).map (fun i => (ts i, lv, m))
      = (ts 0, lv, m) :: (List.range' 1 (n + 1 + 1)).map (fun i => (ts i, lv, m)) := by
    rw [hsplit]
    rfl
  rw [← hmap] at hall
  refine ⟨_, _, hall, rfl, ?_, ?_, rfl, rfl⟩
  · show l.nextEntry + 1 + 1 + 1 = l.nextEntry + 3
    omega
  · have e1 : (l.nextEntry + 1).toNat = l.nextEntry.toNat + 1 := by omega
    have e2 : (l.nextEntry + 1 + 1).toNat = l.nextEntry.toNat + 2 := by omega
    have e3 : (0 : Int) + (((n + 1 : Nat) : Int) + 1) = ((n + 3 : Nat) : Int) - 1 := by
      push_cast; omega
    have e4 : 1 + (n + 1) = n + 3 - 1 := by omega
    show ((l.bufferedMessages.set l.nextEntry.toNat (some (NewEntry lv (ts 0) m l.tags))).set
        (l.nextEntry + 1).toNat
        (some (NewEntry lv (ts (1 + (n + 1)))
          (m ++ " (" ++ sprintD (0 + (((n + 1 : Nat) : Int) + 1)) ++ ")") l.tags))).set
        (l.nextEntry + 1 + 1).toNat (some (NewEntry lvOther tOther other l.tags)) = _
    rw [e1, e2, e3, e4]

/-! ## Backlog depth and clones -/

/-- C11, counterexample: on a log made by `New`, `SetBacklogDepth` with the depth
two to the power 62 (not negative) does not succeed: `make` panics, and the call
returns neither a state nor an `error`. -/
theorem SetBacklogDepth_large_counterexample :
    (0 : Int) ≤ 4611686018427387904
    ∧ New.SetBacklogDepth 4611686018427387904 = Except.error "makeslice: len out of range"
    ∧ ∀ (s : Log) (e : Option String),
        New.SetBacklogDepth 4611686018427387904 ≠ Except.ok (s, e) := by
  refine ⟨by decide, rfl, ?_⟩
  intro s e h
  have hp : New.SetBacklogDepth 4611686018427387904 = Except.error "makeslice: len out of range" := rfl
  rw [hp] at h
  cases h

/-- C11, amended: `SetBacklogDepth(d)` returns an error exactly when `d < 0` and
then returns the state it was given; for `0 ≤ d`, when `make([]*Entry, d)`
returns the slice, the call returns without an error, sets `backlogDepth = d`,
replaces the buffer by `d` nil slots, zeroes both cursors and leaves every other
field (level, trigger level, sinks, formatters, tags among them) as it was; when
`make` panics, which it does for every `d` whose `d` pointers of 8 bytes are more
than `maxAlloc`, the call panics and returns neither a state nor an error. -/
theorem SetBacklogDepth_spec (l : Log) (d : Int) :
    (d < 0 →
      l.SetBacklogDepth d = Except.ok (l, some ("bad backlog depth selected: " ++ sprintD d)))
    ∧ (0 ≤ d → ∀ slots, makeSlice d = Except.ok slots →
        l.SetBacklogDepth d = Except.ok
          ({ l with backlogDepth := d, bufferedMessages := List.replicate d.toNat none,
                    firstEntry := 0, nextEntry := 0 }, none)
        ∧ slots = List.replicate d.toNat none
        ∧ ((List.replicate d.toNat (none : Option Entry)).length : Int) = d)
    ∧ (0 ≤ d → ∀ p, makeSlice d = Except.error p → l.SetBacklogDepth d = Except.error p)
    ∧ (d * 8 > maxAlloc → makeSlice d = Except.error "makeslice: len out of range")
    ∧ (∀ (s : Log) (e : Option String), l.SetBacklogDepth d = Except.ok (s, e) →
        (e ≠ none ↔ d < 0)) := by
  refine ⟨SetBacklogDepth_negative l d, ?_, ?_, fun h => makeSlice_panics d (Or.inr h), ?_⟩
  · intro h0 slots hm
    obtain ⟨_, h1, hs⟩ := makeSlice_inv d slots hm
    refine ⟨SetBacklogDepth_returns l d h0 h1, hs, ?_⟩
    rw [List.length_replicate]
    omega
  · intro h0 p hm
    have hneg : ¬ d < 0 := by omega
    unfold Log.SetBacklogDepth
    rw [if_neg hneg]
    simp only [hm]
  · intro s e h
    by_cases hd : d < 0
    · rw [SetBacklogDepth_negative l d hd] at h
      injection h with h
      injection h with _ he
      subst he
      simp [hd]
    · have he := (SetBacklogDepth_inv l s d e (by omega) h).2.1
      subst he
      simp [hd]

/-- Witness of C11: on a log made by `New`, depth 3 (`make` returns three nil
slots: accepted, the level kept), depth -1 (rejected, state kept) and a depth of
two to the power 45 plus one (`make` panics, and so does the call). -/
theorem SetBacklogDepth_spec_witness :
    ((0 : Int) ≤ 3 ∧ makeSlice 3 = Except.ok [none, none, none]
      ∧ New.SetBacklogDepth 3 = Except.ok
          ({ New with backlogDepth := 3, bufferedMessages := [none, none, none],
                      firstEntry := 0, nextEntry := 0 }, none))
    ∧ ((-1 : Int) < 0
      ∧ New.SetBacklogDepth (-1) = Except.ok (New, some "bad backlog depth selected: -1"))
    ∧ ((0 : Int) ≤ 35184372088833 ∧ (35184372088833 : Int) * 8 > maxAlloc
      ∧ makeSlice 35184372088833 = Except.error "makeslice: len out of range"
      ∧ New.SetBacklogDepth 35184372088833 = Except.error "makeslice: len out of range") :=
  ⟨⟨by decide, rfl, ((SetBacklogDepth_spec New 3).2.1 (by decide) [none, none, none] rfl).1⟩,
   ⟨by decide, (SetBacklogDepth_spec New (-1)).1 (by decide)⟩,
   ⟨by decide, by decide, (SetBacklogDepth_spec New 35184372088833).2.2.2.1 (by decide),
    (SetBacklogDepth_spec New 35184372088833).2.2.1 (by decide) _
      ((SetBacklogDepth_spec New 35184372088833).2.2.2.1 (by decide))⟩⟩

/-- C12: the clone of a log has its level, trigger level, depth and compaction
flag, its sinks, formatters and tags in the same order, and an empty backlog:
both cursors 0, every slot nil, no last entry and a zero duplicate count.
(`Clone` only reads its receiver: the source has no assignment to it.) -/
theorem Clone_spec (l : Log) :
    l.Clone.level = l.level ∧ l.Clone.triggerLevel = l.triggerLevel
    ∧ l.Clone.backlogDepth = l.backlogDepth ∧ l.Clone.compactDuplicates = l.compactDuplicates
    ∧ l.Clone.outputTargets = l.outputTargets ∧ l.Clone.outputFormatters = l.outputFormatters
    ∧ l.Clone.tags = l.tags ∧ l.Clone.tags.length = l.tags.length
    ∧ l.Clone.firstEntry = 0 ∧ l.Clone.nextEntry = 0
    ∧ l.Clone.bufferedMessages = List.replicate 500 none
    ∧ l.Clone.lastLog = none ∧ l.Clone.duplicateCount = 0 := by
  refine ⟨rfl, rfl, rfl, rfl, ?_, ?_, ?_, ?_, rfl, rfl, rfl, rfl, rfl⟩
  · simp [Log.Clone, New]
  · simp [Log.Clone, New]
  · simp [Log.Clone, New]
  · simp [Log.Clone, New]

/-! ## Registering sinks and formatters -/

/-- C18: `AddOutputTargetAndFormatter` and `AddOutputTarget` append the sink and
its formatter at the end of the two lists (the pairs before stay as they are),
change no other field, and return the number of sinks before the call, which is
the number after it minus 1; the first registration on a log made by `New`
returns 0. -/
theorem AddOutputTarget_appends (l : Log) (w : Writer) (f : LogFormatter) :
    ((l.AddOutputTargetAndFormatter w f).1 =
        { l with outputTargets := l.outputTargets ++ [w], outputFormatters := l.outputFormatters ++ [f] }
      ∧ (l.AddOutputTargetAndFormatter w f).2 = (l.outputTargets.length : Int)
      ∧ (l.AddOutputTargetAndFormatter w f).2
          = ((l.AddOutputTargetAndFormatter w f).1.outputTargets.length : Int) - 1)
    ∧ ((l.AddOutputTarget w).1 =
        { l with outputTargets := l.outputTargets ++ [w]
                 outputFormatters := l.outputFormatters ++ [LogFormatter.text { timeFormat := timeANSIC }] }
      ∧ (l.AddOutputTarget w).2 = (l.outputTargets.length : Int)
      ∧ (l.AddOutputTarget w).2 = ((l.AddOutputTarget w).1.outputTargets.length : Int) - 1)
    ∧ (New.AddOutputTarget w).2 = 0 ∧ (New.AddOutputTargetAndFormatter w f).2 = 0 := by
  refine ⟨⟨rfl, ?_, rfl⟩, ⟨rfl, ?_, rfl⟩, rfl, rfl⟩
  · simp [Log.AddOutputTargetAndFormatter]
  · simp [Log.AddOutputTarget, Log.AddOutputTargetAndFormatter]

/-- C19, counterexample: the formatter `AddOutputTarget` registers on a log made
by `New` is the text formatter with the time format `time.ANSIC`, which is not
the empty format. -/
theorem AddOutputTarget_default_counterexample :
    (New.AddOutputTarget goodWriter).1.outputFormatters
      = [LogFormatter.text { timeFormat := "Mon Jan _2 15:04:05 2006" }]
    ∧ (New.AddOutputTarget goodWriter).1.outputFormatters ≠ [LogFormatter.text { timeFormat := "" }] :=
  ⟨rfl, by decide⟩

/-- C19 (amended): the formatter `AddOutputTarget` pairs with the new sink is the
text formatter configured with the time format `time.ANSIC`
(`"Mon Jan _2 15:04:05 2006"`): every line it renders starts with the timestamp
of the entry formatted in that layout. -/
theorem AddOutputTarget_default_formatter (rt : Runtime) (l : Log) (w : Writer) (entry : Entry) :
    (l.AddOutputTarget w).1.outputFormatters
      = l.outputFormatters ++ [LogFormatter.text { timeFormat := "Mon Jan _2 15:04:05 2006" }]
    ∧ (LogFormatter.text { timeFormat := "Mon Jan _2 15:04:05 2006" }).ID = "text"
    ∧ ∃ rest, (LogFormatter.text { timeFormat := "Mon Jan _2 15:04:05 2006" }).Format rt entry
        = Except.ok (rt.formatTime "Mon Jan _2 15:04:05 2006" entry.timestamp ++ rest) := by
  refine ⟨rfl, rfl, ?_⟩
  refine ⟨" [" ++ levelOrError entry.level ++ "] "
    ++ entry.tags.foldl (fun acc v => acc ++ (v.name ++ ": " ++ sprintV v.value ++ " ")) ""
    ++ entry.message ++ "\n", ?_⟩
  simp [LogFormatter.Format, TextFormatter.Format, String.append_assoc]

/-- C20: on a log with as many formatters as sinks, `SetOutputFormatter(i, f)` and
`GetOutputFormatter(i)` do not panic and return an error exactly when `i < 0` or
`i` is at least the number of sinks.  A rejected `SetOutputFormatter` returns
the state it was given; an accepted one replaces the formatter at slot `i` and
nothing else, and `GetOutputFormatter(i)` on the new state yields `f`. -/
theorem OutputFormatter_accessors (l : Log) (i : Int) (f : LogFormatter)
    (hpair : l.outputFormatters.length = l.outputTargets.length) :
    ((i < 0 ∨ i ≥ (l.outputTargets.length : Int)) →
        l.SetOutputFormatter i f = Except.ok (l, some "bad output formatter index")
        ∧ l.GetOutputFormatter i = Except.ok (Except.error "bad output formatter index"))
    ∧ (¬ (i < 0 ∨ i ≥ (l.outputTargets.length : Int)) →
        l.SetOutputFormatter i f
          = Except.ok ({ l with outputFormatters := l.outputFormatters.set i.toNat f }, none)
        ∧ (∃ g, l.GetOutputFormatter i = Except.ok (Except.ok g)
            ∧ l.outputFormatters[i.toNat]? = some g)
        ∧ ({ l with outputFormatters := l.outputFormatters.set i.toNat f } : Log).GetOutputFormatter i
            = Except.ok (Except.ok f)
        ∧ (∀ j : Nat, j ≠ i.toNat →
            (l.outputFormatters.set i.toNat f)[j]? = l.outputFormatters[j]?)) := by
  constructor
  · intro h
    simp [Log.SetOutputFormatter, Log.GetOutputFormatter, h]
  · intro h
    have hlt : i.toNat < l.outputFormatters.length := by
      rw [hpair]
      omega
    refine ⟨?_, ?_, ?_, ?_⟩
    · simp only [Log.SetOutputFormatter, h, if_false, hlt, if_true]
    · refine ⟨l.outputFormatters[i.toNat], ?_, List.getElem?_eq_getElem hlt⟩
      simp only [Log.GetOutputFormatter, h, if_false, List.getElem?_eq_getElem hlt]
    · have hget : (l.outputFormatters.set i.toNat f)[i.toNat]? = some f := by
        simp [hlt]
      simp only [Log.GetOutputFormatter, h, if_false, hget]
    · intro j hj
      exact List.getElem?_set_ne (Ne.symm hj)

/-- Witness of C20 on `twoSinkLog`: index 1 is accepted and then read back, index 2
and index -1 are rejected. -/
theorem OutputFormatter_accessors_witness :
    twoSinkLog.outputFormatters.length = twoSinkLog.outputTargets.length
    ∧ ¬ ((1 : Int) < 0 ∨ (1 : Int) ≥ (twoSinkLog.outputTargets.length : Int))
    ∧ ((2 : Int) < 0 ∨ (2 : Int) ≥ (twoSinkLog.outputTargets.length : Int))
    ∧ twoSinkLog.SetOutputFormatter 1 (LogFormatter.yaml { timeFormat := "" })
        = Except.ok ({ twoSinkLog with outputFormatters :=
            [LogFormatter.text { timeFormat := timeANSIC }, LogFormatter.yaml { timeFormat := "" }] }, none)
    ∧ ({ twoSinkLog with outputFormatters :=
            twoSinkLog.outputFormatters.set 1 (LogFormatter.yaml { timeFormat := "" }) } : Log).GetOutputFormatter 1
        = Except.ok (Except.ok (LogFormatter.yaml { timeFormat := "" }))
    ∧ twoSinkLog.SetOutputFormatter 2 (LogFormatter.yaml { timeFormat := "" })
        = Except.ok (twoSinkLog, some "bad output formatter index")
    ∧ twoSinkLog.GetOutputFormatter (-1) = Except.ok (Except.error "bad output formatter index") :=
  ⟨rfl, by decide, by decide,
   ((OutputFormatter_accessors twoSinkLog 1 (LogFormatter.yaml { timeFormat := "" }) rfl).2
      (by decide)).1,
   ((OutputFormatter_accessors twoSinkLog 1 (LogFormatter.yaml { timeFormat := "" }) rfl).2
      (by decide)).2.2.1,
   ((OutputFormatter_accessors twoSinkLog 2 (LogFormatter.yaml { timeFormat := "" }) rfl).1
      (by decide)).1,
   ((OutputFormatter_accessors twoSinkLog (-1) (LogFormatter.yaml { timeFormat := "" }) rfl).1
      (by decide)).2⟩

/-! ## The tags of a compacted entry -/

/-- C13: depth 4, `"m"` logged three times at `Trace` without tags, then
`AddTag("k", 1)`, then `"z"`.  The compacted entry `m (2)` in slot 1 has the
level and the timestamp of the last repeat but the tag `k` added after it; the
last repeat itself (and the first occurrence in slot 0) has no tag. -/
theorem compacted_entry_takes_current_tags (rt : Runtime) :
    New.SetBacklogDepth 4 = Except.ok (New.withBacklogDepth 4, none)
    ∧ entriesAfter (runCalls rt (New.withBacklogDepth 4)
        [Call.log 10 Trace "m", Call.log 11 Trace "m", Call.log 12 Debug "m"])
      = some [some (NewEntry Trace 10 "m" []), none, none, none]
    ∧ (∃ l, runCalls rt (New.withBacklogDepth 4)
          [Call.log 10 Trace "m", Call.log 11 Trace "m", Call.log 12 Debug "m"] = Except.ok (l, [])
        ∧ l.lastLog = some (NewEntry Debug 12 "m" []) ∧ l.duplicateCount = 2)
    ∧ entriesAfter (runCalls rt (New.withBacklogDepth 4)
        [Call.log 10 Trace "m", Call.log 11 Trace "m", Call.log 12 Debug "m",
          Call.addTag "k" (TagValue.int 1), Call.log 20 Trace "z"])
      = some [some (NewEntry Trace 10 "m" []),
          some (NewEntry Debug 12 "m (2)" [CreateTag "k" (TagValue.int 1)]),
          some (NewEntry Trace 20 "z" [CreateTag "k" (TagValue.int 1)]), none] :=
  ⟨rfl, rfl, ⟨_, rfl, rfl, rfl⟩, rfl⟩

/-! ## The text format -/

theorem levelOrError_of_enumeration (level : LogLevel) (h0 : Trace ≤ level) (h1 : level ≤ Fatal) :
    levelOrError level = upperLevelName level := by
  have h0' : (0 : Int) ≤ level := h0
  have h1' : level ≤ (5 : Int) := h1
  interval_cases level <;> rfl

theorem tagsText_foldl (tags : List Tag) :
    ∀ acc : String,
      tags.foldl (fun acc v => acc ++ (v.name ++ ": " ++ sprintV v.value ++ " ")) acc
        = acc ++ tagsText tags := by
  induction tags with
  | nil => intro acc; simp [tagsText]
  | cons v rest ih =>
    intro acc
    rw [List.foldl_cons, ih]
    simp only [tagsText, tagText, String.append_assoc]

theorem tagsText_append (a b : List Tag) : tagsText (a ++ b) = tagsText a ++ tagsText b := by
  induction a with
  | nil => simp [tagsText]
  | cons v rest ih =>
    show tagText v ++ tagsText (rest ++ b) = tagText v ++ tagsText rest ++ tagsText b
    rw [ih, String.append_assoc]

/-- The text formatter on an entry of the enumeration, with the tags written as
`tagsText`. -/
theorem TextFormatter_Format_line (rt : Runtime) (tf : TextFormatter) (entry : Entry)
    (h0 : Trace ≤ entry.level) (h1 : entry.level ≤ Fatal) :
    tf.Format rt entry = Except.ok (rt.formatTime tf.timeFormat entry.timestamp ++ " ["
      ++ upperLevelName entry.level ++ "] " ++ tagsText entry.tags ++ entry.message ++ "\n") := by
  show Except.ok (rt.formatTime tf.timeFormat entry.timestamp ++ " [" ++ levelOrError entry.level
    ++ "] " ++ entry.tags.foldl (fun acc v => acc ++ (v.name ++ ": " ++ sprintV v.value ++ " ")) ""
    ++ entry.message ++ "\n") = _
  rw [levelOrError_of_enumeration entry.level h0 h1, tagsText_foldl, String.empty_append]

/-- C16: for an entry with a level in `Trace..Fatal` the text formatter returns
exactly the formatted timestamp, `" ["`, the upper-case level name, `"] "`, for
each tag in order its name, `": "`, its value and a blank, then the message and
a newline.  So the line contains the level name, the message and the name/value
pair of every tag. -/
theorem TextFormatter_Format_exact (rt : Runtime) (tf : TextFormatter) (entry : Entry)
    (h0 : Trace ≤ entry.level) (h1 : entry.level ≤ Fatal) :
    ∃ line, tf.Format rt entry = Except.ok line
      ∧ line = rt.formatTime tf.timeFormat entry.timestamp ++ " [" ++ upperLevelName entry.level
          ++ "] " ++ tagsText entry.tags ++ entry.message ++ "\n"
      ∧ hasPart line (upperLevelName entry.level)
      ∧ hasPart line entry.message
      ∧ ∀ v ∈ entry.tags, hasPart line (v.name ++ ": " ++ sprintV v.value) := by
  refine ⟨_, TextFormatter_Format_line rt tf entry h0 h1, rfl, ?_, ?_, ?_⟩
  · refine ⟨rt.formatTime tf.timeFormat entry.timestamp ++ " [",
      "] " ++ tagsText entry.tags ++ entry.message ++ "\n", ?_⟩
    simp only [String.append_assoc]
  · refine ⟨rt.formatTime tf.timeFormat entry.timestamp ++ " [" ++ upperLevelName entry.level
      ++ "] " ++ tagsText entry.tags, "\n", ?_⟩
    simp only [String.append_assoc]
  · intro v hv
    obtain ⟨a, b, hab⟩ := List.append_of_mem hv
    refine ⟨rt.formatTime tf.timeFormat entry.timestamp ++ " [" ++ upperLevelName entry.level
      ++ "] " ++ tagsText a, " " ++ tagsText b ++ entry.message ++ "\n", ?_⟩
    rw [hab, tagsText_append]
    simp only [tagsText, tagText, String.append_assoc]

/-- Witness of C16: the entry of `TestAddTag` (level `Fatal`, tags one, two, three,
message `tag testing`) at instant 0. -/
theorem TextFormatter_Format_exact_witness :
    Trace ≤ Fatal ∧ Fatal ≤ Fatal
    ∧ ∃ line, ({ timeFormat := timeANSIC } : TextFormatter).Format sampleRuntime
          (NewEntry Fatal 0 "tag testing"
            [CreateTag "one" (TagValue.int 1), CreateTag "two" (TagValue.int 2),
              CreateTag "three" (TagValue.int 3)]) = Except.ok line
        ∧ line = "0 [FATAL] one: 1 two: 2 three: 3 tag testing\n"
        ∧ hasPart line "[FATAL] one: 1 two: 2 three: 3 tag testing" := by
  refine ⟨by decide, by decide, ?_⟩
  obtain ⟨line, h1, h2, _⟩ := TextFormatter_Format_exact sampleRuntime { timeFormat := timeANSIC }
    (NewEntry Fatal 0 "tag testing"
      [CreateTag "one" (TagValue.int 1), CreateTag "two" (TagValue.int 2),
        CreateTag "three" (TagValue.int 3)]) (by decide) (by decide)
  have h3 : line = "0 [FATAL] one: 1 two: 2 three: 3 tag testing\n" := by
    rw [h2]
    decide
  exact ⟨line, h1, h3, "0 ", "\n", by rw [h3]; decide⟩

/-! ## Frame of the logging call -/

theorem addBufferEntry_sameSettings (l l1 : Log) (e : Entry)
    (h : l.addBufferEntry e = Except.ok l1) : sameSettings l1 l := by
  unfold Log.addBufferEntry at h
  by_cases h1 : l.nextEntry ≥ l.backlogDepth
  · by_cases h2 : l.backlogDepth = 0
    · rw [if_pos h1, if_pos h2] at h
      simp at h
    · simp only [h1, h2, if_true, if_false] at h
      split at h
      · injection h with h
        subst h
        exact ⟨rfl, rfl, rfl, rfl, rfl, rfl, rfl⟩
      · simp at h
  · simp only [h1, if_false] at h
    split at h
    · injection h with h
      subst h
      exact ⟨rfl, rfl, rfl, rfl, rfl, rfl, rfl⟩
    · simp at h

theorem buffer_sameSettings (l l1 : Log) (e : Entry) (h : l.buffer e = Except.ok l1) :
    sameSettings l1 l := by
  cases hc : l.compactDuplicates with
  | false =>
    rw [buffer_no_compact l e hc] at h
    exact addBufferEntry_sameSettings l l1 e h
  | true =>
    cases hl : l.lastLog with
    | none =>
      rw [buffer_first l e hc hl] at h
      have hset := addBufferEntry_sameSettings _ l1 e h
      exact hset
    | some lastLog =>
      by_cases hm : e.message = lastLog.message
      · rw [buffer_duplicate l e lastLog hc hl hm] at h
        injection h with h
        subst h
        exact ⟨rfl, rfl, rfl, rfl, rfl, rfl, rfl⟩
      · by_cases hcount : l.duplicateCount ≤ 1
        · rw [buffer_fresh l e lastLog hc hl hm hcount] at h
          have hset := addBufferEntry_sameSettings _ l1 e h
          exact hset
        · rw [buffer_compacting l e lastLog hc hl hm (not_le.mp hcount)] at h
          cases h2 : l.addBufferEntry (compactedEntry l lastLog) with
          | error p => simp [h2] at h
          | ok l2 =>
            simp only [h2] at h
            exact sameSettings_trans _ _ _ (addBufferEntry_sameSettings _ l1 e h)
              (addBufferEntry_sameSettings l l2 _ h2)

theorem dumpBuffer_sameSettings (rt : Runtime) (l l1 : Log) (events : List Event)
    (h : l.dumpBuffer rt = Except.ok (l1, events)) : sameSettings l1 l := by
  unfold Log.dumpBuffer at h
  repeat' split at h
  all_goals first
    | (injection h with h
       injection h with h _
       subst h
       exact ⟨rfl, rfl, rfl, rfl, rfl, rfl, rfl⟩)
    | (simp at h; done)
    | (revert h
       generalize Log.dumpBufferRange rt l _ = r
       intro h
       cases r with
       | error p => simp at h
       | ok evs =>
         first
           | (simp at h; done)
           | (injection h with h
              injection h with h _
              subst h
              exact ⟨rfl, rfl, rfl, rfl, rfl, rfl, rfl⟩))

/-- A `Log` call that returns leaves the settings, the sinks, the formatters and
the tags as they were. -/
theorem Log_sameSettings (rt : Runtime) (l l1 : Log) (now : Instant) (level : LogLevel)
    (message : String) (events : List Event)
    (h : l.Log rt now level message = Except.ok (l1, events)) : sameSettings l1 l := by
  unfold Log.Log at h
  cases hb : l.buffer (NewEntry level now message l.tags) with
  | error p => simp [hb] at h
  | ok l2 =>
    have hset := buffer_sameSettings l l2 _ hb
    simp only [hb] at h
    split at h
    · split at h
      · exact sameSettings_trans _ _ _ (dumpBuffer_sameSettings rt l2 l1 events h) hset
      · split at h
        · simp at h
        · injection h with h
          injection h with h _
          subst h
          exact hset
    · injection h with h
      injection h with h _
      subst h
      exact hset

/-! ## Sinks and formatters stay paired -/

/-- One call keeps the number of sinks equal to the number of formatters. -/
theorem Call_apply_keeps_pairs (rt : Runtime) (l l1 : Log) (c : Call) (events : List Event)
    (hpair : l.outputTargets.length = l.outputFormatters.length)
    (h : c.apply rt l = Except.ok (l1, events)) :
    l1.outputTargets.length = l1.outputFormatters.length := by
  cases c with
  | setLevel level =>
    simp only [Call.apply] at h
    injection h with h
    injection h with h _
    subst h
    unfold Log.SetLevel
    split
    · exact hpair
    · split
      · exact hpair
      · exact hpair
  | setTriggerLevel triggerLevel =>
    simp only [Call.apply] at h
    injection h with h
    injection h with h _
    subst h
    unfold Log.SetTriggerLevel
    split
    · exact hpair
    · split
      · exact hpair
      · exact hpair
  | setBacklogDepth depth =>
    rcases Call_setBacklogDepth_inv rt l l1 depth events h with ⟨_, h1⟩ | ⟨_, h1⟩
    · subst h1
      exact hpair
    · subst h1
      exact hpair
  | setCompactDuplicates compact =>
    simp only [Call.apply] at h
    injection h with h
    injection h with h _
    subst h
    exact hpair
  | addOutputTarget writer =>
    simp only [Call.apply] at h
    injection h with h
    injection h with h _
    subst h
    simp [Log.AddOutputTarget, Log.AddOutputTargetAndFormatter, hpair]
  | addOutputTargetAndFormatter writer formatter =>
    simp only [Call.apply] at h
    injection h with h
    injection h with h _
    subst h
    simp [Log.AddOutputTargetAndFormatter, hpair]
  | setOutputFormatter index formatter =>
    simp only [Call.apply, Log.SetOutputFormatter] at h
    split at h
    · simp at h
    · rename_i l2 err heq
      split at heq
      · injection heq with heq
        injection heq with heq _
        injection h with h
        injection h with h _
        subst heq
        subst h
        exact hpair
      · split at heq
        · injection heq with heq
          injection heq with heq _
          injection h with h
          injection h with h _
          subst heq
          subst h
          simp [hpair]
        · simp at heq
  | addTag name value =>
    simp only [Call.apply] at h
    injection h with h
    injection h with h _
    subst h
    exact hpair
  | clone =>
    simp only [Call.apply] at h
    injection h with h
    injection h with h _
    subst h
    simp [Log.Clone, New, hpair]
  | log now level message =>
    have hset := Log_sameSettings rt l l1 now level message events h
    rw [hset.2.2.2.2.1, hset.2.2.2.2.2.1]
    exact hpair

theorem runCalls_keeps_pairs (rt : Runtime) (calls : List Call) :
    ∀ (l l1 : Log) (events : List Event),
      l.outputTargets.length = l.outputFormatters.length →
      runCalls rt l calls = Except.ok (l1, events) →
      l1.outputTargets.length = l1.outputFormatters.length := by
  induction calls with
  | nil =>
    intro l l1 events hpair h
    simp only [runCalls] at h
    injection h with h
    injection h with h _
    subst h
    exact hpair
  | cons c cs ih =>
    intro l l1 events hpair h
    simp only [runCalls] at h
    cases hc : c.apply rt l with
    | error p => simp [hc] at h
    | ok r =>
      obtain ⟨l2, ev2⟩ := r
      simp only [hc] at h
      cases hr : runCalls rt l2 cs with
      | error p => simp [hr] at h
      | ok r2 =>
        obtain ⟨l3, ev3⟩ := r2
        simp only [hr] at h
        injection h with h
        injection h with h _
        subst h
        exact ih l2 l3 ev3 (Call_apply_keeps_pairs rt l l2 c ev2 hpair hc) hr

/-- C17: in every state reached from `New` by a sequence of calls of the public
operations (the two sink registrations, `SetOutputFormatter`, `Clone`, the
setters, `AddTag` and `Log`) that does not panic, the number of sinks equals the
number of formatters, and every sink index has a formatter. -/
theorem sinks_and_formatters_paired (rt : Runtime) (calls : List Call) (l : Log)
    (events : List Event) (h : runCalls rt New calls = Except.ok (l, events)) :
    l.outputTargets.length = l.outputFormatters.length
    ∧ ∀ i : Nat, i < l.outputTargets.length → ∃ f, l.outputFormatters[i]? = some f := by
  have hpair := runCalls_keeps_pairs rt calls New l events rfl h
  refine ⟨hpair, ?_⟩
  intro i hi
  exact ⟨l.outputFormatters[i], List.getElem?_eq_getElem (by omega)⟩

/-- Witness of C17: depth 4, two registrations, a formatter replaced, a clone and
two `Log` calls, one of them triggering. -/
theorem sinks_and_formatters_paired_witness :
    ∃ l events, runCalls sampleRuntime New
        [Call.setBacklogDepth 4, Call.addOutputTarget goodWriter,
          Call.addOutputTargetAndFormatter brokenWriter (LogFormatter.json { timeFormat := "", prettyPrint := false }),
          Call.setOutputFormatter 0 (LogFormatter.yaml { timeFormat := "" }),
          Call.log 1 Error "m", Call.log 2 Fatal "n", Call.clone] = Except.ok (l, events)
      ∧ l.outputTargets.length = 2 ∧ l.outputFormatters.length = 2
      ∧ l.outputTargets.length = l.outputFormatters.length :=
  ⟨_, _, rfl, rfl, rfl,
    (sinks_and_formatters_paired sampleRuntime
      [Call.setBacklogDepth 4, Call.addOutputTarget goodWriter,
        Call.addOutputTargetAndFormatter brokenWriter (LogFormatter.json { timeFormat := "", prettyPrint := false }),
        Call.setOutputFormatter 0 (LogFormatter.yaml { timeFormat := "" }),
        Call.log 1 Error "m", Call.log 2 Fatal "n", Call.clone] _ _ rfl).1⟩

/-! ## Filling the buffer and the first wrap -/

/-- Distinct messages below the engine level, with compaction on and room in the
buffer, are stored one per slot from `nextEntry` on; nothing is written. -/
theorem runLogs_distinct (rt : Runtime) :
    ∀ (msgs : List (Instant × LogLevel × String)) (s : Log),
      s.compactDuplicates = true →
      (∀ last, s.lastLog = some last → ∀ x ∈ msgs, x.2.2 ≠ last.message) →
      s.duplicateCount ≤ 1 → (s.lastLog = none → s.duplicateCount = 0) →
      msgs.Pairwise (fun a b => a.2.2 ≠ b.2.2) →
      (∀ x ∈ msgs, x.2.1 < s.level) →
      0 ≤ s.nextEntry → s.nextEntry + (msgs.length : Int) ≤ s.backlogDepth →
      s.backlogDepth ≤ (s.bufferedMessages.length : Int) →
      ∃ s1, runLogs rt s msgs = Except.ok (s1, [])
        ∧ sameSettings s1 s ∧ s1.firstEntry = s.firstEntry
        ∧ s1.nextEntry = s.nextEntry + (msgs.length : Int)
        ∧ s1.bufferedMessages.length = s.bufferedMessages.length
        ∧ s1.duplicateCount ≤ 1 ∧ (s1.lastLog = none → s1.duplicateCount = 0)
        ∧ (∀ last, s1.lastLog = some last →
            (∃ x ∈ msgs, x.2.2 = last.message) ∨ s.lastLog = some last) := by
  intro msgs
  induction msgs with
  | nil =>
    intro s _ _ hcount hnone _ _ _ _ _
    exact ⟨s, rfl, sameSettings_refl s, rfl, by simp, rfl, hcount, hnone, fun last h => Or.inr h⟩
  | cons x rest ih =>
    intro s hc hprev hcount hnone hpw hlv hn hroom hs
    obtain ⟨now, level, message⟩ := x
    have hlen : (((now, level, message) :: rest).length : Int) = (rest.length : Int) + 1 := by
      simp
    rw [hlen] at hroom
    have hb := buffer_run_start s (NewEntry level now message s.tags) hc
      (fun last hl => ⟨hprev last hl (now, level, message) (List.mem_cons_self _ _), hcount⟩)
      hnone hn (by omega) (by omega)
    have hlog := Log_below_level rt s _ now level message hb ⟨rfl, rfl, rfl, rfl, rfl, rfl, rfl⟩
      (hlv (now, level, message) (List.mem_cons_self _ _))
    have hpw2 := List.pairwise_cons.mp hpw
    obtain ⟨s1, hrun, hset, hfirst, hnext, hslots, hcount1, hnone1, hlast1⟩ := ih
      ({ s with
        lastLog := some (NewEntry level now message s.tags)
        duplicateCount := 0
        bufferedMessages := s.bufferedMessages.set s.nextEntry.toNat
          (some (NewEntry level now message s.tags))
        nextEntry := s.nextEntry + 1 } : Log)
      hc
      (by
        intro last hl y hy
        injection hl with hl
        subst hl
        exact fun heq => hpw2.1 y hy heq.symm)
      (by show (0 : Int) ≤ 1; omega)
      (fun _ => rfl)
      hpw2.2
      (fun y hy => hlv y (List.mem_cons_of_mem _ hy))
      (by show (0 : Int) ≤ s.nextEntry + 1; omega)
      (by show s.nextEntry + 1 + (rest.length : Int) ≤ s.backlogDepth; omega)
      (by
        show s.backlogDepth ≤ ((s.bufferedMessages.set _ _).length : Int)
        rw [List.length_set]
        exact hs)
    refine ⟨s1, runLogs_cons_ok rt s _ s1 now level message rest [] [] hlog hrun, hset, hfirst,
      ?_, ?_, hcount1, hnone1, ?_⟩
    · rw [hnext, hlen]
      show s.nextEntry + 1 + (rest.length : Int) = s.nextEntry + ((rest.length : Int) + 1)
      omega
    · rw [hslots]
      exact List.length_set _ _ _
    · intro last hl
      cases hlast1 last hl with
      | inl h =>
        obtain ⟨y, hy, hmsg⟩ := h
        exact Or.inl ⟨y, List.mem_cons_of_mem _ hy, hmsg⟩
      | inr h =>
        injection h with h
        subst h
        exact Or.inl ⟨(now, level, message), List.mem_cons_self _ _, rfl⟩

/-- The push of a new message on a full buffer (`nextEntry` at `backlogDepth`,
with compaction on, no pending run and a different last message): slot 0 is
overwritten, `firstEntry` moves on by one modulo the depth, `nextEntry` is 1. -/
theorem buffer_on_full (s : Log) (e : Entry) (hc : s.compactDuplicates = true)
    (hprev : ∀ last, s.lastLog = some last → e.message ≠ last.message)
    (hcount : s.duplicateCount ≤ 1)
    (hd : 1 ≤ s.backlogDepth) (hfull : s.backlogDepth ≤ s.nextEntry)
    (hs : s.backlogDepth ≤ (s.bufferedMessages.length : Int)) :
    ∃ s1, s.buffer e = Except.ok s1 ∧ sameSettings s1 s
      ∧ s1.firstEntry = Int.tmod (s.firstEntry + 1) s.backlogDepth
      ∧ s1.nextEntry = 1
      ∧ s1.bufferedMessages = s.bufferedMessages.set 0 (some e) := by
  have hne : s.backlogDepth ≠ 0 := by omega
  have hpos : (0 : Int) < (s.bufferedMessages.length : Int) := by omega
  cases hl : s.lastLog with
  | none =>
    refine ⟨{ s with
        lastLog := some e
        firstEntry := Int.tmod (s.firstEntry + 1) s.backlogDepth
        bufferedMessages := s.bufferedMessages.set 0 (some e)
        nextEntry := 1 }, ?_, ⟨rfl, rfl, rfl, rfl, rfl, rfl, rfl⟩, rfl, rfl, rfl⟩
    rw [buffer_first s e hc hl]
    exact addBufferEntry_wrap ({ s with lastLog := some e } : Log) e hfull hne hpos
  | some last =>
    refine ⟨{ s with
        duplicateCount := 0
        lastLog := some e
        firstEntry := Int.tmod (s.firstEntry + 1) s.backlogDepth
        bufferedMessages := s.bufferedMessages.set 0 (some e)
        nextEntry := 1 }, ?_, ⟨rfl, rfl, rfl, rfl, rfl, rfl, rfl⟩, rfl, rfl, rfl⟩
    rw [buffer_fresh s e last hc hl (hprev last hl) hcount]
    exact addBufferEntry_wrap ({ s with duplicateCount := 0, lastLog := some e } : Log) e hfull
      hne hpos

/-- C15: for every `D ≥ 2`, on a log made by `New` and set to depth `D` (`s0` is
the log `SetBacklogDepth(D)` returns): after `D`
pairwise distinct messages below the engine level `firstEntry = 0` and
`nextEntry = D`; a further distinct message below the engine level overwrites
slot 0 (the other slots stay) and leaves `firstEntry = 1` and `nextEntry = 1`.
Nothing is written. -/
theorem fill_then_wrap (rt : Runtime) (D : Nat) (msgs : List (Instant × LogLevel × String))
    (now : Instant) (level : LogLevel) (message : String)
    (hD : 2 ≤ D) (hlen : msgs.length = D)
    (hpw : msgs.Pairwise (fun a b => a.2.2 ≠ b.2.2))
    (hnew : ∀ x ∈ msgs, message ≠ x.2.2)
    (hlv : ∀ x ∈ msgs, x.2.1 < Error) (hlevel : level < Error)
    (s0 : Log) (hdepth0 : New.SetBacklogDepth (D : Int) = Except.ok (s0, none)) :
    ∃ s, runLogs rt s0 msgs = Except.ok (s, [])
      ∧ s.firstEntry = 0 ∧ s.nextEntry = (D : Int)
      ∧ ∃ s1, s.Log rt now level message = Except.ok (s1, [])
        ∧ s1.bufferedMessages = s.bufferedMessages.set 0 (some (NewEntry level now message []))
        ∧ s1.bufferedMessages[0]? = some (some (NewEntry level now message []))
        ∧ s1.firstEntry = 1 ∧ s1.nextEntry = 1 := by
  have hstart : s0
      = { New with backlogDepth := (D : Int), bufferedMessages := makeEntries (D : Int),
                   firstEntry := 0, nextEntry := 0 } :=
    (SetBacklogDepth_inv New s0 (D : Int) none (by omega) hdepth0).2.2
  have hslots0 : ((s0.bufferedMessages.length : Nat) : Int) = (D : Int) := by
    rw [hstart]
    show (((makeEntries (D : Int)).length : Nat) : Int) = (D : Int)
    rw [makeEntries_length]
    omega
  obtain ⟨s, hrun, hset, hfirst, hnext, hslots, hcount, _, hlast⟩ :=
    runLogs_distinct rt msgs s0
      (by rw [hstart]; rfl)
      (by
        intro last hl
        rw [hstart] at hl
        cases hl)
      (by rw [hstart]; show (0 : Int) ≤ 1; omega)
      (fun _ => by rw [hstart]; rfl)
      hpw
      (by
        intro x hx
        rw [hstart]
        exact hlv x hx)
      (by
        have hzero : s0.nextEntry = 0 := by rw [hstart]
        omega)
      (by
        rw [hstart, hlen]
        show (0 : Int) + (D : Int) ≤ (D : Int)
        omega)
      (by
        have hdep : s0.backlogDepth = (D : Int) := by rw [hstart]
        rw [hslots0, hdep])
  have hdepth : s.backlogDepth = (D : Int) := by
    rw [hset.2.2.1, hstart]
  have hnextD : s.nextEntry = (D : Int) := by
    rw [hnext, hlen, hstart]
    show (0 : Int) + (D : Int) = (D : Int)
    omega
  have hfirst0 : s.firstEntry = 0 := by
    rw [hfirst, hstart]
  have htags : s.tags = [] := by
    rw [hset.2.2.2.2.2.2, hstart]
    rfl
  have hlevelS : s.level = Error := by
    rw [hset.1, hstart]
    rfl
  obtain ⟨s1, hb, hset1, hf1, hn1, hbuf1⟩ := buffer_on_full s (NewEntry level now message s.tags)
    (by rw [hset.2.2.2.1, hstart]; rfl)
    (by
      intro last hl
      cases hlast last hl with
      | inl h =>
        obtain ⟨x, hx, hmsg⟩ := h
        exact fun heq => hnew x hx (heq.trans hmsg.symm)
      | inr h =>
        rw [hstart] at h
        cases h)
    hcount (by omega) (by omega)
    (by
      rw [hslots, hslots0, hdepth])
  have hlog := Log_below_level rt s s1 now level message hb hset1 (by rw [hlevelS]; exact hlevel)
  have hpos : 0 < s.bufferedMessages.length := by
    have h1 : ((s.bufferedMessages.length : Nat) : Int) = (D : Int) := by rw [hslots, hslots0]
    omega
  refine ⟨s, hrun, hfirst0, hnextD, s1, hlog, ?_, ?_, ?_, hn1⟩
  · rw [hbuf1, htags]
  · rw [hbuf1, htags]
    simp [hpos]
  · rw [hf1, hfirst0, hdepth]
    exact Int.tmod_eq_of_lt (by omega) (by omega)

/-- Witness of C15 with `D = 2`: `a`, `b`, then `c`. -/
theorem fill_then_wrap_witness :
    (2 ≤ 2 ∧ [((1 : Instant), Trace, "a"), (2, Debug, "b")].length = 2 ∧ "c" ≠ "a" ∧ "c" ≠ "b"
      ∧ Trace < Error ∧ Debug < Error ∧ Information < Error
      ∧ New.SetBacklogDepth ((2 : Nat) : Int) = Except.ok (New.withBacklogDepth 2, none))
    ∧ ∃ s, runLogs sampleRuntime (New.withBacklogDepth 2) [(1, Trace, "a"), (2, Debug, "b")]
          = Except.ok (s, [])
        ∧ s.firstEntry = 0 ∧ s.nextEntry = 2
        ∧ ∃ s1, s.Log sampleRuntime 3 Information "c" = Except.ok (s1, [])
          ∧ s1.bufferedMessages[0]? = some (some (NewEntry Information 3 "c" []))
          ∧ s1.firstEntry = 1 ∧ s1.nextEntry = 1 := by
  refine ⟨⟨by decide, by decide, by decide, by decide, by decide, by decide, by decide, rfl⟩, ?_⟩
  obtain ⟨s, h1, h2, h3, s1, h4, _, h6, h7, h8⟩ := fill_then_wrap sampleRuntime 2
    [(1, Trace, "a"), (2, Debug, "b")] 3 Information "c" (le_refl 2) rfl (by decide) (by decide)
    (by decide) (by decide) (New.withBacklogDepth 2) rfl
  exact ⟨s, h1, h2, h3, s1, h4, h6, h7, h8⟩

/-! ## Repeats store nothing, the next message stores two entries -/

theorem addBufferEntry_keeps_dedup (l l1 : Log) (e : Entry)
    (h : l.addBufferEntry e = Except.ok l1) :
    l1.lastLog = l.lastLog ∧ l1.duplicateCount = l.duplicateCount := by
  unfold Log.addBufferEntry at h
  by_cases h1 : l.nextEntry ≥ l.backlogDepth
  · by_cases h2 : l.backlogDepth = 0
    · rw [if_pos h1, if_pos h2] at h
      simp at h
    · simp only [h1, h2, if_true, if_false] at h
      split at h
      · injection h with h
        subst h
        exact ⟨rfl, rfl⟩
      · simp at h
  · simp only [h1, if_false] at h
    split at h
    · injection h with h
      subst h
      exact ⟨rfl, rfl⟩
    · simp at h

/-- With compaction on, a push that returns leaves the pushed entry in `lastLog`. -/
theorem buffer_lastLog (l l1 : Log) (e : Entry) (hc : l.compactDuplicates = true)
    (h : l.buffer e = Except.ok l1) : l1.lastLog = some e := by
  cases hl : l.lastLog with
  | none =>
    rw [buffer_first l e hc hl] at h
    exact (addBufferEntry_keeps_dedup _ l1 e h).1
  | some lastLog =>
    by_cases hm : e.message = lastLog.message
    · rw [buffer_duplicate l e lastLog hc hl hm] at h
      injection h with h
      subst h
      rfl
    · by_cases hcount : l.duplicateCount ≤ 1
      · rw [buffer_fresh l e lastLog hc hl hm hcount] at h
        exact (addBufferEntry_keeps_dedup _ l1 e h).1
      · rw [buffer_compacting l e lastLog hc hl hm (not_le.mp hcount)] at h
        cases h2 : l.addBufferEntry (compactedEntry l lastLog) with
        | error p => simp [h2] at h
        | ok l2 =>
          simp only [h2] at h
          exact (addBufferEntry_keeps_dedup _ l1 e h).1

theorem rendersAll_of_sameSettings (rt : Runtime) (l l1 : Log) (hset : sameSettings l1 l)
    (hfmt : rendersAll rt l) : rendersAll rt l1 := by
  intro f hf level now message
  rw [hset.2.2.2.2.2.1] at hf
  rw [hset.2.2.2.2.2.2]
  exact hfmt f hf level now message

/-- Two calls below the trigger level with the same message: the second stores
nothing. -/
theorem Log_repeat_stores_nothing (rt : Runtime) (l : Log) (t1 t2 : Instant)
    (lv1 lv2 : LogLevel) (m : String)
    (hc : l.compactDuplicates = true) (hd : 1 ≤ l.backlogDepth)
    (hs : l.backlogDepth ≤ (l.bufferedMessages.length : Int)) (hn : 0 ≤ l.nextEntry)
    (hlt1 : lv1 < l.triggerLevel) (hlt2 : lv2 < l.triggerLevel)
    (hpair : l.outputFormatters.length = l.outputTargets.length) (hfmt : rendersAll rt l) :
    ∃ s1 ev1 s2 ev2, l.Log rt t1 lv1 m = Except.ok (s1, ev1)
      ∧ s1.Log rt t2 lv2 m = Except.ok (s2, ev2)
      ∧ s2.firstEntry = s1.firstEntry ∧ s2.nextEntry = s1.nextEntry
      ∧ s2.bufferedMessages = s1.bufferedMessages := by
  obtain ⟨s1, hb1, hset1, _, _⟩ := buffer_ok l (NewEntry lv1 t1 m l.tags) hd hs hn
  obtain ⟨ev1, hlog1⟩ := Log_nontrigger rt l s1 t1 lv1 m hb1 hset1 hlt1 hpair hfmt
  have hlast := buffer_lastLog l s1 _ hc hb1
  have hc1 : s1.compactDuplicates = true := by rw [hset1.2.2.2.1]; exact hc
  have hb2 := buffer_duplicate s1 (NewEntry lv2 t2 m s1.tags) (NewEntry lv1 t1 m l.tags) hc1 hlast rfl
  obtain ⟨ev2, hlog2⟩ := Log_nontrigger rt s1 _ t2 lv2 m hb2 ⟨rfl, rfl, rfl, rfl, rfl, rfl, rfl⟩
    (by rw [hset1.2.1]; exact hlt2)
    (by rw [hset1.2.2.2.2.1, hset1.2.2.2.2.2.1]; exact hpair)
    (rendersAll_of_sameSettings rt l s1 hset1 hfmt)
  exact ⟨s1, ev1, _, ev2, hlog1, hlog2, rfl, rfl, rfl⟩

/-- A message logged on a log without a pending run and then repeated `k + 1`
times, all below the trigger level: one entry stored, the count at `k + 1`. -/
theorem runLogs_run (rt : Runtime) (l : Log) (m : String) (lv : LogLevel) (ts : Nat → Instant)
    (k : Nat) (hc : l.compactDuplicates = true)
    (hprev : ∀ last, l.lastLog = some last → m ≠ last.message ∧ l.duplicateCount ≤ 1)
    (hnone : l.lastLog = none → l.duplicateCount = 0)
    (hn : 0 ≤ l.nextEntry) (hroom : l.nextEntry < l.backlogDepth)
    (hs : l.backlogDepth ≤ (l.bufferedMessages.length : Int))
    (hbig : (k : Int) + 1 < 2 ^ 63) (hlt : lv < l.triggerLevel)
    (hpair : l.outputFormatters.length = l.outputTargets.length) (hfmt : rendersAll rt l) :
    ∃ events, runLogs rt l ((List.range (k + 2)).map (fun i => (ts i, lv, m)))
      = Except.ok ({ l with
          lastLog := some (NewEntry lv (ts (k + 1)) m l.tags)
          duplicateCount := (k : Int) + 1
          bufferedMessages := l.bufferedMessages.set l.nextEntry.toNat
            (some (NewEntry lv (ts 0) m l.tags))
          nextEntry := l.nextEntry + 1 }, events) := by
  have hb1 := buffer_run_start l (NewEntry lv (ts 0) m l.tags) hc hprev hnone hn hroom (by omega)
  obtain ⟨ev1, hlog1⟩ := Log_nontrigger rt l _ (ts 0) lv m hb1 ⟨rfl, rfl, rfl, rfl, rfl, rfl, rfl⟩
    hlt hpair hfmt
  obtain ⟨ev2, hdups⟩ := runLogs_duplicates rt m lv ts k 1
    ({ l with
      lastLog := some (NewEntry lv (ts 0) m l.tags)
      duplicateCount := 0
      bufferedMessages := l.bufferedMessages.set l.nextEntry.toNat (some (NewEntry lv (ts 0) m l.tags))
      nextEntry := l.nextEntry + 1 } : Log)
    (NewEntry lv (ts 0) m l.tags) hc rfl rfl (le_refl _)
    (by show (0 : Int) + ((k : Int) + 1) < 2 ^ 63; omega)
    hlt hpair hfmt
  have hmap : (List.range (k + 2)).map (fun i => (ts i, lv, m))
      = (ts 0, lv, m) :: (List.range' 1 (k + 1)).map (fun i => (ts i, lv, m)) := by
    rw [List.range_eq_range']
    rfl
  refine ⟨ev1 ++ ev2, ?_⟩
  rw [hmap, runLogs_cons_ok rt l _ _ (ts 0) lv m _ ev1 ev2 hlog1 hdups]
  have e1 : (0 : Int) + ((k : Int) + 1) = (k : Int) + 1 := by omega
  have e2 : 1 + k = k + 1 := by omega
  show Except.ok (({ l with
      lastLog := some (NewEntry lv (ts (1 + k)) m l.tags)
      duplicateCount := 0 + ((k : Int) + 1)
      bufferedMessages := l.bufferedMessages.set l.nextEntry.toNat (some (NewEntry lv (ts 0) m l.tags))
      nextEntry := l.nextEntry + 1 } : Log), ev1 ++ ev2) = _
  rw [e1, e2]

/-- A different message below the trigger level after a pending run (count above
1), with room for two entries: the compacted entry and then the new entry are
stored. -/
theorem Log_after_run (rt : Runtime) (s : Log) (last : Entry) (now : Instant) (level : LogLevel)
    (message : String) (hc : s.compactDuplicates = true) (hl : s.lastLog = some last)
    (hm : message ≠ last.message) (hcount : 1 < s.duplicateCount)
    (hn : 0 ≤ s.nextEntry) (hroom : s.nextEntry + 2 ≤ s.backlogDepth)
    (hs : s.backlogDepth ≤ (s.bufferedMessages.length : Int))
    (hlt : level < s.triggerLevel)
    (hpair : s.outputFormatters.length = s.outputTargets.length) (hfmt : rendersAll rt s) :
    ∃ events, s.Log rt now level message
      = Except.ok ({ s with
          duplicateCount := 0
          lastLog := some (NewEntry level now message s.tags)
          bufferedMessages := (s.bufferedMessages.set s.nextEntry.toNat
            (some (compactedEntry s last))).set (s.nextEntry.toNat + 1)
            (some (NewEntry level now message s.tags))
          nextEntry := s.nextEntry + 2 }, events) := by
  have hb := buffer_compacting s (NewEntry level now message s.tags) last hc hl hm hcount
  rw [addBufferEntry_room s _ hn (by omega) (by omega)] at hb
  simp only [] at hb
  rw [addBufferEntry_room _ _ (by show (0 : Int) ≤ s.nextEntry + 1; omega)
      (by show s.nextEntry + 1 < s.backlogDepth; omega)
      (by
        show s.nextEntry + 1 < (((s.bufferedMessages.set _ _).length : Nat) : Int)
        rw [List.length_set]
        omega)] at hb
  obtain ⟨events, hlog⟩ := Log_nontrigger rt s _ now level message hb
    ⟨rfl, rfl, rfl, rfl, rfl, rfl, rfl⟩ hlt hpair hfmt
  refine ⟨events, ?_⟩
  rw [hlog]
  have e1 : (s.nextEntry + 1).toNat = s.nextEntry.toNat + 1 := by omega
  have e2 : s.nextEntry + 1 + 1 = s.nextEntry + 2 := by omega
  show Except.ok (({ s with
      duplicateCount := 0
      lastLog := some (NewEntry level now message s.tags)
      bufferedMessages := (s.bufferedMessages.set s.nextEntry.toNat
        (some (compactedEntry s last))).set (s.nextEntry + 1).toNat
        (some (NewEntry level now message s.tags))
      nextEntry := s.nextEntry + 1 + 1 } : Log), events) = _
  rw [e1, e2]

/-- Repeats that return: with compaction on and calls below the trigger level.  (1) On a
log whose push cannot panic, a `Log` call with the message of the call right
before it stores nothing: cursors and slots are those the call before left.
(2) Without wraparound (room for three entries), on a log without a pending run:
after a message and `r ≥ 2` repeats of it (which leave one entry), the next call
with a different message moves `nextEntry` on by exactly 2, storing first an
entry reading the message followed by `" (r)"` and then the new entry. -/
theorem repeated_calls_return (rt : Runtime) :
    (∀ (l : Log) (t1 t2 : Instant) (lv1 lv2 : LogLevel) (m : String),
      l.compactDuplicates = true → 1 ≤ l.backlogDepth →
      l.backlogDepth ≤ (l.bufferedMessages.length : Int) → 0 ≤ l.nextEntry →
      lv1 < l.triggerLevel → lv2 < l.triggerLevel →
      l.outputFormatters.length = l.outputTargets.length → rendersAll rt l →
      ∃ s1 ev1 s2 ev2, l.Log rt t1 lv1 m = Except.ok (s1, ev1)
        ∧ s1.Log rt t2 lv2 m = Except.ok (s2, ev2)
        ∧ s2.firstEntry = s1.firstEntry ∧ s2.nextEntry = s1.nextEntry
        ∧ s2.bufferedMessages = s1.bufferedMessages)
    ∧ (∀ (l : Log) (m other : String) (lv lvOther : LogLevel) (ts : Nat → Instant)
        (tOther : Instant) (r : Nat),
      l.compactDuplicates = true →
      (∀ last, l.lastLog = some last → m ≠ last.message ∧ l.duplicateCount ≤ 1) →
      (l.lastLog = none → l.duplicateCount = 0) →
      0 ≤ l.nextEntry → l.nextEntry + 3 ≤ l.backlogDepth →
      l.backlogDepth ≤ (l.bufferedMessages.length : Int) →
      2 ≤ r → (r : Int) < 2 ^ 63 → other ≠ m →
      lv < l.triggerLevel → lvOther < l.triggerLevel →
      l.outputFormatters.length = l.outputTargets.length → rendersAll rt l →
      ∃ s ev, runLogs rt l ((List.range (r + 1)).map (fun i => (ts i, lv, m))) = Except.ok (s, ev)
        ∧ s.firstEntry = l.firstEntry ∧ s.nextEntry = l.nextEntry + 1
        ∧ ∃ s1 ev1, s.Log rt tOther lvOther other = Except.ok (s1, ev1)
          ∧ s1.firstEntry = s.firstEntry ∧ s1.nextEntry = s.nextEntry + 2
          ∧ s1.bufferedMessages =
              (s.bufferedMessages.set s.nextEntry.toNat
                (some (NewEntry lv (ts r) (m ++ " (" ++ sprintD (r : Int) ++ ")") l.tags))).set
                (s.nextEntry.toNat + 1) (some (NewEntry lvOther tOther other l.tags))) := by
  constructor
  · intro l t1 t2 lv1 lv2 m hc hd hs hn hlt1 hlt2 hpair hfmt
    exact Log_repeat_stores_nothing rt l t1 t2 lv1 lv2 m hc hd hs hn hlt1 hlt2 hpair hfmt
  · intro l m other lv lvOther ts tOther r hc hprev hnone hn hroom hs hr hbig hne hlt hltOther
      hpair hfmt
    obtain ⟨k, rfl⟩ : ∃ k, r = k + 1 := ⟨r - 1, by omega⟩
    obtain ⟨ev, hrun⟩ := runLogs_run rt l m lv ts k hc hprev hnone hn (by omega) hs
      (by push_cast at hbig; omega) hlt hpair hfmt
    obtain ⟨ev1, hlog⟩ := Log_after_run rt
      ({ l with
        lastLog := some (NewEntry lv (ts (k + 1)) m l.tags)
        duplicateCount := (k : Int) + 1
        bufferedMessages := l.bufferedMessages.set l.nextEntry.toNat
          (some (NewEntry lv (ts 0) m l.tags))
        nextEntry := l.nextEntry + 1 } : Log)
      (NewEntry lv (ts (k + 1)) m l.tags) tOther lvOther other hc rfl hne
      (by show (1 : Int) < (k : Int) + 1; omega)
      (by show (0 : Int) ≤ l.nextEntry + 1; omega)
      (by show l.nextEntry + 1 + 2 ≤ l.backlogDepth; omega)
      (by
        show l.backlogDepth ≤ (((l.bufferedMessages.set _ _).length : Nat) : Int)
        rw [List.length_set]
        exact hs)
      hltOther hpair hfmt
    refine ⟨_, ev, hrun, rfl, rfl, _, ev1, hlog, rfl, rfl, ?_⟩
    have e1 : ((k + 1 : Nat) : Int) = (k : Int) + 1 := by push_cast; rfl
    rw [e1]
    rfl

theorem twoSinkLog_rendersAll (rt : Runtime) : rendersAll rt twoSinkLog := by
  intro f hf level now message
  have hf2 : f = LogFormatter.text { timeFormat := timeANSIC } := by
    have hfs : f ∈ [LogFormatter.text { timeFormat := timeANSIC },
        LogFormatter.text { timeFormat := timeANSIC }] := hf
    simpa using hfs
  subst hf2
  exact ⟨_, rfl⟩

/-! ## Level names -/

/-- C21: `convertLevelToString(l, c)` succeeds exactly on `Trace..Fatal`, with the
name of the level (trace, debug, information, warning, error, fatal), in upper
case when `c` is true, and `convertStringToLevel` maps the returned string back
to `l`; on every other value it returns an error. -/
theorem convertLevelToString_spec (l : LogLevel) (c : Bool) :
    ((Trace ≤ l ∧ l ≤ Fatal) →
        convertLevelToString l c = Except.ok (if c then upperLevelName l else levelName l)
        ∧ convertStringToLevel (if c then upperLevelName l else levelName l) = l)
    ∧ (¬ (Trace ≤ l ∧ l ≤ Fatal) →
        convertLevelToString l c = Except.error ("unable to convert level: " ++ sprintD l)) := by
  constructor
  · intro h
    have h0 : (0 : Int) ≤ l := h.1
    have h1 : l ≤ (5 : Int) := h.2
    cases c <;> interval_cases l <;> exact ⟨rfl, by decide⟩
  · intro h
    have h0 : l ≠ Trace := fun e => h (by rw [e]; decide)
    have h1 : l ≠ Debug := fun e => h (by rw [e]; decide)
    have h2 : l ≠ Information := fun e => h (by rw [e]; decide)
    have h3 : l ≠ Warning := fun e => h (by rw [e]; decide)
    have h4 : l ≠ Error := fun e => h (by rw [e]; decide)
    have h5 : l ≠ Fatal := fun e => h (by rw [e]; decide)
    simp [convertLevelToString, h0, h1, h2, h3, h4, h5]

/-- Witness of C21: `Trace` in upper case and `Error` in lower case, as in
`TestConvertLevelToString`, both mapped back; 42 and -1 rejected. -/
theorem convertLevelToString_spec_witness :
    (Trace ≤ Trace ∧ Trace ≤ Fatal) ∧ (Trace ≤ Error ∧ Error ≤ Fatal)
    ∧ ¬ (Trace ≤ (42 : LogLevel) ∧ (42 : LogLevel) ≤ Fatal)
    ∧ ¬ (Trace ≤ (-1 : LogLevel) ∧ (-1 : LogLevel) ≤ Fatal)
    ∧ convertLevelToString Trace true = Except.ok "TRACE"
    ∧ convertStringToLevel "TRACE" = Trace
    ∧ convertLevelToString Error false = Except.ok "error"
    ∧ convertStringToLevel "error" = Error
    ∧ convertLevelToString 42 true = Except.error "unable to convert level: 42"
    ∧ convertLevelToString (-1) false = Except.error "unable to convert level: -1" :=
  ⟨by decide, by decide, by decide, by decide,
   ((convertLevelToString_spec Trace true).1 (by decide)).1,
   ((convertLevelToString_spec Trace true).1 (by decide)).2,
   ((convertLevelToString_spec Error false).1 (by decide)).1,
   ((convertLevelToString_spec Error false).1 (by decide)).2,
   (convertLevelToString_spec 42 true).2 (by decide),
   (convertLevelToString_spec (-1) false).2 (by decide)⟩

/-! ## The cursors stay in range -/

theorem addBufferEntry_cursors (l l1 : Log) (e : Entry) (hinv : cursorsInRange l)
    (h : l.addBufferEntry e = Except.ok l1) : cursorsInRange l1 := by
  obtain ⟨hd, hf, hn, hrange⟩ := hinv
  unfold Log.addBufferEntry at h
  by_cases h1 : l.nextEntry ≥ l.backlogDepth
  · by_cases h2 : l.backlogDepth = 0
    · rw [if_pos h1, if_pos h2] at h
      simp at h
    · simp only [h1, h2, if_true, if_false] at h
      split at h
      · injection h with h
        subst h
        have hpos : 0 < l.backlogDepth := by omega
        refine ⟨hd, ?_, ?_, ?_⟩
        · exact Int.tmod_nonneg _ (by omega)
        · show (0 : Int) ≤ 0 + 1
          omega
        · intro _
          refine ⟨Int.tmod_lt_of_pos _ hpos, ?_⟩
          show (0 : Int) + 1 ≤ l.backlogDepth
          omega
      · simp at h
  · simp only [h1, if_false] at h
    split at h
    · injection h with h
      subst h
      have hlt : l.nextEntry < l.backlogDepth := not_le.mp h1
      refine ⟨hd, hf, ?_, ?_⟩
      · show (0 : Int) ≤ l.nextEntry + 1
        omega
      · intro hd1
        refine ⟨(hrange hd1).1, ?_⟩
        show l.nextEntry + 1 ≤ l.backlogDepth
        omega
    · simp at h

theorem buffer_cursors (l l1 : Log) (e : Entry) (hinv : cursorsInRange l)
    (h : l.buffer e = Except.ok l1) : cursorsInRange l1 := by
  cases hc : l.compactDuplicates with
  | false =>
    rw [buffer_no_compact l e hc] at h
    exact addBufferEntry_cursors l l1 e hinv h
  | true =>
    cases hl : l.lastLog with
    | none =>
      rw [buffer_first l e hc hl] at h
      exact addBufferEntry_cursors ({ l with lastLog := some e } : Log) l1 e hinv h
    | some lastLog =>
      by_cases hm : e.message = lastLog.message
      · rw [buffer_duplicate l e lastLog hc hl hm] at h
        injection h with h
        subst h
        exact hinv
      · by_cases hcount : l.duplicateCount ≤ 1
        · rw [buffer_fresh l e lastLog hc hl hm hcount] at h
          exact addBufferEntry_cursors ({ l with duplicateCount := 0, lastLog := some e } : Log)
            l1 e hinv h
        · rw [buffer_compacting l e lastLog hc hl hm (not_le.mp hcount)] at h
          cases h2 : l.addBufferEntry (compactedEntry l lastLog) with
          | error p => simp [h2] at h
          | ok l2 =>
            simp only [h2] at h
            have hinv2 := addBufferEntry_cursors l l2 _ hinv h2
            exact addBufferEntry_cursors ({ l2 with duplicateCount := 0, lastLog := some e } : Log)
              l1 e hinv2 h

theorem dumpBuffer_cursors (rt : Runtime) (l l1 : Log) (events : List Event)
    (hinv : cursorsInRange l) (h : l.dumpBuffer rt = Except.ok (l1, events)) :
    cursorsInRange l1 := by
  have hreset : cursorsInRange ({ l with
      bufferedMessages := makeEntries l.backlogDepth
      firstEntry := 0
      nextEntry := 0 } : Log) := by
    refine ⟨hinv.1, le_refl _, le_refl _, ?_⟩
    intro hd
    have hd1 : 1 ≤ l.backlogDepth := hd
    constructor
    · show (0 : Int) < l.backlogDepth
      omega
    · show (0 : Int) ≤ l.backlogDepth
      omega
  unfold Log.dumpBuffer at h
  repeat' split at h
  all_goals first
    | (injection h with h
       injection h with h _
       subst h
       first | exact hreset | exact hinv)
    | (simp at h; done)
    | (revert h
       generalize Log.dumpBufferRange rt l _ = r
       intro h
       cases r with
       | error p => simp at h
       | ok evs =>
         first
           | (simp at h; done)
           | (injection h with h
              injection h with h _
              subst h
              exact hreset))

theorem Log_cursors (rt : Runtime) (l l1 : Log) (now : Instant) (level : LogLevel)
    (message : String) (events : List Event) (hinv : cursorsInRange l)
    (h : l.Log rt now level message = Except.ok (l1, events)) : cursorsInRange l1 := by
  unfold Log.Log at h
  cases hb : l.buffer (NewEntry level now message l.tags) with
  | error p => simp [hb] at h
  | ok l2 =>
    have hinv2 := buffer_cursors l l2 _ hinv hb
    simp only [hb] at h
    split at h
    · split at h
      · exact dumpBuffer_cursors rt l2 l1 events hinv2 h
      · split at h
        · simp at h
        · injection h with h
          injection h with h _
          subst h
          exact hinv2
    · injection h with h
      injection h with h _
      subst h
      exact hinv2

/-- A property of states kept by every call holds after every run of calls. -/
theorem runCalls_invariant (rt : Runtime) (P : Log → Prop)
    (hstep : ∀ (l l1 : Log) (c : Call) (events : List Event),
      P l → c.apply rt l = Except.ok (l1, events) → P l1)
    (calls : List Call) :
    ∀ (l l1 : Log) (events : List Event),
      P l → runCalls rt l calls = Except.ok (l1, events) → P l1 := by
  induction calls with
  | nil =>
    intro l l1 events hP h
    simp only [runCalls] at h
    injection h with h
    injection h with h _
    subst h
    exact hP
  | cons c cs ih =>
    intro l l1 events hP h
    simp only [runCalls] at h
    cases hc : c.apply rt l with
    | error p => simp [hc] at h
    | ok r =>
      obtain ⟨l2, ev2⟩ := r
      simp only [hc] at h
      cases hr : runCalls rt l2 cs with
      | error p => simp [hr] at h
      | ok r2 =>
        obtain ⟨l3, ev3⟩ := r2
        simp only [hr] at h
        injection h with h
        injection h with h _
        subst h
        exact ih l2 l3 ev3 (hstep l l2 c ev2 hP hc) hr

theorem Call_apply_cursors (rt : Runtime) (l l1 : Log) (c : Call) (events : List Event)
    (hinv : cursorsInRange l) (h : c.apply rt l = Except.ok (l1, events)) :
    cursorsInRange l1 := by
  cases c with
  | setLevel level =>
    simp only [Call.apply] at h
    injection h with h
    injection h with h _
    subst h
    unfold Log.SetLevel
    split
    · exact hinv
    · split
      · exact hinv
      · exact hinv
  | setTriggerLevel triggerLevel =>
    simp only [Call.apply] at h
    injection h with h
    injection h with h _
    subst h
    unfold Log.SetTriggerLevel
    split
    · exact hinv
    · split
      · exact hinv
      · exact hinv
  | setBacklogDepth depth =>
    rcases Call_setBacklogDepth_inv rt l l1 depth events h with ⟨_, h1⟩ | ⟨hneg, h1⟩
    · subst h1
      exact hinv
    · subst h1
      refine ⟨hneg, le_refl _, le_refl _, ?_⟩
      intro hd
      have hd1 : 1 ≤ depth := hd
      constructor
      · show (0 : Int) < depth
        omega
      · show (0 : Int) ≤ depth
        omega
  | setCompactDuplicates compact =>
    simp only [Call.apply] at h
    injection h with h
    injection h with h _
    subst h
    exact hinv
  | addOutputTarget writer =>
    simp only [Call.apply] at h
    injection h with h
    injection h with h _
    subst h
    exact hinv
  | addOutputTargetAndFormatter writer formatter =>
    simp only [Call.apply] at h
    injection h with h
    injection h with h _
    subst h
    exact hinv
  | setOutputFormatter index formatter =>
    simp only [Call.apply, Log.SetOutputFormatter] at h
    split at h
    · simp at h
    · rename_i l2 err heq
      split at heq
      · injection heq with heq
        injection heq with heq _
        injection h with h
        injection h with h _
        subst heq
        subst h
        exact hinv
      · split at heq
        · injection heq with heq
          injection heq with heq _
          injection h with h
          injection h with h _
          subst heq
          subst h
          exact hinv
        · simp at heq
  | addTag name value =>
    simp only [Call.apply] at h
    injection h with h
    injection h with h _
    subst h
    exact hinv
  | clone =>
    simp only [Call.apply] at h
    injection h with h
    injection h with h _
    subst h
    refine ⟨hinv.1, le_refl _, le_refl _, ?_⟩
    intro hd
    have hd1 : 1 ≤ l.backlogDepth := hd
    constructor
    · show (0 : Int) < l.backlogDepth
      omega
    · show (0 : Int) ≤ l.backlogDepth
      omega
  | log now level message =>
    exact Log_cursors rt l l1 now level message events hinv h

/-- C23: in every state reached from `New` by a sequence of calls of the public
operations (`SetBacklogDepth`, `SetLevel`, `SetTriggerLevel`,
`SetCompactDuplicates`, `Clone` and `Log` among them) that does not panic, the
depth and both cursors are not negative, and when `backlogDepth ≥ 1` then
`firstEntry < backlogDepth` and `nextEntry ≤ backlogDepth`. -/
theorem cursors_in_range (rt : Runtime) (calls : List Call) (l : Log) (events : List Event)
    (h : runCalls rt New calls = Except.ok (l, events)) :
    0 ≤ l.firstEntry ∧ 0 ≤ l.nextEntry
    ∧ (1 ≤ l.backlogDepth → l.firstEntry < l.backlogDepth ∧ l.nextEntry ≤ l.backlogDepth) := by
  have hstart : cursorsInRange New := by
    refine ⟨by decide, by decide, by decide, fun _ => by decide⟩
  have hinv := runCalls_invariant rt cursorsInRange
    (fun l l1 c events hP hc => Call_apply_cursors rt l l1 c events hP hc) calls New l events
    hstart h
  exact ⟨hinv.2.1, hinv.2.2.1, hinv.2.2.2⟩

/-- Witness of C23: depth 2, three distinct messages (the third wraps and leaves
both cursors at 1), then a change of the level and of the compaction flag. -/
theorem cursors_in_range_witness :
    ∃ l events, runCalls sampleRuntime New
        [Call.setBacklogDepth 2, Call.log 1 Trace "a", Call.log 2 Trace "b", Call.log 3 Trace "c",
          Call.setLevel Trace, Call.setCompactDuplicates false] = Except.ok (l, events)
      ∧ l.backlogDepth = 2 ∧ l.firstEntry = 1 ∧ l.nextEntry = 1
      ∧ (1 ≤ l.backlogDepth → l.firstEntry < l.backlogDepth ∧ l.nextEntry ≤ l.backlogDepth) :=
  ⟨_, _, rfl, rfl, rfl, rfl,
    (cursors_in_range sampleRuntime
      [Call.setBacklogDepth 2, Call.log 1 Trace "a", Call.log 2 Trace "b", Call.log 3 Trace "c",
        Call.setLevel Trace, Call.setCompactDuplicates false] _ _ rfl).2.2⟩

/-! ## Frame of the duplicate accumulator -/

theorem dumpBuffer_keeps_dedup (rt : Runtime) (l l1 : Log) (events : List Event)
    (h : l.dumpBuffer rt = Except.ok (l1, events)) :
    l1.lastLog = l.lastLog ∧ l1.duplicateCount = l.duplicateCount := by
  unfold Log.dumpBuffer at h
  repeat' split at h
  all_goals first
    | (injection h with h
       injection h with h _
       subst h
       exact ⟨rfl, rfl⟩)
    | (simp at h; done)
    | (revert h
       generalize Log.dumpBufferRange rt l _ = r
       intro h
       cases r with
       | error p => simp at h
       | ok evs =>
         first
           | (simp at h; done)
           | (injection h with h
              injection h with h _
              subst h
              exact ⟨rfl, rfl⟩))

/-- A `Log` call made while compaction is off leaves `lastLog` and
`duplicateCount` as they were. -/
theorem Log_no_compact_keeps_dedup (rt : Runtime) (l l1 : Log) (now : Instant)
    (level : LogLevel) (message : String) (events : List Event)
    (hc : l.compactDuplicates = false)
    (h : l.Log rt now level message = Except.ok (l1, events)) :
    l1.lastLog = l.lastLog ∧ l1.duplicateCount = l.duplicateCount := by
  unfold Log.Log at h
  have hbuf := buffer_no_compact l (NewEntry level now message l.tags) hc
  cases hb : l.addBufferEntry (NewEntry level now message l.tags) with
  | error p =>
    rw [hb] at hbuf
    simp [hbuf] at h
  | ok l2 =>
    have hkeep := addBufferEntry_keeps_dedup l l2 _ hb
    rw [hb] at hbuf
    simp only [hbuf] at h
    split at h
    · split at h
      · have hd := dumpBuffer_keeps_dedup rt l2 l1 events h
        exact ⟨hd.1.trans hkeep.1, hd.2.trans hkeep.2⟩
      · split at h
        · simp at h
        · injection h with h
          injection h with h _
          subst h
          exact hkeep
    · injection h with h
      injection h with h _
      subst h
      exact hkeep

theorem Call_apply_keeps_dedup (rt : Runtime) (l l1 : Log) (c : Call) (events : List Event)
    (hc : c.mayChangeDedup l = false) (h : c.apply rt l = Except.ok (l1, events)) :
    l1.lastLog = l.lastLog ∧ l1.duplicateCount = l.duplicateCount := by
  cases c with
  | setLevel level =>
    simp only [Call.apply] at h
    injection h with h
    injection h with h _
    subst h
    unfold Log.SetLevel
    split
    · exact ⟨rfl, rfl⟩
    · split
      · exact ⟨rfl, rfl⟩
      · exact ⟨rfl, rfl⟩
  | setTriggerLevel triggerLevel =>
    simp only [Call.apply] at h
    injection h with h
    injection h with h _
    subst h
    unfold Log.SetTriggerLevel
    split
    · exact ⟨rfl, rfl⟩
    · split
      · exact ⟨rfl, rfl⟩
      · exact ⟨rfl, rfl⟩
  | setBacklogDepth depth =>
    rcases Call_setBacklogDepth_inv rt l l1 depth events h with ⟨_, h1⟩ | ⟨_, h1⟩
    · subst h1
      exact ⟨rfl, rfl⟩
    · subst h1
      exact ⟨rfl, rfl⟩
  | setCompactDuplicates compact =>
    simp only [Call.apply] at h
    injection h with h
    injection h with h _
    subst h
    exact ⟨rfl, rfl⟩
  | addOutputTarget writer =>
    simp only [Call.apply] at h
    injection h with h
    injection h with h _
    subst h
    exact ⟨rfl, rfl⟩
  | addOutputTargetAndFormatter writer formatter =>
    simp only [Call.apply] at h
    injection h with h
    injection h with h _
    subst h
    exact ⟨rfl, rfl⟩
  | setOutputFormatter index formatter =>
    simp only [Call.apply, Log.SetOutputFormatter] at h
    split at h
    · simp at h
    · rename_i l2 err heq
      split at heq
      · injection heq with heq
        injection heq with heq _
        injection h with h
        injection h with h _
        subst heq
        subst h
        exact ⟨rfl, rfl⟩
      · split at heq
        · injection heq with heq
          injection heq with heq _
          injection h with h
          injection h with h _
          subst heq
          subst h
          exact ⟨rfl, rfl⟩
        · simp at heq
  | addTag name value =>
    simp only [Call.apply] at h
    injection h with h
    injection h with h _
    subst h
    exact ⟨rfl, rfl⟩
  | clone => simp [Call.mayChangeDedup] at hc
  | log now level message =>
    exact Log_no_compact_keeps_dedup rt l l1 now level message events hc h

/-- C24: `lastLog` and `duplicateCount` are changed only by a `Log` call made
while compaction is on (every other call that goes on with the same log keeps
them).  In particular a drain, `SetBacklogDepth`, `SetCompactDuplicates` and a
`Log` call made while compaction is off keep them; the push of such a `Log` call
is the one store of the new entry, with no compacted entry.  So a later `Log`
call with compaction on whose message is that of the retained `lastLog` is
taken for a duplicate: its push only counts, slots and cursors stay. -/
theorem dedup_accumulator_frame (rt : Runtime) :
    (∀ (l l1 : Log) (c : Call) (events : List Event),
      c.mayChangeDedup l = false → c.apply rt l = Except.ok (l1, events) →
      l1.lastLog = l.lastLog ∧ l1.duplicateCount = l.duplicateCount)
    ∧ (∀ (l l1 : Log) (events : List Event), l.dumpBuffer rt = Except.ok (l1, events) →
      l1.lastLog = l.lastLog ∧ l1.duplicateCount = l.duplicateCount)
    ∧ (∀ (l s : Log) (d : Int) (e : Option String), l.SetBacklogDepth d = Except.ok (s, e) →
      s.lastLog = l.lastLog ∧ s.duplicateCount = l.duplicateCount)
    ∧ (∀ (l : Log) (b : Bool), (l.SetCompactDuplicates b).lastLog = l.lastLog
      ∧ (l.SetCompactDuplicates b).duplicateCount = l.duplicateCount)
    ∧ (∀ (l : Log) (now : Instant) (level : LogLevel) (message : String),
      l.compactDuplicates = false →
      l.buffer (NewEntry level now message l.tags)
          = l.addBufferEntry (NewEntry level now message l.tags)
        ∧ ∀ (l1 : Log) (events : List Event),
            l.Log rt now level message = Except.ok (l1, events) →
            l1.lastLog = l.lastLog ∧ l1.duplicateCount = l.duplicateCount)
    ∧ (∀ (l : Log) (last : Entry) (now : Instant) (level : LogLevel) (message : String),
      l.compactDuplicates = true → l.lastLog = some last → message = last.message →
      l.buffer (NewEntry level now message l.tags)
        = Except.ok { l with
            duplicateCount := wrapInt64 (l.duplicateCount + 1)
            lastLog := some (NewEntry level now message l.tags) }) := by
  refine ⟨?_, ?_, ?_, ?_, ?_, ?_⟩
  · intro l l1 c events hc h
    exact Call_apply_keeps_dedup rt l l1 c events hc h
  · intro l l1 events h
    exact dumpBuffer_keeps_dedup rt l l1 events h
  · intro l s d e h
    by_cases hd : d < 0
    · rw [SetBacklogDepth_negative l d hd] at h
      injection h with h
      injection h with h _
      subst h
      exact ⟨rfl, rfl⟩
    · have hs := (SetBacklogDepth_inv l s d e (by omega) h).2.2
      subst hs
      exact ⟨rfl, rfl⟩
  · intro l b
    exact ⟨rfl, rfl⟩
  · intro l now level message hc
    refine ⟨buffer_no_compact l _ hc, ?_⟩
    intro l1 events h
    exact Log_no_compact_keeps_dedup rt l l1 now level message events hc h
  · intro l last now level message hc hl hm
    exact buffer_duplicate l (NewEntry level now message l.tags) last hc hl hm

/-- Witness of C24: `"x"` logged with compaction on, `"y"` logged with compaction
off (stored, `lastLog` still `"x"`), the depth set again (buffer emptied) and
compaction switched on: the state is `retainedLog`, and the push of a new
`"x"` on it only counts. -/
theorem dedup_accumulator_frame_witness :
    runCalls sampleRuntime New
        [Call.setBacklogDepth 4, Call.log 1 Trace "x", Call.setCompactDuplicates false,
          Call.log 2 Trace "y", Call.setBacklogDepth 4, Call.setCompactDuplicates true]
      = Except.ok (retainedLog, [])
    ∧ (retainedLog.compactDuplicates = true ∧ retainedLog.lastLog = some (NewEntry Trace 1 "x" [])
      ∧ "x" = (NewEntry Trace 1 "x" []).message)
    ∧ retainedLog.buffer (NewEntry Trace 3 "x" retainedLog.tags)
        = Except.ok { retainedLog with
            duplicateCount := wrapInt64 (retainedLog.duplicateCount + 1)
            lastLog := some (NewEntry Trace 3 "x" retainedLog.tags) }
    ∧ wrapInt64 (retainedLog.duplicateCount + 1) = 1
    ∧ ((Call.setBacklogDepth 2).mayChangeDedup retainedLog = false
      ∧ ((retainedLog.withBacklogDepth 2).lastLog = retainedLog.lastLog
        ∧ (retainedLog.withBacklogDepth 2).duplicateCount = retainedLog.duplicateCount)) :=
  ⟨rfl, ⟨rfl, rfl, rfl⟩,
   (dedup_accumulator_frame sampleRuntime).2.2.2.2.2 retainedLog (NewEntry Trace 1 "x" []) 3 Trace "x"
     rfl rfl rfl,
   by decide,
   rfl,
   (dedup_accumulator_frame sampleRuntime).1 retainedLog (retainedLog.withBacklogDepth 2)
     (Call.setBacklogDepth 2) [] rfl rfl⟩

/-! ## The drain -/

theorem goSlice_ok (xs : List (Option Entry)) (lo hi : Int) (h0 : 0 ≤ lo) (h1 : lo ≤ hi)
    (h2 : hi ≤ (xs.length : Int)) : goSlice xs lo hi = Except.ok (slotRange xs lo hi) := by
  simp [goSlice, slotRange, h0, h1, h2]

theorem dumpBufferRange_append (rt : Runtime) (l : Log) (ys : List (Option Entry)) :
    ∀ xs : List (Option Entry),
      l.dumpBufferRange rt (xs ++ ys) =
        match l.dumpBufferRange rt xs with
        | Except.error p => Except.error p
        | Except.ok first =>
          match l.dumpBufferRange rt ys with
          | Except.error p => Except.error p
          | Except.ok second => Except.ok (first ++ second) := by
  intro xs
  induction xs with
  | nil =>
    show l.dumpBufferRange rt ys = _
    simp only [Log.dumpBufferRange]
    cases l.dumpBufferRange rt ys <;> simp
  | cons x rest ih =>
    show l.dumpBufferRange rt (x :: (rest ++ ys)) = _
    simp only [Log.dumpBufferRange, ih]
    cases writeLoop rt "failed to write to log index: " l.outputFormatters x 0 l.outputTargets with
    | error p => rfl
    | ok here =>
      cases l.dumpBufferRange rt rest with
      | error p => rfl
      | ok more =>
        cases l.dumpBufferRange rt ys with
        | error p => rfl
        | ok second => simp

/-- The drain of a range of stored entries, on a log whose sinks all have a
formatter that renders them: it does not panic and its writes are, entry after
entry, one per sink in index order with the rendering of the entry. -/
theorem dumpBufferRange_spec (rt : Runtime) (l : Log)
    (hpair : l.outputFormatters.length = l.outputTargets.length) :
    ∀ entries : List Entry,
      (∀ e ∈ entries, ∀ f ∈ l.outputFormatters, ∃ bytes, f.Format rt e = Except.ok bytes) →
      ∃ events, l.dumpBufferRange rt (entries.map some) = Except.ok events
        ∧ (writesOf events).map (fun w => (w.1, (Except.ok w.2 : Except String String)))
          = entries.flatMap (fanoutOf rt l.outputFormatters) := by
  intro entries
  induction entries with
  | nil =>
    intro _
    exact ⟨[], rfl, rfl⟩
  | cons e rest ih =>
    intro hfmt
    obtain ⟨here, hloop, hwrites⟩ :=
      writeLoop_spec rt "failed to write to log index: " l.outputFormatters e
        (fun f hf => hfmt e (List.mem_cons_self _ _) f hf) l.outputTargets 0 (by omega)
    obtain ⟨more, hmore, hmw⟩ := ih (fun e2 h2 f hf => hfmt e2 (List.mem_cons_of_mem _ h2) f hf)
    refine ⟨here ++ more, ?_, ?_⟩
    · show l.dumpBufferRange rt (some e :: rest.map some) = _
      simp only [Log.dumpBufferRange, hloop, hmore]
    · rw [writesOf_append, List.map_append, hwrites, hmw, List.drop_zero, List.flatMap_cons]
      rfl

/-- The drain where no step of it panics: `dumpBuffer` on a state whose cursors
differ, whose drain slices are in bounds and hold stored entries, whose depth
`make` accepts, and whose sinks all have a formatter that renders the entries:
it writes, for each entry of the slots `[firstEntry, nextEntry)`
(when `nextEntry` is ahead) or of `[firstEntry, backlogDepth)` followed by
`[0, nextEntry)`, in that order, the rendering of the entry to every sink in
index order, whatever the sinks answer; then the buffer is `backlogDepth` nil
slots and both cursors are 0, nothing else changed.  On a state with equal
cursors it writes nothing and returns the state as it is. -/
theorem dumpBuffer_returns (rt : Runtime) (l : Log) :
    (∀ entries : List Entry,
      l.firstEntry ≠ l.nextEntry →
      0 ≤ l.backlogDepth → l.backlogDepth * 8 ≤ maxAlloc → 0 ≤ l.firstEntry → 0 ≤ l.nextEntry →
      l.nextEntry ≤ (l.bufferedMessages.length : Int) →
      (l.nextEntry < l.firstEntry →
        l.firstEntry ≤ l.backlogDepth ∧ l.backlogDepth ≤ (l.bufferedMessages.length : Int)) →
      drainSlots l = entries.map some →
      l.outputFormatters.length = l.outputTargets.length →
      (∀ e ∈ entries, ∀ f ∈ l.outputFormatters, ∃ bytes, f.Format rt e = Except.ok bytes) →
      ∃ events,
        l.dumpBuffer rt = Except.ok ({ l with
            bufferedMessages := List.replicate l.backlogDepth.toNat none
            firstEntry := 0
            nextEntry := 0 }, events)
        ∧ (writesOf events).map (fun w => (w.1, (Except.ok w.2 : Except String String)))
          = entries.flatMap (fanoutOf rt l.outputFormatters))
    ∧ (l.firstEntry = l.nextEntry → l.dumpBuffer rt = Except.ok (l, [])) := by
  constructor
  · intro entries hne hdepth hmax hfirst hnext hlen hwrap hstored hpair hfmt
    have hneg := makeSlice_ok l.backlogDepth hdepth hmax
    obtain ⟨events, hrange, hwrites⟩ := dumpBufferRange_spec rt l hpair entries hfmt
    rw [← hstored] at hrange
    refine ⟨events, ?_, hwrites⟩
    by_cases hgt : l.nextEntry > l.firstEntry
    · have hslots : drainSlots l = slotRange l.bufferedMessages l.firstEntry l.nextEntry := by
        simp only [drainSlots, hgt, if_true]
      rw [hslots] at hrange
      simp only [Log.dumpBuffer, hne, hgt, if_true, ne_eq, not_false_eq_true,
        goSlice_ok l.bufferedMessages l.firstEntry l.nextEntry hfirst (le_of_lt hgt) hlen,
        hrange, hneg, makeEntries]
    · have hlt : l.nextEntry < l.firstEntry := by
        have h1 : l.nextEntry ≤ l.firstEntry := not_lt.mp hgt
        omega
      obtain ⟨hfd, hdl⟩ := hwrap hlt
      have hslots : drainSlots l = slotRange l.bufferedMessages l.firstEntry l.backlogDepth
          ++ slotRange l.bufferedMessages 0 l.nextEntry := by
        simp only [drainSlots, hgt, if_false]
      rw [hslots, dumpBufferRange_append] at hrange
      cases hA : l.dumpBufferRange rt (slotRange l.bufferedMessages l.firstEntry l.backlogDepth) with
      | error p => simp [hA] at hrange
      | ok first =>
        simp only [hA] at hrange
        cases hB : l.dumpBufferRange rt (slotRange l.bufferedMessages 0 l.nextEntry) with
        | error p => simp [hB] at hrange
        | ok second =>
          simp only [hB] at hrange
          injection hrange with hrange
          simp only [Log.dumpBuffer, hne, hgt, if_true, ne_eq, not_false_eq_true,
            goSlice_ok l.bufferedMessages l.firstEntry l.backlogDepth hfirst hfd hdl,
            goSlice_ok l.bufferedMessages 0 l.nextEntry (le_refl 0) hnext hlen,
            hA, hB, hrange, hneg, makeEntries, if_false]
  · intro heq
    simp [Log.dumpBuffer, heq]

/-- The drain on `wrappedLog`, the state after seven messages on a buffer of
depth 3 (cursors 2 and 1): the drain writes f (slot 2) and then g (slot 0), each
to sink 0 and then sink 1 though the writes to sink 0 fail, and leaves three nil
slots and both cursors at 0.  On a log made by `New` (equal cursors) it does
nothing. -/
theorem dumpBuffer_returns_example :
    runLogs sampleRuntime
        (((New.withBacklogDepth 3).AddOutputTarget brokenWriter).1.AddOutputTarget goodWriter).1
        [(1, Trace, "a"), (2, Trace, "b"), (3, Trace, "c"), (4, Trace, "d"), (5, Trace, "e"),
          (6, Trace, "f"), (7, Trace, "g")] = Except.ok (wrappedLog, [])
    ∧ (wrappedLog.firstEntry ≠ wrappedLog.nextEntry
      ∧ wrappedLog.nextEntry < wrappedLog.firstEntry
      ∧ wrappedLog.firstEntry ≤ wrappedLog.backlogDepth
      ∧ drainSlots wrappedLog = [NewEntry Trace 6 "f" [], NewEntry Trace 7 "g" []].map some)
    ∧ (∃ events, wrappedLog.dumpBuffer sampleRuntime
          = Except.ok ({ wrappedLog with
              bufferedMessages := [none, none, none], firstEntry := 0, nextEntry := 0 }, events)
        ∧ (writesOf events).map (fun w => (w.1, (Except.ok w.2 : Except String String)))
            = [(0, Except.ok "6 [TRACE] f\n"), (1, Except.ok "6 [TRACE] f\n"),
                (0, Except.ok "7 [TRACE] g\n"), (1, Except.ok "7 [TRACE] g\n")])
    ∧ (New.firstEntry = New.nextEntry ∧ New.dumpBuffer sampleRuntime = Except.ok (New, [])) := by
  refine ⟨rfl, ⟨by decide, by decide, by decide, rfl⟩, ?_, rfl, ?_⟩
  · obtain ⟨events, h1, h2⟩ := (dumpBuffer_returns sampleRuntime wrappedLog).1
      [NewEntry Trace 6 "f" [], NewEntry Trace 7 "g" []]
      (by decide) (by decide) (by decide) (by decide) (by decide) (by decide)
      (fun _ => ⟨by decide, by decide⟩) rfl rfl
      (by
        intro e _ f hf
        have hf2 : f = LogFormatter.text { timeFormat := timeANSIC } := by
          have hfs : f ∈ [LogFormatter.text { timeFormat := timeANSIC },
              LogFormatter.text { timeFormat := timeANSIC }] := hf
          simpa using hfs
        subst hf2
        exact ⟨_, rfl⟩)
    exact ⟨events, h1, h2⟩
  · exact (dumpBuffer_returns sampleRuntime New).2 rfl

/-! ## Calls that return -/

/-- A call below the trigger level that returns goes on with the state its push
left. -/
theorem Log_returns_push (rt : Runtime) (l l1 : Log) (now : Instant) (level : LogLevel)
    (message : String) (events : List Event) (hlt : level < l.triggerLevel)
    (h : l.Log rt now level message = Except.ok (l1, events)) :
    l.buffer (NewEntry level now message l.tags) = Except.ok l1 := by
  unfold Log.Log at h
  cases hb : l.buffer (NewEntry level now message l.tags) with
  | error p => simp [hb] at h
  | ok l2 =>
    have hset := buffer_sameSettings l l2 _ hb
    have hnt : ¬ (level ≥ l2.triggerLevel) := by rw [hset.2.1]; exact not_le.mpr hlt
    simp only [hb] at h
    by_cases hlv : level ≥ l2.level
    · rw [if_pos hlv, if_neg hnt] at h
      split at h
      · simp at h
      · injection h with h
        injection h with h _
        rw [h]
    · rw [if_neg hlv] at h
      injection h with h
      injection h with h _
      rw [h]

/-- A call that returns leaves in `lastLog` and `duplicateCount` what its push
left there. -/
theorem Log_returns_dedup (rt : Runtime) (l l1 : Log) (now : Instant) (level : LogLevel)
    (message : String) (events : List Event)
    (h : l.Log rt now level message = Except.ok (l1, events)) :
    ∃ b, l.buffer (NewEntry level now message l.tags) = Except.ok b
      ∧ l1.lastLog = b.lastLog ∧ l1.duplicateCount = b.duplicateCount := by
  unfold Log.Log at h
  cases hb : l.buffer (NewEntry level now message l.tags) with
  | error p => simp [hb] at h
  | ok l2 =>
    refine ⟨l2, rfl, ?_⟩
    simp only [hb] at h
    split at h
    · split at h
      · exact dumpBuffer_keeps_dedup rt l2 l1 events h
      · split at h
        · simp at h
        · injection h with h
          injection h with h _
          subst h
          exact ⟨rfl, rfl⟩
    · injection h with h
      injection h with h _
      subst h
      exact ⟨rfl, rfl⟩

/-- A push that returns without wrapping was in bounds and stored the entry at
`nextEntry`. -/
theorem addBufferEntry_room_inv (l l1 : Log) (e : Entry) (h1 : l.nextEntry < l.backlogDepth)
    (h : l.addBufferEntry e = Except.ok l1) :
    0 ≤ l.nextEntry ∧ l.nextEntry < (l.bufferedMessages.length : Int)
      ∧ l1 = { l with
          bufferedMessages := l.bufferedMessages.set l.nextEntry.toNat (some e)
          nextEntry := l.nextEntry + 1 } := by
  by_cases h0 : 0 ≤ l.nextEntry ∧ l.nextEntry < (l.bufferedMessages.length : Int)
  · rw [addBufferEntry_room l e h0.1 h1 h0.2] at h
    injection h with h
    exact ⟨h0.1, h0.2, h.symm⟩
  · have hge : ¬ (l.nextEntry ≥ l.backlogDepth) := not_le.mpr h1
    unfold Log.addBufferEntry at h
    rw [if_neg hge] at h
    simp only [] at h
    rw [if_neg h0] at h
    cases h

/-- A push that returns has stored the entry in the slot right before the new
`nextEntry`. -/
theorem addBufferEntry_stored (l l1 : Log) (e : Entry) (h : l.addBufferEntry e = Except.ok l1) :
    1 ≤ l1.nextEntry ∧ l1.bufferedMessages[(l1.nextEntry - 1).toNat]? = some (some e) := by
  by_cases hge : l.nextEntry ≥ l.backlogDepth
  · by_cases hz : l.backlogDepth = 0
    · unfold Log.addBufferEntry at h
      rw [if_pos hge, if_pos hz] at h
      cases h
    · by_cases hlen : (0 : Int) < (l.bufferedMessages.length : Int)
      · rw [addBufferEntry_wrap l e hge hz hlen] at h
        injection h with h
        subst h
        refine ⟨le_refl _, ?_⟩
        have hpos : 0 < l.bufferedMessages.length := by omega
        show (l.bufferedMessages.set 0 (some e))[((1 : Int) - 1).toNat]? = some (some e)
        simp [hpos]
      · unfold Log.addBufferEntry at h
        rw [if_pos hge, if_neg hz] at h
        simp only [] at h
        rw [if_neg (by
          intro hc
          exact hlen hc.2)] at h
        cases h
  · obtain ⟨h0, h2, hl1⟩ := addBufferEntry_room_inv l l1 e (not_le.mp hge) h
    subst hl1
    refine ⟨by show (1 : Int) ≤ l.nextEntry + 1; omega, ?_⟩
    have hidx : (l.nextEntry + 1 - 1).toNat = l.nextEntry.toNat := by omega
    have hlt : l.nextEntry.toNat < l.bufferedMessages.length := by omega
    show (l.bufferedMessages.set l.nextEntry.toNat (some e))[(l.nextEntry + 1 - 1).toNat]?
      = some (some e)
    rw [hidx]
    simp [hlt]

/-- The push of a message that is not taken for a duplicate (compaction on):
the entry is in `lastLog`, the count is 0, and the entry is stored in the slot
right before `nextEntry`. -/
theorem buffer_first_occurrence (l b : Log) (e : Entry) (hc : l.compactDuplicates = true)
    (hnone : l.lastLog = none → l.duplicateCount = 0)
    (hprev : ∀ last, l.lastLog = some last → last.message ≠ e.message)
    (h : l.buffer e = Except.ok b) :
    b.lastLog = some e ∧ b.duplicateCount = 0 ∧ 1 ≤ b.nextEntry
      ∧ b.bufferedMessages[(b.nextEntry - 1).toNat]? = some (some e) := by
  cases hl : l.lastLog with
  | none =>
    rw [buffer_first l e hc hl] at h
    have hk := addBufferEntry_keeps_dedup _ b e h
    have hst := addBufferEntry_stored _ b e h
    exact ⟨hk.1, hk.2.trans (hnone hl), hst.1, hst.2⟩
  | some last =>
    have hm : e.message ≠ last.message := fun heq => hprev last hl heq.symm
    by_cases hcount : l.duplicateCount ≤ 1
    · rw [buffer_fresh l e last hc hl hm hcount] at h
      have hk := addBufferEntry_keeps_dedup _ b e h
      have hst := addBufferEntry_stored _ b e h
      exact ⟨hk.1, hk.2, hst.1, hst.2⟩
    · rw [buffer_compacting l e last hc hl hm (not_le.mp hcount)] at h
      cases h2 : l.addBufferEntry (compactedEntry l last) with
      | error p => simp [h2] at h
      | ok l2 =>
        simp only [h2] at h
        have hk := addBufferEntry_keeps_dedup _ b e h
        have hst := addBufferEntry_stored _ b e h
        exact ⟨hk.1, hk.2, hst.1, hst.2⟩

/-- A call with compaction on that returns, whatever its level: the new entry is
in `lastLog`. -/
theorem Log_returns_lastLog (rt : Runtime) (l l1 : Log) (now : Instant) (level : LogLevel)
    (message : String) (events : List Event) (hc : l.compactDuplicates = true)
    (h : l.Log rt now level message = Except.ok (l1, events)) :
    l1.lastLog = some (NewEntry level now message l.tags) := by
  obtain ⟨b, hb, hl, _⟩ := Log_returns_dedup rt l l1 now level message events h
  rw [hl]
  exact buffer_lastLog l b _ hc hb

theorem runLogs_cons_inv (rt : Runtime) (l l2 : Log) (now : Instant) (level : LogLevel)
    (message : String) (rest : List (Instant × LogLevel × String)) (events : List Event)
    (h : runLogs rt l ((now, level, message) :: rest) = Except.ok (l2, events)) :
    ∃ l1 ev1 ev2, l.Log rt now level message = Except.ok (l1, ev1)
      ∧ runLogs rt l1 rest = Except.ok (l2, ev2) ∧ events = ev1 ++ ev2 := by
  rw [runLogs_cons] at h
  cases hlog : l.Log rt now level message with
  | error p => simp [hlog] at h
  | ok r =>
    obtain ⟨la, eva⟩ := r
    simp only [hlog] at h
    cases hrest : runLogs rt la rest with
    | error p => simp [hrest] at h
    | ok r2 =>
      obtain ⟨lb, evb⟩ := r2
      simp only [hrest] at h
      injection h with h
      injection h with ha hb
      subst ha hb
      exact ⟨la, eva, evb, rfl, hrest, rfl⟩

/-- Repeats of the retained message below the trigger level, in a run that
returns: each only counts.  Slots and cursors stay, the count grows by the number
of repeats, and `lastLog` is the last repeat. -/
theorem runLogs_repeats_inv (rt : Runtime) (m : String) :
    ∀ (reps : List (Instant × LogLevel)) (s s1 : Log) (last : Entry) (events : List Event),
      s.compactDuplicates = true → s.lastLog = some last → last.message = m →
      0 ≤ s.duplicateCount → s.duplicateCount + (reps.length : Int) < 2 ^ 63 →
      (∀ p ∈ reps, p.2 < s.triggerLevel) →
      runLogs rt s (reps.map (fun p => (p.1, p.2, m))) = Except.ok (s1, events) →
      s1 = { s with
        duplicateCount := s.duplicateCount + (reps.length : Int)
        lastLog := some (reps.foldl (fun _ p => NewEntry p.2 p.1 m s.tags) last) } := by
  intro reps
  induction reps with
  | nil =>
    intro s s1 last events hc hl hm h0 hbig hlv h
    simp only [List.map_nil, runLogs] at h
    injection h with h
    injection h with h _
    subst h
    simp only [List.length_nil, List.foldl_nil, Nat.cast_zero, add_zero]
    rw [← hl]
  | cons p rest ih =>
    intro s s1 last events hc hl hm h0 hbig hlv h
    rw [List.map_cons] at h
    obtain ⟨l1, ev1, ev2, hlog, hrest, _⟩ := runLogs_cons_inv rt s s1 p.1 p.2 m _ events h
    have hb := Log_returns_push rt s l1 p.1 p.2 m ev1 (hlv p (List.mem_cons_self _ _)) hlog
    rw [buffer_duplicate s (NewEntry p.2 p.1 m s.tags) last hc hl hm.symm] at hb
    have hlen : ((p :: rest).length : Int) = (rest.length : Int) + 1 := by
      simp only [List.length_cons]
      push_cast
      rfl
    rw [hlen] at hbig
    rw [wrapInt64_of_range _ (by omega) (by omega)] at hb
    injection hb with hb
    subst hb
    have hnext := ih
      ({ s with duplicateCount := s.duplicateCount + 1
                lastLog := some (NewEntry p.2 p.1 m s.tags) } : Log)
      s1 (NewEntry p.2 p.1 m s.tags) ev2 hc rfl rfl
      (by show (0 : Int) ≤ s.duplicateCount + 1; omega)
      (by show s.duplicateCount + 1 + (rest.length : Int) < 2 ^ 63; omega)
      (fun q hq => hlv q (List.mem_cons_of_mem _ hq)) hrest
    rw [hnext, hlen]
    have harith : s.duplicateCount + 1 + (rest.length : Int)
        = s.duplicateCount + ((rest.length : Int) + 1) := by omega
    show ({ s with
        duplicateCount := s.duplicateCount + 1 + (rest.length : Int)
        lastLog := some (rest.foldl (fun _ q => NewEntry q.2 q.1 m s.tags)
          (NewEntry p.2 p.1 m s.tags)) } : Log) = _
    rw [harith]
    rfl

/-- The entry the repeats leave in `lastLog` carries the repeated message. -/
theorem foldl_repeat_message (m : String) (tags : List Tag) :
    ∀ (reps : List (Instant × LogLevel)) (last : Entry), last.message = m →
      (reps.foldl (fun _ p => NewEntry p.2 p.1 m tags) last).message = m := by
  intro reps
  induction reps with
  | nil =>
    intro last h
    exact h
  | cons p rest ih =>
    intro last _
    exact ih _ rfl

/-- The entry the repeats at the instants `ts a`, ..., `ts (a + k)` at one level
leave in `lastLog` is the repeat at `ts (a + k)`. -/
theorem foldl_repeat_range (m : String) (tags : List Tag) (lv : LogLevel) (ts : Nat → Instant) :
    ∀ (k a : Nat) (last : Entry),
      ((List.range' a (k + 1)).map (fun i => (ts i, lv))).foldl
          (fun _ p => NewEntry p.2 p.1 m tags) last
        = NewEntry lv (ts (a + k)) m tags := by
  intro k
  induction k with
  | zero =>
    intro a last
    rfl
  | succ k ih =>
    intro a last
    have hsplit : List.range' a (k + 1 + 1) = a :: List.range' (a + 1) (k + 1) := rfl
    rw [hsplit, List.map_cons, List.foldl_cons, ih (a + 1)]
    have h1 : a + 1 + k = a + (k + 1) := by omega
    rw [h1]

/-- A different message below the trigger level after a pending run (count above
1), with two slots left before the wrap, in a call that returns: the compacted
entry and then the new entry are stored, in bounds. -/
theorem Log_after_run_inv (rt : Runtime) (s s1 : Log) (last : Entry) (now : Instant)
    (level : LogLevel) (message : String) (events : List Event)
    (hc : s.compactDuplicates = true) (hl : s.lastLog = some last)
    (hm : message ≠ last.message) (hcount : 1 < s.duplicateCount)
    (hroom : s.nextEntry + 2 ≤ s.backlogDepth) (hlt : level < s.triggerLevel)
    (h : s.Log rt now level message = Except.ok (s1, events)) :
    s1 = { s with
        duplicateCount := 0
        lastLog := some (NewEntry level now message s.tags)
        bufferedMessages := (s.bufferedMessages.set s.nextEntry.toNat
          (some (compactedEntry s last))).set (s.nextEntry.toNat + 1)
          (some (NewEntry level now message s.tags))
        nextEntry := s.nextEntry + 2 }
      ∧ 0 ≤ s.nextEntry ∧ s.nextEntry + 2 ≤ (s.bufferedMessages.length : Int) := by
  have hb := Log_returns_push rt s s1 now level message events hlt h
  rw [buffer_compacting s (NewEntry level now message s.tags) last hc hl hm hcount] at hb
  cases h2 : s.addBufferEntry (compactedEntry s last) with
  | error p => simp [h2] at hb
  | ok l2 =>
    simp only [h2] at hb
    obtain ⟨h0, hlen, hl2⟩ := addBufferEntry_room_inv s l2 _ (by omega) h2
    subst hl2
    obtain ⟨_, hlen2, hs1⟩ := addBufferEntry_room_inv _ s1 _
      (by show s.nextEntry + 1 < s.backlogDepth; omega) hb
    have hlen3 : s.nextEntry + 1 < (s.bufferedMessages.length : Int) := by
      have hx : s.nextEntry + 1
          < (((s.bufferedMessages.set s.nextEntry.toNat (some (compactedEntry s last))).length : Nat) : Int) :=
        hlen2
      rw [List.length_set] at hx
      exact hx
    refine ⟨?_, h0, by omega⟩
    rw [hs1]
    have e1 : (s.nextEntry + 1).toNat = s.nextEntry.toNat + 1 := by omega
    have e2 : s.nextEntry + 1 + 1 = s.nextEntry + 2 := by omega
    show ({ s with
        duplicateCount := 0
        lastLog := some (NewEntry level now message s.tags)
        bufferedMessages := (s.bufferedMessages.set s.nextEntry.toNat
          (some (compactedEntry s last))).set (s.nextEntry + 1).toNat
          (some (NewEntry level now message s.tags))
        nextEntry := s.nextEntry + 1 + 1 } : Log) = _
    rw [e1, e2]

/-- On every log the public calls produce from `New`, a log that retains no last
entry has a duplicate count of 0. -/
theorem runCalls_count_zero (rt : Runtime) (calls : List Call) (l : Log) (events : List Event)
    (h : runCalls rt New calls = Except.ok (l, events)) :
    l.lastLog = none → l.duplicateCount = 0 := by
  refine runCalls_invariant rt (fun s => s.lastLog = none → s.duplicateCount = 0) ?_ calls
    New l events (fun _ => rfl) h
  intro a b c ev hP hc
  by_cases hm : c.mayChangeDedup a = false
  · obtain ⟨h1, h2⟩ := Call_apply_keeps_dedup rt a b c ev hm hc
    intro hb
    rw [h2]
    exact hP (h1 ▸ hb)
  · cases c with
    | clone =>
      simp only [Call.apply] at hc
      injection hc with hc
      injection hc with hc _
      subst hc
      intro _
      rfl
    | log now level message =>
      have hcomp : a.compactDuplicates = true := by
        simpa [Call.mayChangeDedup] using hm
      intro hb
      have hlast := Log_returns_lastLog rt a b now level message ev hcomp hc
      rw [hlast] at hb
      cases hb
    | setLevel _ => simp [Call.mayChangeDedup] at hm
    | setTriggerLevel _ => simp [Call.mayChangeDedup] at hm
    | setBacklogDepth _ => simp [Call.mayChangeDedup] at hm
    | setCompactDuplicates _ => simp [Call.mayChangeDedup] at hm
    | addOutputTarget _ => simp [Call.mayChangeDedup] at hm
    | addOutputTargetAndFormatter _ _ => simp [Call.mayChangeDedup] at hm
    | setOutputFormatter _ _ => simp [Call.mayChangeDedup] at hm
    | addTag _ _ => simp [Call.mayChangeDedup] at hm

/-- A pending run and the message after it, in calls that return.  On a log
with compaction on that retains an entry with the message `m` and a count that
is not negative: repeats of `m` below the trigger level store nothing and count;
if the count is then above 1, a different message below the trigger level, with
two slots left before the wrap, stores the compacted entry (the message `m`
followed by the count, with the level and timestamp of the retained entry) and
then the new entry. -/
theorem run_then_other (rt : Runtime) (s0 s s1 : Log) (e0 : Entry) (m other : String)
    (lvOther : LogLevel) (tOther : Instant) (reps : List (Instant × LogLevel))
    (ev ev1 : List Event)
    (hc : s0.compactDuplicates = true) (hl : s0.lastLog = some e0) (hm : e0.message = m)
    (h0 : 0 ≤ s0.duplicateCount) (hbig : s0.duplicateCount + (reps.length : Int) < 2 ^ 63)
    (hcount : 1 < s0.duplicateCount + (reps.length : Int))
    (hlv : ∀ p ∈ reps, p.2 < s0.triggerLevel)
    (hne : other ≠ m) (hltOther : lvOther < s0.triggerLevel)
    (hreps : runLogs rt s0 (reps.map (fun p => (p.1, p.2, m))) = Except.ok (s, ev))
    (hroom : s.nextEntry + 2 ≤ s.backlogDepth)
    (hother : s.Log rt tOther lvOther other = Except.ok (s1, ev1)) :
    s.firstEntry = s0.firstEntry ∧ s.nextEntry = s0.nextEntry
      ∧ s.bufferedMessages = s0.bufferedMessages
      ∧ s.lastLog = some (reps.foldl (fun _ p => NewEntry p.2 p.1 m s0.tags) e0)
      ∧ s.duplicateCount = s0.duplicateCount + (reps.length : Int)
      ∧ s1.firstEntry = s.firstEntry ∧ s1.nextEntry = s.nextEntry + 2
      ∧ s1.duplicateCount = 0
      ∧ s1.bufferedMessages =
          (s.bufferedMessages.set s.nextEntry.toNat
            (some (NewEntry (reps.foldl (fun _ p => NewEntry p.2 p.1 m s0.tags) e0).level
              (reps.foldl (fun _ p => NewEntry p.2 p.1 m s0.tags) e0).timestamp
              (m ++ " (" ++ sprintD (s0.duplicateCount + (reps.length : Int)) ++ ")") s0.tags))).set
            (s.nextEntry.toNat + 1) (some (NewEntry lvOther tOther other s0.tags)) := by
  have hs := runLogs_repeats_inv rt m reps s0 s e0 ev hc hl hm h0 hbig hlv hreps
  have hmsg := foldl_repeat_message m s0.tags reps e0 hm
  have hcs : s.compactDuplicates = true := by rw [hs]; exact hc
  have hls : s.lastLog = some (reps.foldl (fun _ p => NewEntry p.2 p.1 m s0.tags) e0) := by
    rw [hs]
  have hds : s.duplicateCount = s0.duplicateCount + (reps.length : Int) := by rw [hs]
  have hts : s.tags = s0.tags := by rw [hs]
  have htr : s.triggerLevel = s0.triggerLevel := by rw [hs]
  obtain ⟨hs1, _, _⟩ := Log_after_run_inv rt s s1 _ tOther lvOther other ev1 hcs hls
    (by rw [hmsg]; exact hne) (by rw [hds]; exact hcount) hroom (by rw [htr]; exact hltOther) hother
  refine ⟨by rw [hs], by rw [hs], by rw [hs], hls, hds, by rw [hs1], by rw [hs1], by rw [hs1], ?_⟩
  rw [hs1]
  show (s.bufferedMessages.set s.nextEntry.toNat
      (some (NewEntry (reps.foldl (fun _ p => NewEntry p.2 p.1 m s0.tags) e0).level
        (reps.foldl (fun _ p => NewEntry p.2 p.1 m s0.tags) e0).timestamp
        ((reps.foldl (fun _ p => NewEntry p.2 p.1 m s0.tags) e0).message
          ++ " (" ++ sprintD s.duplicateCount ++ ")") s.tags))).set
      (s.nextEntry.toNat + 1) (some (NewEntry lvOther tOther other s.tags)) = _
  rw [hmsg, hds, hts]

/-! ## Direct fan-out: the calls that panic -/

/-- C9: a `Log` call at the engine level and below the trigger level does not
always write to every sink.  (1) On a log made by `New` with one sink and set to
depth 0, `Log(Error, "m")` panics in the push, before any write.  (2) On a log of
depth 4 with three sinks, a text formatter at index 0, a JSON formatter (any) at
index 1 and a text formatter at index 2, and one tag: `Log(Error, "m")` panics in the
loop over the sinks.  The formatter at index 0 renders the entry and the
formatter at index 1 panics on it, so the loop ends at index 1: the sinks at
index 1 and 2 are never written. -/
theorem Log_fanout_panics (rt : Runtime) (w0 w1 w2 : Writer) (jf : JSONFormatter) (now : Instant) :
    ((New.AddOutputTarget w0).1.SetBacklogDepth 0
          = Except.ok ((New.AddOutputTarget w0).1.withBacklogDepth 0, none)
      ∧ Error < ((New.AddOutputTarget w0).1.withBacklogDepth 0).triggerLevel
      ∧ ((New.AddOutputTarget w0).1.withBacklogDepth 0).level ≤ Error
      ∧ ((New.AddOutputTarget w0).1.withBacklogDepth 0).Log rt now Error "m"
          = Except.error "integer divide by zero")
    ∧ ∃ l, runCalls rt New
          [Call.setBacklogDepth 4, Call.addOutputTarget w0,
            Call.addOutputTargetAndFormatter w1 (LogFormatter.json jf),
            Call.addOutputTarget w2, Call.addTag "k" (TagValue.int 1)] = Except.ok (l, [])
        ∧ Error < l.triggerLevel ∧ l.level ≤ Error
        ∧ l.outputTargets.length = 3
        ∧ l.outputFormatters =
            [LogFormatter.text { timeFormat := timeANSIC },
              LogFormatter.json jf, LogFormatter.text { timeFormat := timeANSIC }]
        ∧ l.Log rt now Error "m" = Except.error "assignment to entry in nil map"
        ∧ (LogFormatter.text { timeFormat := timeANSIC }).Format rt (NewEntry Error now "m" l.tags)
            = Except.ok (rt.formatTime timeANSIC now ++ " [" ++ "ERROR" ++ "] " ++ "k: 1 " ++ "m" ++ "\n")
        ∧ (LogFormatter.json jf).Format rt
              (NewEntry Error now "m" l.tags)
            = Except.error "assignment to entry in nil map" :=
  ⟨⟨rfl, by show (4 : Int) < 5; omega, by show (4 : Int) ≤ 4; omega, rfl⟩,
   _, rfl, by show (4 : Int) < 5; omega, by show (4 : Int) ≤ 4; omega, rfl, rfl, rfl, rfl, rfl⟩

/-! ## The drain that panics -/

/-- C22: a drain does not always write every stored entry and reset the buffer.
On a log of depth 4 with a text formatter at sink 0 and a JSON formatter at sink
1, one tag and one buffered entry (`Log(Trace, "a")`, below the engine level):
the cursors differ, the slot holds the entry, and `dumpBuffer` panics when the
JSON formatter renders the entry (the text formatter at index 0 renders it), so
the drain neither finishes nor resets the buffer; the triggering call
`Log(Fatal, "b")` panics the same way. -/
theorem drain_panics_on_tagged_entry (rt : Runtime) (w0 w1 : Writer) (jf : JSONFormatter) :
    ∃ l, runCalls rt New
          [Call.setBacklogDepth 4, Call.addOutputTarget w0,
            Call.addOutputTargetAndFormatter w1 (LogFormatter.json jf),
            Call.addTag "k" (TagValue.int 1), Call.log 1 Trace "a"] = Except.ok (l, [])
        ∧ l.firstEntry = 0 ∧ l.nextEntry = 1
        ∧ l.bufferedMessages
            = [some (NewEntry Trace 1 "a" [CreateTag "k" (TagValue.int 1)]), none, none, none]
        ∧ l.outputFormatters =
            [LogFormatter.text { timeFormat := timeANSIC },
              LogFormatter.json jf]
        ∧ l.dumpBuffer rt = Except.error "assignment to entry in nil map"
        ∧ l.Log rt 2 Fatal "b" = Except.error "assignment to entry in nil map"
        ∧ (LogFormatter.text { timeFormat := timeANSIC }).Format rt
              (NewEntry Trace 1 "a" [CreateTag "k" (TagValue.int 1)])
            = Except.ok (rt.formatTime timeANSIC 1 ++ " [" ++ "TRACE" ++ "] " ++ "k: 1 " ++ "a" ++ "\n")
        ∧ (LogFormatter.json jf).Format rt
              (NewEntry Trace 1 "a" [CreateTag "k" (TagValue.int 1)])
            = Except.error "assignment to entry in nil map" :=
  ⟨_, rfl, rfl, rfl, rfl, rfl, rfl, rfl, rfl, rfl⟩

/-! ## Runs of one message -/

/-- The counter of repeats is a 64 bit integer: at two to the power 63 less one a
further repeat wraps it to the least value, and a different message then stores
its own entry alone, without a compacted entry. -/
theorem repeat_count_wraps :
    ({ retainedLog with duplicateCount := 9223372036854775807 } : Log).buffer
        (NewEntry Trace 3 "x" [])
      = Except.ok ({ retainedLog with
          duplicateCount := -9223372036854775808
          lastLog := some (NewEntry Trace 3 "x" []) } : Log)
    ∧ ({ retainedLog with
          duplicateCount := -9223372036854775808
          lastLog := some (NewEntry Trace 3 "x" []) } : Log).buffer (NewEntry Trace 4 "z" [])
      = Except.ok ({ retainedLog with
          duplicateCount := 0
          lastLog := some (NewEntry Trace 4 "z" [])
          bufferedMessages := [some (NewEntry Trace 4 "z" []), none, none, none]
          nextEntry := 1 } : Log) :=
  ⟨rfl, rfl⟩

/-- C14, amended: with compaction on, for `Log` calls that return.  (1) A call
below the trigger level whose message is that of the call right before it stores
nothing: cursors and slots are those the call before left.  (2) On a log the
public calls produce from `New`: when a message `m`, logged while the retained
last entry (if any) had another message, has been followed by `r ≥ 2` repeats
below the trigger level (`r` below two to the power 63, the range of the
counter), the next call with a different message below the trigger level, made
with two slots left before the wrap (`nextEntry + 2 ≤ backlogDepth`), moves
`nextEntry` on by exactly 2, storing first an entry reading `m` followed by
`" (r)"`, with the level and timestamp of the last repeat, and then the new
entry; the repeats have stored nothing. -/
theorem repeats_store_nothing_then_two (rt : Runtime) :
    (∀ (l s1 s2 : Log) (t1 t2 : Instant) (lv1 lv2 : LogLevel) (m : String)
        (ev1 ev2 : List Event),
      l.compactDuplicates = true → lv2 < l.triggerLevel →
      l.Log rt t1 lv1 m = Except.ok (s1, ev1) →
      s1.Log rt t2 lv2 m = Except.ok (s2, ev2) →
      s2.firstEntry = s1.firstEntry ∧ s2.nextEntry = s1.nextEntry
        ∧ s2.bufferedMessages = s1.bufferedMessages)
    ∧ (∀ (calls : List Call) (evs : List Event) (l s0 s s1 : Log) (m other : String)
        (lv0 lvOther : LogLevel) (t0 tOther : Instant) (reps : List (Instant × LogLevel))
        (ev0 ev ev1 : List Event),
      runCalls rt New calls = Except.ok (l, evs) →
      l.compactDuplicates = true →
      (∀ last, l.lastLog = some last → last.message ≠ m) →
      2 ≤ reps.length → (reps.length : Int) < 2 ^ 63 →
      (∀ p ∈ reps, p.2 < l.triggerLevel) →
      other ≠ m → lvOther < l.triggerLevel →
      l.Log rt t0 lv0 m = Except.ok (s0, ev0) →
      runLogs rt s0 (reps.map (fun p => (p.1, p.2, m))) = Except.ok (s, ev) →
      s.nextEntry + 2 ≤ s.backlogDepth →
      s.Log rt tOther lvOther other = Except.ok (s1, ev1) →
      (s.firstEntry = s0.firstEntry ∧ s.nextEntry = s0.nextEntry
        ∧ s.bufferedMessages = s0.bufferedMessages)
      ∧ s1.firstEntry = s.firstEntry ∧ s1.nextEntry = s.nextEntry + 2
      ∧ ∃ lastRepeat, s.lastLog = some lastRepeat ∧ lastRepeat.message = m
          ∧ lastRepeat = reps.foldl (fun _ p => NewEntry p.2 p.1 m l.tags) (NewEntry lv0 t0 m l.tags)
          ∧ s1.bufferedMessages =
            (s.bufferedMessages.set s.nextEntry.toNat
              (some (NewEntry lastRepeat.level lastRepeat.timestamp
                (m ++ " (" ++ sprintD (reps.length : Int) ++ ")") l.tags))).set
              (s.nextEntry.toNat + 1) (some (NewEntry lvOther tOther other l.tags))) := by
  constructor
  · intro l s1 s2 t1 t2 lv1 lv2 m ev1 ev2 hc hlt2 h1 h2
    have hset := Log_sameSettings rt l s1 t1 lv1 m ev1 h1
    have hlast := Log_returns_lastLog rt l s1 t1 lv1 m ev1 hc h1
    have hc1 : s1.compactDuplicates = true := by rw [hset.2.2.2.1]; exact hc
    have hb := Log_returns_push rt s1 s2 t2 lv2 m ev2 (by rw [hset.2.1]; exact hlt2) h2
    rw [buffer_duplicate s1 (NewEntry lv2 t2 m s1.tags) (NewEntry lv1 t1 m l.tags) hc1 hlast rfl]
      at hb
    injection hb with hb
    subst hb
    exact ⟨rfl, rfl, rfl⟩
  · intro calls evs l s0 s s1 m other lv0 lvOther t0 tOther reps ev0 ev ev1 hreach hc hprev hr
      hbig hlv hne hltOther hfirst hreps hroom hother
    have hnone := runCalls_count_zero rt calls l evs hreach
    obtain ⟨b, hb, hl0, hd0⟩ := Log_returns_dedup rt l s0 t0 lv0 m ev0 hfirst
    obtain ⟨hbl, hbd, _, _⟩ :=
      buffer_first_occurrence l b (NewEntry lv0 t0 m l.tags) hc hnone hprev hb
    have hset := Log_sameSettings rt l s0 t0 lv0 m ev0 hfirst
    have hcount0 : s0.duplicateCount = 0 := by rw [hd0, hbd]
    obtain ⟨k1, k2, k3, k4, _, k6, k7, _, k9⟩ :=
      run_then_other rt s0 s s1 (NewEntry lv0 t0 m l.tags) m other lvOther tOther reps ev ev1
        (by rw [hset.2.2.2.1]; exact hc) (by rw [hl0, hbl]) rfl (by rw [hcount0])
        (by rw [hcount0]; omega) (by rw [hcount0]; omega)
        (by intro p hp; rw [hset.2.1]; exact hlv p hp) hne (by rw [hset.2.1]; exact hltOther)
        hreps hroom hother
    rw [hset.2.2.2.2.2.2] at k4 k9
    refine ⟨⟨k1, k2, k3⟩, k6, k7, _, k4, foldl_repeat_message m l.tags reps _ rfl, rfl, ?_⟩
    rw [k9, hcount0, zero_add]

/-- C5, amended: with compaction on, on a log the public calls produce from
`New`, for `N ≥ 3` calls with the message `m` at one level below the trigger
level and then a different message below the trigger level, made with two slots
left before the wrap, when all these calls return.  (1) If the retained last
entry (if any) has another message than `m` (and `N` is at most two to the power
63): the first occurrence of `m` is stored as logged, the `N - 1` repeats store
nothing, and the different message stores exactly one compacted entry, reading
`m` followed by `" (N-1)"` with the level and timestamp of the last repeat, and
then its own entry.  (2) If the log retains an entry with the message `m` and a
count `c ≥ 0` (with `c + N` below two to the power 63): all `N` calls store
nothing, and the different message stores exactly one compacted entry, reading
`m` followed by `" (c+N)"`, and then its own entry.  In both cases the count is
back to 0. -/
theorem duplicate_run_compacted (rt : Runtime) (calls : List Call) (evs : List Event)
    (l s0 s s1 : Log) (m other : String) (lv lvOther : LogLevel) (ts : Nat → Instant)
    (tOther : Instant) (N : Nat) (ev0 ev ev1 : List Event)
    (hreach : runCalls rt New calls = Except.ok (l, evs))
    (hc : l.compactDuplicates = true) (hN : 3 ≤ N) (hne : other ≠ m)
    (hlt : lv < l.triggerLevel) (hltOther : lvOther < l.triggerLevel)
    (hfirst : l.Log rt (ts 0) lv m = Except.ok (s0, ev0))
    (hreps : runLogs rt s0 ((List.range' 1 (N - 1)).map (fun i => (ts i, lv, m)))
      = Except.ok (s, ev))
    (hroom : s.nextEntry + 2 ≤ s.backlogDepth)
    (hother : s.Log rt tOther lvOther other = Except.ok (s1, ev1)) :
    ((∀ last, l.lastLog = some last → last.message ≠ m) → (N : Int) ≤ 2 ^ 63 →
      1 ≤ s0.nextEntry
      ∧ s0.bufferedMessages[(s0.nextEntry - 1).toNat]? = some (some (NewEntry lv (ts 0) m l.tags))
      ∧ s.firstEntry = s0.firstEntry ∧ s.nextEntry = s0.nextEntry
      ∧ s.bufferedMessages = s0.bufferedMessages
      ∧ s1.firstEntry = s.firstEntry ∧ s1.nextEntry = s.nextEntry + 2
      ∧ s1.bufferedMessages =
          (s.bufferedMessages.set s.nextEntry.toNat
            (some (NewEntry lv (ts (N - 1)) (m ++ " (" ++ sprintD ((N : Int) - 1) ++ ")") l.tags))).set
            (s.nextEntry.toNat + 1) (some (NewEntry lvOther tOther other l.tags))
      ∧ s1.duplicateCount = 0)
    ∧ (∀ last, l.lastLog = some last → last.message = m →
        0 ≤ l.duplicateCount → l.duplicateCount + (N : Int) < 2 ^ 63 →
      s.firstEntry = l.firstEntry ∧ s.nextEntry = l.nextEntry
      ∧ s.bufferedMessages = l.bufferedMessages
      ∧ s1.firstEntry = s.firstEntry ∧ s1.nextEntry = s.nextEntry + 2
      ∧ s1.bufferedMessages =
          (s.bufferedMessages.set s.nextEntry.toNat
            (some (NewEntry lv (ts (N - 1))
              (m ++ " (" ++ sprintD (l.duplicateCount + (N : Int)) ++ ")") l.tags))).set
            (s.nextEntry.toNat + 1) (some (NewEntry lvOther tOther other l.tags))
      ∧ s1.duplicateCount = 0) := by
  obtain ⟨n, rfl⟩ : ∃ n, N = n + 3 := ⟨N - 3, by omega⟩
  have hset := Log_sameSettings rt l s0 (ts 0) lv m ev0 hfirst
  have hb := Log_returns_push rt l s0 (ts 0) lv m ev0 hlt hfirst
  have hmap : (List.range' 1 (n + 3 - 1)).map (fun i => (ts i, lv, m))
      = ((List.range' 1 (n + 1 + 1)).map (fun i => (ts i, lv))).map (fun p => (p.1, p.2, m)) := by
    rw [List.map_map]
    rfl
  rw [hmap] at hreps
  have hlen : ((((List.range' 1 (n + 1 + 1)).map (fun i => (ts i, lv))).length : Nat) : Int)
      = (n : Int) + 2 := by
    rw [List.length_map, List.length_range']
    push_cast
    omega
  have hlevels : ∀ p ∈ (List.range' 1 (n + 1 + 1)).map (fun i => (ts i, lv)),
      p.2 < s0.triggerLevel := by
    intro p hp
    obtain ⟨i, _, hi⟩ := List.mem_map.mp hp
    subst hi
    rw [hset.2.1]
    exact hlt
  have hidx : n + 3 - 1 = 1 + (n + 1) := by omega
  have hcast : (((n + 3 : Nat) : Int)) = (n : Int) + 3 := by push_cast; rfl
  constructor
  · intro hprev hbig
    have hnone := runCalls_count_zero rt calls l evs hreach
    obtain ⟨hbl, hbd, hst1, hst2⟩ :=
      buffer_first_occurrence l s0 (NewEntry lv (ts 0) m l.tags) hc hnone hprev hb
    obtain ⟨k1, k2, k3, _, _, k6, k7, k8, k9⟩ :=
      run_then_other rt s0 s s1 (NewEntry lv (ts 0) m l.tags) m other lvOther tOther _ ev ev1
        (by rw [hset.2.2.2.1]; exact hc) hbl rfl (by rw [hbd])
        (by rw [hbd, hlen]; rw [hcast] at hbig; omega) (by rw [hbd, hlen]; omega)
        hlevels hne (by rw [hset.2.1]; exact hltOther) hreps hroom hother
    refine ⟨hst1, hst2, k1, k2, k3, k6, k7, ?_, k8⟩
    rw [k9, foldl_repeat_range m s0.tags lv ts (n + 1) 1, hset.2.2.2.2.2.2, hbd, hlen, hidx, hcast]
    have harith : (0 : Int) + ((n : Int) + 2) = (n : Int) + 3 - 1 := by omega
    rw [harith]
    rfl
  · intro last hl hm h0 hbig
    rw [buffer_duplicate l (NewEntry lv (ts 0) m l.tags) last hc hl hm.symm] at hb
    rw [hcast] at hbig
    rw [wrapInt64_of_range _ (by omega) (by omega)] at hb
    injection hb with hb
    obtain ⟨k1, k2, k3, _, _, k6, k7, k8, k9⟩ :=
      run_then_other rt s0 s s1 (NewEntry lv (ts 0) m l.tags) m other lvOther tOther _ ev ev1
        (by rw [hset.2.2.2.1]; exact hc) (by rw [← hb]) rfl
        (by rw [← hb]; show (0 : Int) ≤ l.duplicateCount + 1; omega)
        (by rw [hlen, ← hb]; show l.duplicateCount + 1 + ((n : Int) + 2) < 2 ^ 63; omega)
        (by rw [hlen, ← hb]; show (1 : Int) < l.duplicateCount + 1 + ((n : Int) + 2); omega)
        hlevels hne (by rw [hset.2.1]; exact hltOther) hreps hroom hother
    have hf : s0.firstEntry = l.firstEntry := by rw [← hb]
    have hn : s0.nextEntry = l.nextEntry := by rw [← hb]
    have hbm : s0.bufferedMessages = l.bufferedMessages := by rw [← hb]
    have hdc : s0.duplicateCount = l.duplicateCount + 1 := by rw [← hb]
    refine ⟨k1.trans hf, k2.trans hn, k3.trans hbm, k6, k7, ?_, k8⟩
    rw [k9, foldl_repeat_range m s0.tags lv ts (n + 1) 1, hset.2.2.2.2.2.2, hdc, hlen, hidx, hcast]
    have harith : l.duplicateCount + 1 + ((n : Int) + 2) = l.duplicateCount + ((n : Int) + 3) := by
      omega
    rw [harith]
    rfl

/-- Witness of C14 (amended).  (1) On `twoSinkLog`, `"m"` at `Error` twice: the
second call leaves cursors and slots as the first left them.  (2) On
`pendingRunLog` (reached by public calls; a run of `"p"` is pending): `"m"`, two
repeats of `"m"` (at `Trace` and at `Debug`) and then `"z"`: `nextEntry` goes
from 3 to 5 and the slots read `p`, `p (2)`, `m`, `m (2)`, `z`. -/
theorem repeats_store_nothing_then_two_witness :
    (∃ s1 ev1 s2 ev2,
        (twoSinkLog.compactDuplicates = true ∧ Error < twoSinkLog.triggerLevel)
        ∧ twoSinkLog.Log sampleRuntime 1 Error "m" = Except.ok (s1, ev1)
        ∧ s1.Log sampleRuntime 2 Error "m" = Except.ok (s2, ev2)
        ∧ (s1.firstEntry = 0 ∧ s1.nextEntry = 1)
        ∧ (s2.firstEntry = s1.firstEntry ∧ s2.nextEntry = s1.nextEntry
          ∧ s2.bufferedMessages = s1.bufferedMessages))
    ∧ (∃ s0 s s1 ev0 ev ev1,
        runCalls sampleRuntime New
            [Call.setBacklogDepth 6, Call.addOutputTarget goodWriter, Call.log 1 Trace "p",
              Call.log 2 Trace "p", Call.log 3 Trace "p"] = Except.ok (pendingRunLog, [])
        ∧ (pendingRunLog.compactDuplicates = true
          ∧ pendingRunLog.lastLog = some (NewEntry Trace 3 "p" [])
          ∧ "z" ≠ "m" ∧ Trace < pendingRunLog.triggerLevel ∧ Debug < pendingRunLog.triggerLevel)
        ∧ pendingRunLog.Log sampleRuntime 10 Trace "m" = Except.ok (s0, ev0)
        ∧ runLogs sampleRuntime s0 [(11, Trace, "m"), (12, Debug, "m")] = Except.ok (s, ev)
        ∧ s.nextEntry + 2 ≤ s.backlogDepth
        ∧ s.Log sampleRuntime 20 Trace "z" = Except.ok (s1, ev1)
        ∧ s.nextEntry = 3
        ∧ s1.slotMessages = [some "p", some "p (2)", some "m", some "m (2)", some "z", none]
        ∧ ((s.firstEntry = s0.firstEntry ∧ s.nextEntry = s0.nextEntry
            ∧ s.bufferedMessages = s0.bufferedMessages)
          ∧ s1.firstEntry = s.firstEntry ∧ s1.nextEntry = s.nextEntry + 2)) := by
  constructor
  · have h1 : twoSinkLog.Log sampleRuntime 1 Error "m" = Except.ok
        ({ twoSinkLog with
            lastLog := some (NewEntry Error 1 "m" [])
            bufferedMessages := [some (NewEntry Error 1 "m" []), none, none, none]
            nextEntry := 1 },
          [Event.write 0 "1 [ERROR] m\n", Event.diag "failed to write to logger: 0",
            Event.write 1 "1 [ERROR] m\n"]) := rfl
    have h2 : Log.Log sampleRuntime ({ twoSinkLog with
            lastLog := some (NewEntry Error 1 "m" [])
            bufferedMessages := [some (NewEntry Error 1 "m" []), none, none, none]
            nextEntry := 1 } : Log) 2 Error "m" = Except.ok
        ({ twoSinkLog with
            lastLog := some (NewEntry Error 2 "m" [])
            duplicateCount := 1
            bufferedMessages := [some (NewEntry Error 1 "m" []), none, none, none]
            nextEntry := 1 },
          [Event.write 0 "2 [ERROR] m\n", Event.diag "failed to write to logger: 0",
            Event.write 1 "2 [ERROR] m\n"]) := rfl
    exact ⟨_, _, _, _, ⟨rfl, by decide⟩, h1, h2, ⟨rfl, rfl⟩,
      (repeats_store_nothing_then_two sampleRuntime).1 twoSinkLog _ _ 1 2 Error Error "m" _ _
        rfl (by decide) h1 h2⟩
  · have h0 : pendingRunLog.Log sampleRuntime 10 Trace "m" = Except.ok
        ({ pendingRunLog with
            lastLog := some (NewEntry Trace 10 "m" [])
            duplicateCount := 0
            bufferedMessages := [some (NewEntry Trace 1 "p" []), some (NewEntry Trace 3 "p (2)" []),
              some (NewEntry Trace 10 "m" []), none, none, none]
            nextEntry := 3 }, []) := rfl
    have hr : runLogs sampleRuntime ({ pendingRunLog with
            lastLog := some (NewEntry Trace 10 "m" [])
            duplicateCount := 0
            bufferedMessages := [some (NewEntry Trace 1 "p" []), some (NewEntry Trace 3 "p (2)" []),
              some (NewEntry Trace 10 "m" []), none, none, none]
            nextEntry := 3 } : Log) [(11, Trace, "m"), (12, Debug, "m")] = Except.ok
        ({ pendingRunLog with
            lastLog := some (NewEntry Debug 12 "m" [])
            duplicateCount := 2
            bufferedMessages := [some (NewEntry Trace 1 "p" []), some (NewEntry Trace 3 "p (2)" []),
              some (NewEntry Trace 10 "m" []), none, none, none]
            nextEntry := 3 }, []) := rfl
    have h1 : Log.Log sampleRuntime ({ pendingRunLog with
            lastLog := some (NewEntry Debug 12 "m" [])
            duplicateCount := 2
            bufferedMessages := [some (NewEntry Trace 1 "p" []), some (NewEntry Trace 3 "p (2)" []),
              some (NewEntry Trace 10 "m" []), none, none, none]
            nextEntry := 3 } : Log) 20 Trace "z" = Except.ok
        ({ pendingRunLog with
            lastLog := some (NewEntry Trace 20 "z" [])
            duplicateCount := 0
            bufferedMessages := [some (NewEntry Trace 1 "p" []), some (NewEntry Trace 3 "p (2)" []),
              some (NewEntry Trace 10 "m" []), some (NewEntry Debug 12 "m (2)" []),
              some (NewEntry Trace 20 "z" []), none]
            nextEntry := 5 }, []) := rfl
    obtain ⟨k1, k2, k3, _⟩ := (repeats_store_nothing_then_two sampleRuntime).2
      [Call.setBacklogDepth 6, Call.addOutputTarget goodWriter, Call.log 1 Trace "p",
        Call.log 2 Trace "p", Call.log 3 Trace "p"] [] pendingRunLog _ _ _ "m" "z" Trace Trace 10 20
      [(11, Trace), (12, Debug)] _ _ _ rfl rfl
      (by
        intro last h
        have hl : pendingRunLog.lastLog = some (NewEntry Trace 3 "p" []) := rfl
        rw [hl] at h
        injection h with h
        subst h
        decide)
      (by decide) (by norm_num)
      (by
        intro p hp
        have hp2 : p = (11, Trace) ∨ p = (12, Debug) := by simpa using hp
        rcases hp2 with h | h
        · subst h
          decide
        · subst h
          decide)
      (by decide) (by decide) h0 hr (by decide) h1
    exact ⟨_, _, _, _, _, _, rfl, ⟨rfl, rfl, by decide, by decide, by decide⟩, h0, hr,
      by decide, h1, rfl, rfl, k1, k2, k3⟩

/-- C14, counterexample: on a log made by `New` and set to depth 4.
(1) `Log(Trace, "x")` leaves the cursors at (0, 1); the triggering
`Log(Fatal, "x")` right after it, with the same message, stores nothing but
drains, and the cursors are (0, 0).  (2) After `"m"` three times the cursors are
(0, 1); the triggering `Log(Fatal, "z")` leaves them at (0, 0), not at (0, 3).
(3) `"x"` logged, compaction switched off, `"y"` logged, compaction switched on,
then `"x"` three times (a message followed by two repeats) and `"z"`, all at
`Trace`: the first of the three is not stored and the entry stored before `"z"`
reads `x (3)`, not `x (2)`. -/
theorem triggering_repeat_counterexample :
    New.SetBacklogDepth 4 = Except.ok (New.withBacklogDepth 4, none)
    ∧ cursorsAfter (runLogs sampleRuntime (New.withBacklogDepth 4) [(1, Trace, "x")]) = some (0, 1)
    ∧ cursorsAfter (runLogs sampleRuntime (New.withBacklogDepth 4)
        [(1, Trace, "x"), (2, Fatal, "x")]) = some (0, 0)
    ∧ cursorsAfter (runLogs sampleRuntime (New.withBacklogDepth 4)
        [(1, Trace, "m"), (2, Trace, "m"), (3, Trace, "m")]) = some (0, 1)
    ∧ cursorsAfter (runLogs sampleRuntime (New.withBacklogDepth 4)
        [(1, Trace, "m"), (2, Trace, "m"), (3, Trace, "m"), (4, Fatal, "z")]) = some (0, 0)
    ∧ slotsAfter (runCalls sampleRuntime New
        [Call.setBacklogDepth 4, Call.log 1 Trace "x", Call.setCompactDuplicates false,
          Call.log 2 Trace "y", Call.setCompactDuplicates true, Call.log 3 Trace "x",
          Call.log 4 Trace "x", Call.log 5 Trace "x", Call.log 6 Trace "z"])
      = some [some "x", some "y", some "x (3)", some "z"] :=
  ⟨rfl, rfl, rfl, rfl, rfl, rfl⟩

/-- Witness of C5 (amended).  (1) On `twoSinkLog` (reached by public calls, no
entry retained): `"m"` three times at `Trace` and then `"z"`: the slots read
`m`, `m (2)`, `z`.  (2) On `retainedLog` (reached by public calls, `"x"`
retained with a count of 0): `"x"` three times at `Trace` and then `"z"`: the
three calls store nothing and the slots read `x (3)`, `z`. -/
theorem duplicate_run_compacted_witness :
    (∃ s0 s s1 ev0 ev ev1,
        runCalls sampleRuntime New
            [Call.setBacklogDepth 4, Call.addOutputTarget brokenWriter,
              Call.addOutputTarget goodWriter] = Except.ok (twoSinkLog, [])
        ∧ (twoSinkLog.compactDuplicates = true ∧ twoSinkLog.lastLog = none ∧ 3 ≤ 3 ∧ "z" ≠ "m"
          ∧ Trace < twoSinkLog.triggerLevel)
        ∧ twoSinkLog.Log sampleRuntime 10 Trace "m" = Except.ok (s0, ev0)
        ∧ runLogs sampleRuntime s0 [(11, Trace, "m"), (12, Trace, "m")] = Except.ok (s, ev)
        ∧ s.nextEntry + 2 ≤ s.backlogDepth
        ∧ s.Log sampleRuntime 20 Trace "z" = Except.ok (s1, ev1)
        ∧ s1.bufferedMessages = [some (NewEntry Trace 10 "m" []),
            some (NewEntry Trace 12 "m (2)" []), some (NewEntry Trace 20 "z" []), none]
        ∧ (s0.bufferedMessages[(s0.nextEntry - 1).toNat]? = some (some (NewEntry Trace 10 "m" []))
          ∧ s.bufferedMessages = s0.bufferedMessages
          ∧ s1.nextEntry = s.nextEntry + 2))
    ∧ (∃ s0 s s1 ev0 ev ev1,
        runCalls sampleRuntime New
            [Call.setBacklogDepth 4, Call.log 1 Trace "x", Call.setCompactDuplicates false,
              Call.log 2 Trace "y", Call.setBacklogDepth 4, Call.setCompactDuplicates true]
          = Except.ok (retainedLog, [])
        ∧ (retainedLog.compactDuplicates = true
          ∧ retainedLog.lastLog = some (NewEntry Trace 1 "x" [])
          ∧ retainedLog.duplicateCount = 0 ∧ "z" ≠ "x" ∧ Trace < retainedLog.triggerLevel)
        ∧ retainedLog.Log sampleRuntime 10 Trace "x" = Except.ok (s0, ev0)
        ∧ runLogs sampleRuntime s0 [(11, Trace, "x"), (12, Trace, "x")] = Except.ok (s, ev)
        ∧ s.nextEntry + 2 ≤ s.backlogDepth
        ∧ s.Log sampleRuntime 20 Trace "z" = Except.ok (s1, ev1)
        ∧ s1.bufferedMessages = [some (NewEntry Trace 12 "x (3)" []),
            some (NewEntry Trace 20 "z" []), none, none]
        ∧ (s.bufferedMessages = retainedLog.bufferedMessages
          ∧ s1.nextEntry = s.nextEntry + 2)) := by
  constructor
  · have h0 : twoSinkLog.Log sampleRuntime 10 Trace "m" = Except.ok
        ({ twoSinkLog with
            lastLog := some (NewEntry Trace 10 "m" [])
            bufferedMessages := [some (NewEntry Trace 10 "m" []), none, none, none]
            nextEntry := 1 }, []) := rfl
    have hr : runLogs sampleRuntime ({ twoSinkLog with
            lastLog := some (NewEntry Trace 10 "m" [])
            bufferedMessages := [some (NewEntry Trace 10 "m" []), none, none, none]
            nextEntry := 1 } : Log) [(11, Trace, "m"), (12, Trace, "m")] = Except.ok
        ({ twoSinkLog with
            lastLog := some (NewEntry Trace 12 "m" [])
            duplicateCount := 2
            bufferedMessages := [some (NewEntry Trace 10 "m" []), none, none, none]
            nextEntry := 1 }, []) := rfl
    have h1 : Log.Log sampleRuntime ({ twoSinkLog with
            lastLog := some (NewEntry Trace 12 "m" [])
            duplicateCount := 2
            bufferedMessages := [some (NewEntry Trace 10 "m" []), none, none, none]
            nextEntry := 1 } : Log) 20 Trace "z" = Except.ok
        ({ twoSinkLog with
            lastLog := some (NewEntry Trace 20 "z" [])
            duplicateCount := 0
            bufferedMessages := [some (NewEntry Trace 10 "m" []),
              some (NewEntry Trace 12 "m (2)" []), some (NewEntry Trace 20 "z" []), none]
            nextEntry := 3 }, []) := rfl
    obtain ⟨_, k2, _, _, k5, _, k7, _⟩ := (duplicate_run_compacted sampleRuntime
      [Call.setBacklogDepth 4, Call.addOutputTarget brokenWriter, Call.addOutputTarget goodWriter]
      [] twoSinkLog _ _ _ "m" "z" Trace Trace (fun i => 10 + i) 20 3 _ _ _
      rfl rfl (by decide) (by decide) (by decide) (by decide) h0 hr (by decide) h1).1
      (fun last h => by cases h) (by norm_num)
    exact ⟨_, _, _, _, _, _, rfl, ⟨rfl, rfl, by decide, by decide, by decide⟩, h0, hr,
      by decide, h1, rfl, k2, k5, k7⟩
  · have h0 : retainedLog.Log sampleRuntime 10 Trace "x" = Except.ok
        ({ retainedLog with
            lastLog := some (NewEntry Trace 10 "x" [])
            duplicateCount := 1 }, []) := rfl
    have hr : runLogs sampleRuntime ({ retainedLog with
            lastLog := some (NewEntry Trace 10 "x" [])
            duplicateCount := 1 } : Log) [(11, Trace, "x"), (12, Trace, "x")] = Except.ok
        ({ retainedLog with
            lastLog := some (NewEntry Trace 12 "x" [])
            duplicateCount := 3 }, []) := rfl
    have h1 : Log.Log sampleRuntime ({ retainedLog with
            lastLog := some (NewEntry Trace 12 "x" [])
            duplicateCount := 3 } : Log) 20 Trace "z" = Except.ok
        ({ retainedLog with
            lastLog := some (NewEntry Trace 20 "z" [])
            duplicateCount := 0
            bufferedMessages := [some (NewEntry Trace 12 "x (3)" []),
              some (NewEntry Trace 20 "z" []), none, none]
            nextEntry := 2 }, []) := rfl
    obtain ⟨_, _, k3, _, k5, _⟩ := (duplicate_run_compacted sampleRuntime
      [Call.setBacklogDepth 4, Call.log 1 Trace "x", Call.setCompactDuplicates false,
        Call.log 2 Trace "y", Call.setBacklogDepth 4, Call.setCompactDuplicates true]
      [] retainedLog _ _ _ "x" "z" Trace Trace (fun i => 10 + i) 20 3 _ _ _
      rfl rfl (by decide) (by decide) (by decide) (by decide) h0 hr (by decide) h1).2
      (NewEntry Trace 1 "x" []) rfl rfl (by decide) (by decide)
    exact ⟨_, _, _, _, _, _, rfl, ⟨rfl, rfl, rfl, by decide, by decide⟩, h0, hr,
      by decide, h1, rfl, k3, k5⟩

/-- C5, counterexample: on a log made by `New` and set to depth 4.  (1) `"m"`
logged three times at `Trace` and then `"z"` (N = 3): the run of `"m"` leaves two
entries, `m` and `m (2)`; no slot reads `m (3)`.  (2) With one sink, `"m"` three
times at `Trace` and then the triggering `Log(Fatal, "z")`: the entries `m`,
`m (2)` and `z` are written and the backlog is left with no entry at all.
(3) With one sink, `"m"` twice at `Trace` and then the triggering
`Log(Fatal, "m")`: the first `"m"` alone is written, no compacted entry is made,
and the backlog is left with no entry.  (4) `"m"` logged twice at `Trace` and
then `"z"` (N = 2): the run leaves the entry `m` alone, no compacted entry. -/
theorem duplicate_run_counterexample :
    New.SetBacklogDepth 4 = Except.ok (New.withBacklogDepth 4, none)
    ∧ slotsAfter (runLogs sampleRuntime (New.withBacklogDepth 4)
        [(10, Trace, "m"), (11, Trace, "m"), (12, Trace, "m"), (20, Trace, "z")])
      = some [some "m", some "m (2)", some "z", none]
    ∧ some "m (3)" ∉ [some "m", some "m (2)", some "z", none]
    ∧ (∃ l, runLogs sampleRuntime ((New.withBacklogDepth 4).AddOutputTarget goodWriter).1
          [(10, Trace, "m"), (11, Trace, "m"), (12, Trace, "m"), (20, Fatal, "z")]
        = Except.ok (l, [Event.write 0 "10 [TRACE] m\n", Event.write 0 "12 [TRACE] m (2)\n",
            Event.write 0 "20 [FATAL] z\n"])
      ∧ l.slotMessages = [none, none, none, none])
    ∧ (∃ l, runLogs sampleRuntime ((New.withBacklogDepth 4).AddOutputTarget goodWriter).1
          [(10, Trace, "m"), (11, Trace, "m"), (12, Fatal, "m")]
        = Except.ok (l, [Event.write 0 "10 [TRACE] m\n"])
      ∧ l.slotMessages = [none, none, none, none])
    ∧ slotsAfter (runLogs sampleRuntime (New.withBacklogDepth 4)
        [(10, Trace, "m"), (11, Trace, "m"), (20, Trace, "z")])
      = some [some "m", some "z", none, none] :=
  ⟨rfl, rfl, by decide, ⟨_, rfl, rfl⟩, ⟨_, rfl, rfl⟩, rfl⟩

/-! ## Level names outside ASCII -/

/-- The two runes outside ASCII whose lower case is an ASCII letter are lowered
as Go lowers them: a level name written with U+0130 for `I`, or with an upper
case letter of ASCII, is still found; any other text gives `Error`. -/
theorem convertStringToLevel_lowers_runes :
    convertStringToLevel "\u0130NFORMATION" = Information
    ∧ convertStringToLevel "WARN\u0130NG" = Warning
    ∧ convertStringToLevel "Debug" = Debug
    ∧ convertStringToLevel "d\u00e9bug" = Error
    ∧ toLower "\u212A" = "k" :=
  ⟨by decide, by decide, by decide, by decide, by decide⟩

end Pflog
